import Mathlib

/-!
# HfSelOptimisation: a shallow embedding of `Analysis/Tasks/PWGHF/HFSelOptimisation.cxx`

The task classifies heavy-flavour decay candidates (prompt, non-prompt,
background, per decay channel) and, for every classified candidate, scans five
grids of selection thresholds, filling one 1D histogram (yield versus pT) and
up to five 2D histograms (pT versus threshold index).

Conventions of the embedding.

* Floating-point quantities (`float`, `double`) are represented by rational
  numbers, the constant thresholds by the rationals their decimal literals
  denote; only comparisons are performed on them, and NaN is excluded by
  typing.
* Bin contents (`TH1F`, `TH2F`) are unbounded naturals.
* A run that throws (a histogram looked up under a name that was never
  registered, or under the wrong histogram type) or that reads a C array out of
  bounds has no result: it is `none`.
-/

namespace HfSelOptimisation

/-! ## Constants of the anonymous namespace

The `float` thresholds are modelled by the rational numbers their decimal
literals denote. The values the arrays store are the nearest binary32 numbers,
which differ from the literals by rounding except for 0, 0.5 and 0.75; the
statements on the comparisons are made for whatever value a scan reads at an
index. -/

/-- Number of entries of `cospCuts` (source line 31). -/
def nCospCutsToTest : Nat := 15
/-- Number of entries of `decLenCuts`. -/
def nDecLenCutsToTest : Nat := 11
/-- Number of entries of `impParProdCuts`. -/
def nImpParProdCutsToTest : Nat := 11
/-- Number of entries of `minDCAxyCuts`. -/
def nMinDCAxyCutsToTest : Nat := 9
/-- Number of entries of `minTrackPtCuts`. -/
def nMinTrackPtCutsToTest : Nat := 7

/-- The constant array `cospCuts[nCospCutsToTest]`. -/
def cospCuts : List ℚ :=
  [0.70, 0.75, 0.80, 0.85, 0.88, 0.90, 0.92, 0.93, 0.94, 0.95, 0.96, 0.97, 0.98, 0.99, 0.995]
/-- The constant array `decLenCuts[nDecLenCutsToTest]`. -/
def decLenCuts : List ℚ :=
  [0, 0.005, 0.01, 0.015, 0.02, 0.025, 0.03, 0.04, 0.05, 0.075, 0.1]
/-- The constant array `impParProdCuts[nImpParProdCutsToTest]`. -/
def impParProdCuts : List ℚ :=
  [-0.00005, -0.00004, -0.00003, -0.00002, -0.00001, 0, 0.00001, 0.00002, 0.00003, 0.00004,
    0.00005]
/-- The constant array `minDCAxyCuts[nMinDCAxyCutsToTest]`. -/
def minDCAxyCuts : List ℚ :=
  [0, 0.0005, 0.001, 0.0015, 0.0020, 0.0025, 0.0030, 0.0040, 0.0050]
/-- The constant array `minTrackPtCuts[nMinTrackPtCutsToTest]`. -/
def minTrackPtCuts : List ℚ :=
  [0.30, 0.35, 0.40, 0.45, 0.50, 0.55, 0.60]

/-- The vector `cospCutsVec`, built from the whole constant array. -/
def cospCutsVec : List ℚ := cospCuts.take nCospCutsToTest
/-- The vector `decLenCutsVec`. -/
def decLenCutsVec : List ℚ := decLenCuts.take nDecLenCutsToTest
/-- The vector `impParProdCutsVec`. -/
def impParProdCutsVec : List ℚ := impParProdCuts.take nImpParProdCutsToTest
/-- The vector `minDCAxyCutsVec`. -/
def minDCAxyCutsVec : List ℚ := minDCAxyCuts.take nMinDCAxyCutsToTest
/-- The vector `minTrackPtCutsVec`. -/
def minTrackPtCutsVec : List ℚ := minTrackPtCuts.take nMinTrackPtCutsToTest

/-- Modelled from the spec: the enumerator `hf_cand_prong2::DecayType::D0ToPiK`
of `AnalysisDataModel/HFSecondaryVertex.h` (channel index 0 of the two 2-prong
channels). -/
def D0ToPiK : Nat := 0
/-- Modelled from the spec: the enumerator `hf_cand_prong2::DecayType::JpsiToEE`
(channel index 1). -/
def JpsiToEE : Nat := 1
/-- Modelled from the spec: the enumerator
`hf_cand_prong2::DecayType::N2ProngDecays`, the number of 2-prong channels. -/
def N2ProngDecays : Nat := 2

/-- Modelled from the spec: the enumerator
`hf_cand_prong3::DecayType::DPlusToPiKPi` (channel index 0 of the four 3-prong
channels). -/
def DPlusToPiKPi : Nat := 0
/-- Modelled from the spec: the enumerator `hf_cand_prong3::DecayType::LcToPKPi`. -/
def LcToPKPi : Nat := 1
/-- Modelled from the spec: the enumerator `hf_cand_prong3::DecayType::DsToPiKK`. -/
def DsToPiKK : Nat := 2
/-- Modelled from the spec: the enumerator `hf_cand_prong3::DecayType::XicToPKPi`. -/
def XicToPKPi : Nat := 3
/-- Modelled from the spec: the enumerator
`hf_cand_prong3::DecayType::N3ProngDecays`, the number of 3-prong channels. -/
def N3ProngDecays : Nat := 4

/-- The constant `n2Prong` (source line 49). -/
def n2Prong : Nat := N2ProngDecays
/-- The constant `n3Prong` (source line 50). -/
def n3Prong : Nat := N3ProngDecays

/-- Modelled from the spec: the enumerators of `hf_cand::OriginType`; the
true-origin tag is prompt, non-prompt or neither. `OriginPrompt` is
`OriginType::Prompt`. -/
def OriginPrompt : Int := 1
/-- Modelled from the spec: the enumerator `OriginType::NonPrompt`. -/
def OriginNonPrompt : Int := 2

/-- Entry `[candOrig][candType]` of a table of histogram names
(`std::array<std::array<std::string_view, n + 1>, 3>`). -/
def nameAt (table : List (List String)) (candOrig candType : Nat) : String :=
  (table.getD candOrig []).getD candType ""

/-- The table `histoNames2Prong`. -/
def histoNames2Prong : List (List String) :=
  [["hPromptVsPtD0ToPiK", "hPromptVsPtJpsiToEE", "hPromptVsPt2Prong"],
   ["hNonPromptVsPtD0ToPiK", "hNonPromptVsPtJpsiToEE", "hNonPromptVsPt2Prong"],
   ["hBkgVsPtD0ToPiK", "hBkgVsPtJpsiToEE", "hBkgVsPt2Prong"]]
/-- The table `histoCospNames2Prong`. -/
def histoCospNames2Prong : List (List String) :=
  [["hPromptCospVsPtD0ToPiK", "hPromptCospVsPtJpsiToEE", "hPromptCospVsPt2Prong"],
   ["hNonPromptCospVsPtD0ToPiK", "hNonPromptCospVsPtJpsiToEE", "hNonPromptCospVsPt2Prong"],
   ["hBkgCospVsPtD0ToPiK", "hBkgCospVsPtJpsiToEE", "hBkgCospVsPt2Prong"]]
/-- The table `histoDecLenNames2Prong`. -/
def histoDecLenNames2Prong : List (List String) :=
  [["hPromptDecLenVsPtD0ToPiK", "hPromptDecLenVsPtJpsiToEE", "hPromptDecLenVsPt2Prong"],
   ["hNonPromptDecLenVsPtD0ToPiK", "hNonPromptDecLenVsPtJpsiToEE", "hNonPromptDecLenVsPt2Prong"],
   ["hBkgDecLenVsPtD0ToPiK", "hBkgDecLenVsPtJpsiToEE", "hBkgDecLenVsPt2Prong"]]
/-- The table `histoImpParProdNames2Prong`. -/
def histoImpParProdNames2Prong : List (List String) :=
  [["hPromptImpParProdVsPtD0ToPiK", "hPromptImpParProdVsPtJpsiToEE",
      "hPromptImpParProdVsPt2Prong"],
   ["hNonPromptImpParProdVsPtD0ToPiK", "hNonPromptImpParProdVsPtJpsiToEE",
      "hNonPromptImpParProdVsPt2Prong"],
   ["hBkgImpParProdVsPtD0ToPiK", "hBkgImpParProdVsPtJpsiToEE", "hBkgImpParProdVsPt2Prong"]]
/-- The table `histoMinDCAxyNames2Prong`. -/
def histoMinDCAxyNames2Prong : List (List String) :=
  [["hPromptMinDCAxyVsPtD0ToPiK", "hPromptMinDCAxyVsPtJpsiToEE", "hPromptMinDCAxyVsPt2Prong"],
   ["hNonPromptMinDCAxyVsPtD0ToPiK", "hNonPromptMinDCAxyVsPtJpsiToEE",
      "hNonPromptMinDCAxyVsPt2Prong"],
   ["hBkgMinDCAxyVsPtD0ToPiK", "hBkgMinDCAxyVsPtJpsiToEE", "hBkgMinDCAxyVsPt2Prong"]]
/-- The table `histoMinTrackPtNames2Prong`. -/
def histoMinTrackPtNames2Prong : List (List String) :=
  [["hPromptMinTrackPtVsPtD0ToPiK", "hPromptMinTrackPtVsPtJpsiToEE",
      "hPromptMinTrackPtVsPt2Prong"],
   ["hNonPromptMinTrackPtVsPtD0ToPiK", "hNonPromptMinTrackPtVsPtJpsiToEE",
      "hNonPromptMinTrackPtVsPt2Prong"],
   ["hBkgMinTrackPtVsPtD0ToPiK", "hBkgMinTrackPtVsPtJpsiToEE", "hBkgMinTrackPtVsPt2Prong"]]

/-- The table `histoNames3Prong`. -/
def histoNames3Prong : List (List String) :=
  [["hPromptVsPtDPlusToPiKPi", "hPromptVsPtLcToPKPi", "hPromptVsPtDsToPiKK",
      "hPromptVsPtXicToPKPi", "hPromptVsPt3Prong"],
   ["hNonPromptVsPtDPlusToPiKPi", "hNonPromptVsPtLcToPKPi", "hNonPromptVsPtDsToPiKK",
      "hNonPromptVsPtXicToPKPi", "hNonPromptVsPt3Prong"],
   ["hBkgVsPtDPlusToPiKPi", "hBkgVsPtLcToPKPi", "hBkgVsPtDsToPiKK", "hBkgVsPtXicToPKPi",
      "hBkgVsPt3Prong"]]
/-- The table `histoCospNames3Prong`. -/
def histoCospNames3Prong : List (List String) :=
  [["hPromptCospVsPtDPlusToPiKPi", "hPromptCospVsPtLcToPKPi", "hPromptCospVsPtDsToPiKK",
      "hPromptCospVsPtXicToPKPi", "hPromptCospVsPt3Prong"],
   ["hNonPromptCospVsPtDPlusToPiKPi", "hNonPromptCospVsPtLcToPKPi",
      "hNonPromptCospVsPtDsToPiKK", "hNonPromptCospVsPtXicToPKPi", "hNonPromptCospVsPt3Prong"],
   ["hBkgCospVsPtDPlusToPiKPi", "hBkgCospVsPtLcToPKPi", "hBkgCospVsPtDsToPiKK",
      "hBkgCospVsPtXicToPKPi", "hBkgCospVsPt3Prong"]]
/-- The table `histoDecLenNames3Prong`. -/
def histoDecLenNames3Prong : List (List String) :=
  [["hPromptDecLenVsPtDPlusToPiKPi", "hPromptDecLenVsPtLcToPKPi", "hPromptDecLenVsPtDsToPiKK",
      "hPromptDecLenVsPtXicToPKPi", "hPromptDecLenVsPt3Prong"],
   ["hNonPromptDecLenVsPtDPlusToPiKPi", "hNonPromptDecLenVsPtLcToPKPi",
      "hNonPromptDecLenVsPtDsToPiKK", "hNonPromptDecLenVsPtXicToPKPi",
      "hNonPromptDecLenVsPt3Prong"],
   ["hBkgDecLenVsPtDPlusToPiKPi", "hBkgDecLenVsPtLcToPKPi", "hBkgDecLenVsPtDsToPiKK",
      "hBkgDecLenVsPtXicToPKPi", "hBkgDecLenVsPt3Prong"]]
/-- The table `histoMinDCAxyNames3Prong`. -/
def histoMinDCAxyNames3Prong : List (List String) :=
  [["hPromptMinDCAxyVsPtDPlusToPiKPi", "hPromptMinDCAxyVsPtLcToPKPi",
      "hPromptMinDCAxyVsPtDsToPiKK", "hPromptMinDCAxyVsPtXicToPKPi",
      "hPromptMinDCAxyVsPt3Prong"],
   ["hNonPromptMinDCAxyVsPtDPlusToPiKPi", "hNonPromptMinDCAxyVsPtLcToPKPi",
      "hNonPromptMinDCAxyVsPtDsToPiKK", "hNonPromptMinDCAxyVsPtXicToPKPi",
      "hNonPromptMinDCAxyVsPt3Prong"],
   ["hBkgMinDCAxyVsPtDPlusToPiKPi", "hBkgMinDCAxyVsPtLcToPKPi", "hBkgMinDCAxyVsPtDsToPiKK",
      "hBkgMinDCAxyVsPtXicToPKPi", "hBkgMinDCAxyVsPt3Prong"]]
/-- The table `histoMinTrackPtNames3Prong`. -/
def histoMinTrackPtNames3Prong : List (List String) :=
  [["hPromptMinTrackPtVsPtDPlusToPiKPi", "hPromptMinTrackPtVsPtLcToPKPi",
      "hPromptMinTrackPtVsPtDsToPiKK", "hPromptMinTrackPtVsPtXicToPKPi",
      "hPromptMinTrackPtVsPt3Prong"],
   ["hNonPromptMinTrackPtVsPtDPlusToPiKPi", "hNonPromptMinTrackPtVsPtLcToPKPi",
      "hNonPromptMinTrackPtVsPtDsToPiKK", "hNonPromptMinTrackPtVsPtXicToPKPi",
      "hNonPromptMinTrackPtVsPt3Prong"],
   ["hBkgMinTrackPtVsPtDPlusToPiKPi", "hBkgMinTrackPtVsPtLcToPKPi",
      "hBkgMinTrackPtVsPtDsToPiKK", "hBkgMinTrackPtVsPtXicToPKPi",
      "hBkgMinTrackPtVsPt3Prong"]]

/-! ## Histograms and the registry

`HistogramRegistry`, `AxisSpec` and the ROOT histograms are not part of the
task's source file; the part of their behaviour the task relies on is modelled
here. -/

/-- Modelled from the spec: an `AxisSpec`. `nBins = some n` is a quantized
(fixed-width) axis of `n` bins between the two edges; `nBins = none` is a
variable-width axis whose bin limits are `binEdges`. -/
structure AxisSpec where
  nBins : Option Nat
  binEdges : List ℚ

/-- Number of regular bins of an axis (underflow and overflow excluded). -/
def AxisSpec.nbins (a : AxisSpec) : Nat :=
  match a.nBins with
  | some n => n
  | none => a.binEdges.length - 1

/-- Modelled from the spec: the bin a value falls in. Bin 0 is the underflow
bin, bins `1..nbins` are the regular bins, bin `nbins + 1` is the overflow bin.
On a quantized axis the bin is `1 + floor (nbins * (x - min) / (max - min))`;
on a variable-width axis with ascending limits it is the number of limits not
above `x`. -/
def AxisSpec.findBin (a : AxisSpec) (x : ℚ) : Nat :=
  if x < a.binEdges.headD 0 then 0
  else if ¬ x < a.binEdges.getLastD 0 then a.nbins + 1
  else
    match a.nBins with
    | some n =>
        1 + (Int.floor ((n : ℚ) * (x - a.binEdges.headD 0)
              / (a.binEdges.getLastD 0 - a.binEdges.headD 0))).toNat
    | none => (a.binEdges.filter (fun e => decide (e ≤ x))).length

/-- The two histogram types the task books. -/
inductive HistType where
  | kTH1F
  | kTH2F
  deriving DecidableEq, Repr

/-- A booked histogram: its type, its axes and its bin contents. `content ix iy`
is the content of the bin with index `ix` on the first axis and `iy` on the
second; a 1D histogram only uses `iy = 0`. -/
structure Histo where
  type : HistType
  axes : List AxisSpec
  content : Nat → Nat → Nat

/-- The `k`-th axis of a histogram. -/
def Histo.axis (h : Histo) (k : Nat) : AxisSpec := h.axes.getD k ⟨none, []⟩

/-- Add one entry to bin `(ix, iy)`. -/
def Histo.bump (h : Histo) (ix iy : Nat) : Histo :=
  { h with content := fun i j => if i = ix ∧ j = iy then h.content i j + 1 else h.content i j }

/-- The call `TH1::Fill(x)`: one entry more in the bin of `x`. -/
def Histo.Fill1 (h : Histo) (x : ℚ) : Histo := h.bump ((h.axis 0).findBin x) 0

/-- The call `TH2::Fill(x, y)`: one entry more in the bin of `(x, y)`. -/
def Histo.Fill2 (h : Histo) (x y : ℚ) : Histo :=
  h.bump ((h.axis 0).findBin x) ((h.axis 1).findBin y)

/-- Modelled from the spec: the `HistogramRegistry`, the store of all counters,
addressed by histogram name. -/
def Registry : Type := String → Option Histo

/-- The registry `{"registry", {}}`: nothing booked. -/
def Registry.empty : Registry := fun _ => none

/-- Replace the histogram stored under `name`. -/
def Registry.put (reg : Registry) (name : String) (h : Histo) : Registry :=
  fun n => if n = name then some h else reg n

/-- Modelled from the spec: `registry.add(name, "", type, axes)` books an empty
histogram under `name`. -/
def Registry.add (reg : Registry) (name : String) (type : HistType) (axes : List AxisSpec) :
    Registry :=
  reg.put name ⟨type, axes, fun _ _ => 0⟩

/-- Modelled from the spec: `registry.get<T>(HIST(name))`. The lookup creates
nothing: it fails when no histogram was booked under `name`, or when the booked
histogram is not of the requested type. -/
def Registry.get (reg : Registry) (type : HistType) (name : String) : Option Histo :=
  match reg name with
  | some h => if h.type = type then some h else none
  | none => none

/-- The statement `registry.get<TH1>(HIST(name))->Fill(x)`. -/
def Registry.fillTH1 (reg : Registry) (name : String) (x : ℚ) : Option Registry :=
  (reg.get HistType.kTH1F name).map (fun h => reg.put name (h.Fill1 x))

/-- The statement `registry.get<TH2>(HIST(name))->Fill(x, y)`. -/
def Registry.fillTH2 (reg : Registry) (name : String) (x y : ℚ) : Option Registry :=
  (reg.get HistType.kTH2F name).map (fun h => reg.put name (h.Fill2 x y))

/-! ## Configuration, candidates and tracks -/

/-- The configurables of the task. `ptAxis` is the axis the framework builds
from the configurable `ptBinning`. -/
structure Config where
  cospCutsToTest : List ℚ
  decLenCutsToTest : List ℚ
  impParProdCutsToTest : List ℚ
  minDCAxyCutsToTest : List ℚ
  minTrackPtCutsToTest : List ℚ
  ptAxis : AxisSpec

/-- The default values of the configurables (source lines 90-96). The leading
`0` of `ptBinning` marks a variable-width axis with limits 0, 2, 5, 20. -/
def defaultConfig : Config :=
  { cospCutsToTest := cospCutsVec
    decLenCutsToTest := decLenCutsVec
    impParProdCutsToTest := impParProdCutsVec
    minDCAxyCutsToTest := minDCAxyCutsVec
    minTrackPtCutsToTest := minTrackPtCutsVec
    ptAxis := ⟨none, [0, 2, 5, 20]⟩ }

/-- The quantized axis `{n, 0.5, n + 0.5}` of a grid with `n` thresholds. -/
def quantizedAxis (n : Nat) : AxisSpec := ⟨some n, [0.5, (n : ℚ) + 0.5]⟩

/-- The member `cospAxis` (source line 100). Its default member initialiser
`{cospCutsToTest->size(), 0.5, cospCutsToTest->size() + 0.5}` runs when the task
object is constructed, where the configurable `cospCutsToTest` holds its default
`cospCutsVec`: the axis has the size of the default grid, whatever grid is
configured. -/
def cospAxis : AxisSpec := quantizedAxis cospCutsVec.length
/-- The member `decLenAxis` (source line 101), built at construction from the
default `decLenCutsVec`. -/
def decLenAxis : AxisSpec := quantizedAxis decLenCutsVec.length
/-- The member `impParProdAxis` (source line 102), built at construction from the
default `impParProdCutsVec`. -/
def impParProdAxis : AxisSpec := quantizedAxis impParProdCutsVec.length
/-- The member `minDCAxyAxis` (source line 103), built at construction from the
default `minDCAxyCutsVec`. -/
def minDCAxyAxis : AxisSpec := quantizedAxis minDCAxyCutsVec.length
/-- The member `minTrackPtAxis` (source line 104), built at construction from the
default `minTrackPtCutsVec`. -/
def minTrackPtAxis : AxisSpec := quantizedAxis minTrackPtCutsVec.length

/-- The columns of a track the task reads. -/
structure Track where
  pt : ℚ
  dcaPrim0 : ℚ

instance : Inhabited Track := ⟨⟨0, 0⟩⟩

/-- The columns of a 2-prong candidate the task reads, with its two daughter
tracks resolved. `hfflag` is the decay-channel bitmask, `flagMCMatchRec` the
signed true-match bitmask, `originMCRec` the true-origin tag. -/
structure Cand2Prong where
  pt : ℚ
  cpa : ℚ
  decayLength : ℚ
  impactParameterProduct : ℚ
  hfflag : Nat
  flagMCMatchRec : Int
  originMCRec : Int
  index0 : Track
  index1 : Track

/-- The columns of a 3-prong candidate the task reads, with its three daughter
tracks resolved. -/
structure Cand3Prong where
  pt : ℚ
  cpa : ℚ
  decayLength : ℚ
  hfflag : Nat
  flagMCMatchRec : Int
  originMCRec : Int
  index0 : Track
  index1 : Track
  index2 : Track

/-- The macro `BIT(n)`. -/
def BIT (n : Nat) : Nat := 1 <<< n

/-- The macro `TESTBIT(n, i)`. -/
def TESTBIT (n i : Nat) : Bool := decide (n &&& BIT i ≠ 0)

/-! ## `init` -/

/-- The body of the loop over `i2Prong` in `init`. -/
def init2Prong (cfg : Config) (iOrig : Nat) (registry : Registry) (i2Prong : Nat) : Registry :=
  let registry := registry.add (nameAt histoNames2Prong iOrig i2Prong) HistType.kTH1F
    [cfg.ptAxis]
  let registry := registry.add (nameAt histoCospNames2Prong iOrig i2Prong) HistType.kTH2F
    [cfg.ptAxis, cospAxis]
  let registry := registry.add (nameAt histoDecLenNames2Prong iOrig i2Prong) HistType.kTH2F
    [cfg.ptAxis, decLenAxis]
  let registry := registry.add (nameAt histoImpParProdNames2Prong iOrig i2Prong) HistType.kTH2F
    [cfg.ptAxis, impParProdAxis]
  let registry := registry.add (nameAt histoMinDCAxyNames2Prong iOrig i2Prong) HistType.kTH2F
    [cfg.ptAxis, minDCAxyAxis]
  registry.add (nameAt histoMinTrackPtNames2Prong iOrig i2Prong) HistType.kTH2F
    [cfg.ptAxis, minTrackPtAxis]

/-- The body of the loop over `i3Prong` in `init`. -/
def init3Prong (cfg : Config) (iOrig : Nat) (registry : Registry) (i3Prong : Nat) : Registry :=
  let registry := registry.add (nameAt histoNames3Prong iOrig i3Prong) HistType.kTH1F
    [cfg.ptAxis]
  let registry := registry.add (nameAt histoCospNames3Prong iOrig i3Prong) HistType.kTH2F
    [cfg.ptAxis, cospAxis]
  let registry := registry.add (nameAt histoDecLenNames3Prong iOrig i3Prong) HistType.kTH2F
    [cfg.ptAxis, decLenAxis]
  let registry := registry.add (nameAt histoMinDCAxyNames3Prong iOrig i3Prong) HistType.kTH2F
    [cfg.ptAxis, minDCAxyAxis]
  registry.add (nameAt histoMinTrackPtNames3Prong iOrig i3Prong) HistType.kTH2F
    [cfg.ptAxis, minTrackPtAxis]

/-- The body of the loop over `iOrig` in `init`. -/
def initOrig (cfg : Config) (registry : Registry) (iOrig : Nat) : Registry :=
  let registry := (List.range n2Prong).foldl (init2Prong cfg iOrig) registry
  (List.range n3Prong).foldl (init3Prong cfg iOrig) registry

/-- The function `init`, run on the registry `registry`. -/
def initFrom (cfg : Config) (registry : Registry) : Registry :=
  (List.range 3).foldl (initOrig cfg) registry

/-- The store after `init`: `init` run on the empty registry the task is
constructed with. -/
def init (cfg : Config) : Registry := initFrom cfg Registry.empty

/-! ## The threshold scans -/

/-- One iteration of a threshold loop: read `cuts[iCut]`, and fill the 2D
histogram at `(pT, iCut + 1)` when the comparison `pass` holds for it. Reading
the C array past its end has no defined result. -/
def cutStep (cuts : List ℚ) (pass : ℚ → Bool) (name : String) (pT : ℚ) (registry : Registry)
    (iCut : Nat) : Option Registry :=
  match cuts.get? iCut with
  | none => none
  | some cut => if pass cut then registry.fillTH2 name pT ((iCut : ℚ) + 1) else some registry

/-- A threshold loop `for (int iCut = 0; iCut < n; iCut++)`. -/
def cutLoop (n : Nat) (cuts : List ℚ) (pass : ℚ → Bool) (name : String) (pT : ℚ)
    (registry : Registry) : Option Registry :=
  (List.range n).foldlM (cutStep cuts pass name pT) registry

/-- The array `absDCA` of a scan after `std::sort`. -/
def sortedAbsDCA (dcas : List ℚ) : List ℚ := (dcas.map (fun d => |d|)).insertionSort (· ≤ ·)

/-- The array `ptTrack` of a scan after `std::sort`. -/
def sortedPt (pts : List ℚ) : List ℚ := pts.insertionSort (· ≤ ·)

/-- The function `testSelections2Prong<candType, candOrig>(candidate, tracks)`. -/
def testSelections2Prong (cfg : Config) (candType candOrig : Nat) (candidate : Cand2Prong)
    (tracks : List Track) (registry : Registry) : Option Registry := do
  let pT := candidate.pt
  let absDCA := sortedAbsDCA [(tracks.getD 0 default).dcaPrim0, (tracks.getD 1 default).dcaPrim0]
  let ptTrack := sortedPt [(tracks.getD 0 default).pt, (tracks.getD 1 default).pt]
  let registry ← registry.fillTH1 (nameAt histoNames2Prong candOrig candType) pT
  let registry ← cutLoop cfg.cospCutsToTest.length cospCuts
    (fun cut => decide (candidate.cpa > cut))
    (nameAt histoCospNames2Prong candOrig candType) pT registry
  let registry ← cutLoop cfg.decLenCutsToTest.length decLenCuts
    (fun cut => decide (candidate.decayLength > cut))
    (nameAt histoDecLenNames2Prong candOrig candType) pT registry
  let registry ← cutLoop cfg.impParProdCutsToTest.length impParProdCuts
    (fun cut => decide (candidate.impactParameterProduct < cut))
    (nameAt histoImpParProdNames2Prong candOrig candType) pT registry
  let registry ← cutLoop cfg.minDCAxyCutsToTest.length minDCAxyCuts
    (fun cut => decide (absDCA.getD 0 0 > cut))
    (nameAt histoMinDCAxyNames2Prong candOrig candType) pT registry
  cutLoop cfg.minTrackPtCutsToTest.length minTrackPtCuts
    (fun cut => decide (ptTrack.getD 0 0 > cut))
    (nameAt histoMinTrackPtNames2Prong candOrig candType) pT registry

/-- The function `testSelections3Prong<candType, candOrig>(candidate, tracks)`. -/
def testSelections3Prong (cfg : Config) (candType candOrig : Nat) (candidate : Cand3Prong)
    (tracks : List Track) (registry : Registry) : Option Registry := do
  let pT := candidate.pt
  let absDCA := sortedAbsDCA [(tracks.getD 0 default).dcaPrim0, (tracks.getD 1 default).dcaPrim0,
    (tracks.getD 2 default).dcaPrim0]
  let ptTrack := sortedPt [(tracks.getD 0 default).pt, (tracks.getD 1 default).pt,
    (tracks.getD 2 default).pt]
  let registry ← registry.fillTH1 (nameAt histoNames3Prong candOrig candType) pT
  let registry ← cutLoop cfg.cospCutsToTest.length cospCuts
    (fun cut => decide (candidate.cpa > cut))
    (nameAt histoCospNames3Prong candOrig candType) pT registry
  let registry ← cutLoop cfg.decLenCutsToTest.length decLenCuts
    (fun cut => decide (candidate.decayLength > cut))
    (nameAt histoDecLenNames3Prong candOrig candType) pT registry
  let registry ← cutLoop cfg.minDCAxyCutsToTest.length minDCAxyCuts
    (fun cut => decide (absDCA.getD 0 0 > cut))
    (nameAt histoMinDCAxyNames3Prong candOrig candType) pT registry
  cutLoop cfg.minTrackPtCutsToTest.length minTrackPtCuts
    (fun cut => decide (ptTrack.getD 0 0 > cut))
    (nameAt histoMinTrackPtNames3Prong candOrig candType) pT registry

/-! ## `process` -/

/-- The three flags `isPrompt`, `isNonPrompt`, `isBkg` of a candidate. -/
structure Flags where
  isPrompt : Bool
  isNonPrompt : Bool
  isBkg : Bool
  deriving DecidableEq, Repr

/-- The `switch (iDecay)` of the 2-prong loop, for the origin index `candOrig`:
one case per decay channel, no default case. -/
def switch2Prong (cfg : Config) (iDecay candOrig : Nat) (cand2Prong : Cand2Prong)
    (tracks : List Track) (registry : Registry) : Option Registry :=
  if iDecay = D0ToPiK then testSelections2Prong cfg D0ToPiK candOrig cand2Prong tracks registry
  else if iDecay = JpsiToEE then
    testSelections2Prong cfg JpsiToEE candOrig cand2Prong tracks registry
  else some registry

/-- The body of the loop over `iDecay` for a 2-prong candidate. -/
def decayStep2Prong (cfg : Config) (cand2Prong : Cand2Prong) (tracks : List Track)
    (state : Flags × Registry) (iDecay : Nat) : Option (Flags × Registry) :=
  if TESTBIT cand2Prong.hfflag iDecay then
    if cand2Prong.flagMCMatchRec.natAbs = BIT iDecay then
      if cand2Prong.originMCRec = OriginPrompt then
        (switch2Prong cfg iDecay 0 cand2Prong tracks state.2).map
          (fun registry => ({ state.1 with isPrompt := true }, registry))
      else if cand2Prong.originMCRec = OriginNonPrompt then
        (switch2Prong cfg iDecay 1 cand2Prong tracks state.2).map
          (fun registry => ({ state.1 with isNonPrompt := true }, registry))
      else some state
    else
      (switch2Prong cfg iDecay 2 cand2Prong tracks state.2).map
        (fun registry => ({ state.1 with isBkg := true }, registry))
  else some state

/-- The summary scan after the loop over `iDecay` for a 2-prong candidate. -/
def summary2Prong (cfg : Config) (cand2Prong : Cand2Prong) (tracks : List Track)
    (state : Flags × Registry) : Option Registry :=
  if state.1.isPrompt then testSelections2Prong cfg N2ProngDecays 0 cand2Prong tracks state.2
  else if state.1.isNonPrompt then
    testSelections2Prong cfg N2ProngDecays 1 cand2Prong tracks state.2
  else if state.1.isBkg then testSelections2Prong cfg N2ProngDecays 2 cand2Prong tracks state.2
  else some state.2

/-- The loop `for (int iDecay = 0; iDecay < n2Prong; iDecay++)` of a 2-prong
candidate, started with the three flags cleared. -/
def decayLoop2Prong (cfg : Config) (cand2Prong : Cand2Prong) (tracks : List Track)
    (registry : Registry) : Option (Flags × Registry) :=
  (List.range n2Prong).foldlM (decayStep2Prong cfg cand2Prong tracks)
    (⟨false, false, false⟩, registry)

/-- The body of the loop over the 2-prong candidates in `process`. -/
def processCand2Prong (cfg : Config) (registry : Registry) (cand2Prong : Cand2Prong) :
    Option Registry := do
  let tracks := [cand2Prong.index0, cand2Prong.index1]
  let state ← decayLoop2Prong cfg cand2Prong tracks registry
  summary2Prong cfg cand2Prong tracks state

/-- The `switch (iDecay)` of the 3-prong loop, for the origin index `candOrig`. -/
def switch3Prong (cfg : Config) (iDecay candOrig : Nat) (cand3Prong : Cand3Prong)
    (tracks : List Track) (registry : Registry) : Option Registry :=
  if iDecay = DPlusToPiKPi then
    testSelections3Prong cfg DPlusToPiKPi candOrig cand3Prong tracks registry
  else if iDecay = LcToPKPi then
    testSelections3Prong cfg LcToPKPi candOrig cand3Prong tracks registry
  else if iDecay = DsToPiKK then
    testSelections3Prong cfg DsToPiKK candOrig cand3Prong tracks registry
  else if iDecay = XicToPKPi then
    testSelections3Prong cfg XicToPKPi candOrig cand3Prong tracks registry
  else some registry

/-- The body of the loop over `iDecay` for a 3-prong candidate. -/
def decayStep3Prong (cfg : Config) (cand3Prong : Cand3Prong) (tracks : List Track)
    (state : Flags × Registry) (iDecay : Nat) : Option (Flags × Registry) :=
  if TESTBIT cand3Prong.hfflag iDecay then
    if cand3Prong.flagMCMatchRec.natAbs = BIT iDecay then
      if cand3Prong.originMCRec = OriginPrompt then
        (switch3Prong cfg iDecay 0 cand3Prong tracks state.2).map
          (fun registry => ({ state.1 with isPrompt := true }, registry))
      else if cand3Prong.originMCRec = OriginNonPrompt then
        (switch3Prong cfg iDecay 1 cand3Prong tracks state.2).map
          (fun registry => ({ state.1 with isNonPrompt := true }, registry))
      else some state
    else
      (switch3Prong cfg iDecay 2 cand3Prong tracks state.2).map
        (fun registry => ({ state.1 with isBkg := true }, registry))
  else some state

/-- The summary scan after the loop over `iDecay` for a 3-prong candidate. -/
def summary3Prong (cfg : Config) (cand3Prong : Cand3Prong) (tracks : List Track)
    (state : Flags × Registry) : Option Registry :=
  if state.1.isPrompt then testSelections3Prong cfg N3ProngDecays 0 cand3Prong tracks state.2
  else if state.1.isNonPrompt then
    testSelections3Prong cfg N3ProngDecays 1 cand3Prong tracks state.2
  else if state.1.isBkg then testSelections3Prong cfg N3ProngDecays 2 cand3Prong tracks state.2
  else some state.2

/-- The loop `for (int iDecay = 0; iDecay < n3Prong; iDecay++)` of a 3-prong
candidate, started with the three flags cleared. -/
def decayLoop3Prong (cfg : Config) (cand3Prong : Cand3Prong) (tracks : List Track)
    (registry : Registry) : Option (Flags × Registry) :=
  (List.range n3Prong).foldlM (decayStep3Prong cfg cand3Prong tracks)
    (⟨false, false, false⟩, registry)

/-- The body of the loop over the 3-prong candidates in `process`. -/
def processCand3Prong (cfg : Config) (registry : Registry) (cand3Prong : Cand3Prong) :
    Option Registry := do
  let tracks := [cand3Prong.index0, cand3Prong.index1, cand3Prong.index2]
  let state ← decayLoop3Prong cfg cand3Prong tracks registry
  summary3Prong cfg cand3Prong tracks state

/-- The function `process`: all 2-prong candidates, then all 3-prong candidates. -/
def process (cfg : Config) (registry : Registry) (cand2Prongs : List Cand2Prong)
    (cand3Prongs : List Cand3Prong) : Option Registry := do
  let registry ← cand2Prongs.foldlM (processCand2Prong cfg) registry
  cand3Prongs.foldlM (processCand3Prong cfg) registry

/-! ## Fill operations

A run of the task is a sequence of primitive operations on the registry. The
definitions of this section are the vocabulary of the proofs: they describe
the operations a scan, a candidate and a candidate stream perform, and what a
sequence of operations does to a registry. The lemmas below connect them to
the functions of the task. -/

/-- A primitive operation of a run: a `TH1` fill, a `TH2` fill, or a read past
the end of a constant threshold array. -/
inductive Op where
  | fill1 (name : String) (x : ℚ)
  | fill2 (name : String) (x y : ℚ)
  | outOfBounds

/-- Perform one operation. -/
def Registry.apply (reg : Registry) : Op → Option Registry
  | Op.fill1 name x => reg.fillTH1 name x
  | Op.fill2 name x y => reg.fillTH2 name x y
  | Op.outOfBounds => none

/-- Perform a sequence of operations, in order. -/
def Registry.applyAll (reg : Registry) (ops : List Op) : Option Registry :=
  ops.foldlM Registry.apply reg

/-- Whether an operation succeeds on a registry: the histogram it addresses is
booked, with the requested type. -/
def Op.valid (reg : Registry) : Op → Bool
  | Op.fill1 name _ => (reg.get HistType.kTH1F name).isSome
  | Op.fill2 name _ _ => (reg.get HistType.kTH2F name).isSome
  | Op.outOfBounds => false

/-- Whether an operation adds an entry to bin `(ix, iy)` of the histogram `h`
booked under `name`. -/
def Op.hits (h : Histo) (name : String) (ix iy : Nat) : Op → Bool
  | Op.fill1 n x => decide (n = name ∧ (h.axis 0).findBin x = ix ∧ 0 = iy)
  | Op.fill2 n x y =>
      decide (n = name ∧ (h.axis 0).findBin x = ix ∧ (h.axis 1).findBin y = iy)
  | Op.outOfBounds => false

/-- The histogram `h`, booked under `name`, after the entries of `ops` that
address it are added. -/
def Histo.addHits (h : Histo) (name : String) (ops : List Op) : Histo :=
  { h with content := fun ix iy => h.content ix iy + ops.countP (Op.hits h name ix iy) }

/-- The registry after the entries of `ops` are added to its histograms. -/
def Registry.addHits (reg : Registry) (ops : List Op) : Registry :=
  fun name => (reg name).map (fun h => h.addHits name ops)

/-- Content of bin `(ix, iy)` of the histogram booked under `name` (0 when none
is booked). -/
def Registry.count (reg : Registry) (name : String) (ix iy : Nat) : Nat :=
  match reg name with
  | some h => h.content ix iy
  | none => 0

/-- The operations of one iteration of a threshold loop. -/
def cutOps1 (cuts : List ℚ) (pass : ℚ → Bool) (name : String) (pT : ℚ) (iCut : Nat) : List Op :=
  match cuts.get? iCut with
  | none => [Op.outOfBounds]
  | some cut => if pass cut then [Op.fill2 name pT ((iCut : ℚ) + 1)] else []

/-- The operations of a threshold loop. -/
def cutOps (n : Nat) (cuts : List ℚ) (pass : ℚ → Bool) (name : String) (pT : ℚ) : List Op :=
  (List.range n).flatMap (cutOps1 cuts pass name pT)

/-- The operations of `testSelections2Prong<candType, candOrig>`. -/
def scanOps2Prong (cfg : Config) (candType candOrig : Nat) (candidate : Cand2Prong)
    (tracks : List Track) : List Op :=
  [Op.fill1 (nameAt histoNames2Prong candOrig candType) candidate.pt]
  ++ cutOps cfg.cospCutsToTest.length cospCuts (fun cut => decide (candidate.cpa > cut))
      (nameAt histoCospNames2Prong candOrig candType) candidate.pt
  ++ cutOps cfg.decLenCutsToTest.length decLenCuts
      (fun cut => decide (candidate.decayLength > cut))
      (nameAt histoDecLenNames2Prong candOrig candType) candidate.pt
  ++ cutOps cfg.impParProdCutsToTest.length impParProdCuts
      (fun cut => decide (candidate.impactParameterProduct < cut))
      (nameAt histoImpParProdNames2Prong candOrig candType) candidate.pt
  ++ cutOps cfg.minDCAxyCutsToTest.length minDCAxyCuts
      (fun cut => decide ((sortedAbsDCA [(tracks.getD 0 default).dcaPrim0,
        (tracks.getD 1 default).dcaPrim0]).getD 0 0 > cut))
      (nameAt histoMinDCAxyNames2Prong candOrig candType) candidate.pt
  ++ cutOps cfg.minTrackPtCutsToTest.length minTrackPtCuts
      (fun cut => decide ((sortedPt [(tracks.getD 0 default).pt,
        (tracks.getD 1 default).pt]).getD 0 0 > cut))
      (nameAt histoMinTrackPtNames2Prong candOrig candType) candidate.pt

/-- The operations of `testSelections3Prong<candType, candOrig>`. -/
def scanOps3Prong (cfg : Config) (candType candOrig : Nat) (candidate : Cand3Prong)
    (tracks : List Track) : List Op :=
  [Op.fill1 (nameAt histoNames3Prong candOrig candType) candidate.pt]
  ++ cutOps cfg.cospCutsToTest.length cospCuts (fun cut => decide (candidate.cpa > cut))
      (nameAt histoCospNames3Prong candOrig candType) candidate.pt
  ++ cutOps cfg.decLenCutsToTest.length decLenCuts
      (fun cut => decide (candidate.decayLength > cut))
      (nameAt histoDecLenNames3Prong candOrig candType) candidate.pt
  ++ cutOps cfg.minDCAxyCutsToTest.length minDCAxyCuts
      (fun cut => decide ((sortedAbsDCA [(tracks.getD 0 default).dcaPrim0,
        (tracks.getD 1 default).dcaPrim0, (tracks.getD 2 default).dcaPrim0]).getD 0 0 > cut))
      (nameAt histoMinDCAxyNames3Prong candOrig candType) candidate.pt
  ++ cutOps cfg.minTrackPtCutsToTest.length minTrackPtCuts
      (fun cut => decide ((sortedPt [(tracks.getD 0 default).pt,
        (tracks.getD 1 default).pt, (tracks.getD 2 default).pt]).getD 0 0 > cut))
      (nameAt histoMinTrackPtNames3Prong candOrig candType) candidate.pt

/-- The decision tree of the loop body of `process`, without its effects: the
origin index (0 prompt, 1 non-prompt, 2 background) of the scan run for channel
`iDecay`, or `none` when no scan is run for it. -/
def channelOrig (hfflag : Nat) (flagMCMatchRec originMCRec : Int) (iDecay : Nat) : Option Nat :=
  if TESTBIT hfflag iDecay then
    if flagMCMatchRec.natAbs = BIT iDecay then
      if originMCRec = OriginPrompt then some 0
      else if originMCRec = OriginNonPrompt then some 1
      else none
    else some 2
  else none

/-- The flag the loop body sets together with a scan of origin index `orig`. -/
def Flags.mark (flags : Flags) : Option Nat → Flags
  | some 0 => { flags with isPrompt := true }
  | some 1 => { flags with isNonPrompt := true }
  | some 2 => { flags with isBkg := true }
  | _ => flags

/-- The flags of a candidate after the loop over `nDecays` channels. -/
def flagsAfter (nDecays hfflag : Nat) (flagMCMatchRec originMCRec : Int) : Flags :=
  (List.range nDecays).foldl
    (fun flags iDecay => flags.mark (channelOrig hfflag flagMCMatchRec originMCRec iDecay))
    ⟨false, false, false⟩

/-- The origin index of the summary scan selected by the flags, if any. -/
def summaryOrig (flags : Flags) : Option Nat :=
  if flags.isPrompt then some 0
  else if flags.isNonPrompt then some 1
  else if flags.isBkg then some 2
  else none

/-- The scans `process` runs for a candidate, as pairs `(candType, candOrig)`:
the per-channel scans in channel order, then the summary scan. -/
def candScans (nDecays hfflag : Nat) (flagMCMatchRec originMCRec : Int) : List (Nat × Nat) :=
  (List.range nDecays).flatMap
      (fun iDecay => (channelOrig hfflag flagMCMatchRec originMCRec iDecay).toList.map
        (fun orig => (iDecay, orig)))
    ++ (summaryOrig (flagsAfter nDecays hfflag flagMCMatchRec originMCRec)).toList.map
        (fun orig => (nDecays, orig))

/-- The scans `process` runs for a 2-prong candidate. -/
def candScans2Prong (c : Cand2Prong) : List (Nat × Nat) :=
  candScans n2Prong c.hfflag c.flagMCMatchRec c.originMCRec

/-- The scans `process` runs for a 3-prong candidate. -/
def candScans3Prong (c : Cand3Prong) : List (Nat × Nat) :=
  candScans n3Prong c.hfflag c.flagMCMatchRec c.originMCRec

/-- The operations `process` performs for a 2-prong candidate. -/
def candOps2Prong (cfg : Config) (c : Cand2Prong) : List Op :=
  (candScans2Prong c).flatMap (fun s => scanOps2Prong cfg s.1 s.2 c [c.index0, c.index1])

/-- The operations `process` performs for a 3-prong candidate. -/
def candOps3Prong (cfg : Config) (c : Cand3Prong) : List Op :=
  (candScans3Prong c).flatMap
    (fun s => scanOps3Prong cfg s.1 s.2 c [c.index0, c.index1, c.index2])

/-- The operations `process` performs on two candidate streams. -/
def streamOps (cfg : Config) (cand2Prongs : List Cand2Prong) (cand3Prongs : List Cand3Prong) :
    List Op :=
  cand2Prongs.flatMap (candOps2Prong cfg) ++ cand3Prongs.flatMap (candOps3Prong cfg)

/-- The operations of the per-channel scans of a candidate, in channel order. -/
def channelOps (nDecays hfflag : Nat) (flagMCMatchRec originMCRec : Int)
    (scanOps : Nat → Nat → List Op) : List Op :=
  (List.range nDecays).flatMap (fun iDecay =>
    (channelOrig hfflag flagMCMatchRec originMCRec iDecay).toList.flatMap
      (fun orig => scanOps iDecay orig))

/-! ## Vocabulary for counting entries -/

/-- The eleven name tables: the six 2-prong tables (indices 0-5), then the
five 3-prong tables (indices 6-10). -/
def histoTables : List (List (List String)) :=
  [histoNames2Prong, histoCospNames2Prong, histoDecLenNames2Prong, histoImpParProdNames2Prong,
   histoMinDCAxyNames2Prong, histoMinTrackPtNames2Prong, histoNames3Prong, histoCospNames3Prong,
   histoDecLenNames3Prong, histoMinDCAxyNames3Prong, histoMinTrackPtNames3Prong]

/-- Entry `[candOrig][candType]` of the `k`-th name table. -/
def tableName (k candOrig candType : Nat) : String :=
  nameAt (histoTables.getD k []) candOrig candType

/-- Number of columns of the `k`-th name table: `n2Prong + 1` or `n3Prong + 1`. -/
def tableCols (k : Nat) : Nat := if k < 6 then 3 else 5

/-- All positions `(table, candOrig, candType)` of the name tables. -/
def allKeys : List (Nat × Nat × Nat) :=
  (List.range 11).flatMap (fun k =>
    (List.range 3).flatMap (fun o => (List.range (tableCols k)).map (fun t => (k, o, t))))

/-- Whether the threshold `cuts[i]` exists and passes the comparison. -/
def passAt (cuts : List ℚ) (pass : ℚ → Bool) (i : Nat) : Bool :=
  match cuts.get? i with
  | some cut => pass cut
  | none => false

/-- A threshold loop of a scan: its bound, the array it reads, its comparison
and the histogram it fills. -/
structure CutLoop where
  n : Nat
  cuts : List ℚ
  pass : ℚ → Bool
  name : String

/-- The operations of a threshold loop. -/
def CutLoop.ops (pT : ℚ) (l : CutLoop) : List Op := cutOps l.n l.cuts l.pass l.name pT

/-- The five threshold loops of `testSelections2Prong<candType, candOrig>`. -/
def loops2Prong (cfg : Config) (candType candOrig : Nat) (candidate : Cand2Prong)
    (tracks : List Track) : List CutLoop :=
  [⟨cfg.cospCutsToTest.length, cospCuts, fun cut => decide (candidate.cpa > cut),
      tableName 1 candOrig candType⟩,
   ⟨cfg.decLenCutsToTest.length, decLenCuts, fun cut => decide (candidate.decayLength > cut),
      tableName 2 candOrig candType⟩,
   ⟨cfg.impParProdCutsToTest.length, impParProdCuts,
      fun cut => decide (candidate.impactParameterProduct < cut),
      tableName 3 candOrig candType⟩,
   ⟨cfg.minDCAxyCutsToTest.length, minDCAxyCuts,
      fun cut => decide ((sortedAbsDCA [(tracks.getD 0 default).dcaPrim0,
        (tracks.getD 1 default).dcaPrim0]).getD 0 0 > cut),
      tableName 4 candOrig candType⟩,
   ⟨cfg.minTrackPtCutsToTest.length, minTrackPtCuts,
      fun cut => decide ((sortedPt [(tracks.getD 0 default).pt,
        (tracks.getD 1 default).pt]).getD 0 0 > cut),
      tableName 5 candOrig candType⟩]

/-- The four threshold loops of `testSelections3Prong<candType, candOrig>`. -/
def loops3Prong (cfg : Config) (candType candOrig : Nat) (candidate : Cand3Prong)
    (tracks : List Track) : List CutLoop :=
  [⟨cfg.cospCutsToTest.length, cospCuts, fun cut => decide (candidate.cpa > cut),
      tableName 7 candOrig candType⟩,
   ⟨cfg.decLenCutsToTest.length, decLenCuts, fun cut => decide (candidate.decayLength > cut),
      tableName 8 candOrig candType⟩,
   ⟨cfg.minDCAxyCutsToTest.length, minDCAxyCuts,
      fun cut => decide ((sortedAbsDCA [(tracks.getD 0 default).dcaPrim0,
        (tracks.getD 1 default).dcaPrim0, (tracks.getD 2 default).dcaPrim0]).getD 0 0 > cut),
      tableName 9 candOrig candType⟩,
   ⟨cfg.minTrackPtCutsToTest.length, minTrackPtCuts,
      fun cut => decide ((sortedPt [(tracks.getD 0 default).pt,
        (tracks.getD 1 default).pt, (tracks.getD 2 default).pt]).getD 0 0 > cut),
      tableName 10 candOrig candType⟩]

/-- Number of thresholds the scans test for the `k`-th name table: the size of
the configured grid of its dimension (0 for the yield tables). -/
def tableLen (cfg : Config) (k : Nat) : Nat :=
  match k with
  | 1 => cfg.cospCutsToTest.length
  | 2 => cfg.decLenCutsToTest.length
  | 3 => cfg.impParProdCutsToTest.length
  | 4 => cfg.minDCAxyCutsToTest.length
  | 5 => cfg.minTrackPtCutsToTest.length
  | 7 => cfg.cospCutsToTest.length
  | 8 => cfg.decLenCutsToTest.length
  | 9 => cfg.minDCAxyCutsToTest.length
  | 10 => cfg.minTrackPtCutsToTest.length
  | _ => 0

/-- Whether a 2-prong scan finds that the candidate passes the `i`-th threshold
of the dimension of the `k`-th name table. -/
def pass2Prong (k : Nat) (candidate : Cand2Prong) (tracks : List Track) (i : Nat) : Bool :=
  match k with
  | 1 => passAt cospCuts (fun cut => decide (candidate.cpa > cut)) i
  | 2 => passAt decLenCuts (fun cut => decide (candidate.decayLength > cut)) i
  | 3 => passAt impParProdCuts (fun cut => decide (candidate.impactParameterProduct < cut)) i
  | 4 => passAt minDCAxyCuts (fun cut => decide ((sortedAbsDCA [(tracks.getD 0 default).dcaPrim0,
        (tracks.getD 1 default).dcaPrim0]).getD 0 0 > cut)) i
  | 5 => passAt minTrackPtCuts (fun cut => decide ((sortedPt [(tracks.getD 0 default).pt,
        (tracks.getD 1 default).pt]).getD 0 0 > cut)) i
  | _ => false

/-- Whether a 3-prong scan finds that the candidate passes the `i`-th threshold
of the dimension of the `k`-th name table. -/
def pass3Prong (k : Nat) (candidate : Cand3Prong) (tracks : List Track) (i : Nat) : Bool :=
  match k with
  | 7 => passAt cospCuts (fun cut => decide (candidate.cpa > cut)) i
  | 8 => passAt decLenCuts (fun cut => decide (candidate.decayLength > cut)) i
  | 9 => passAt minDCAxyCuts (fun cut => decide ((sortedAbsDCA [(tracks.getD 0 default).dcaPrim0,
        (tracks.getD 1 default).dcaPrim0, (tracks.getD 2 default).dcaPrim0]).getD 0 0 > cut)) i
  | 10 => passAt minTrackPtCuts (fun cut => decide ((sortedPt [(tracks.getD 0 default).pt,
        (tracks.getD 1 default).pt, (tracks.getD 2 default).pt]).getD 0 0 > cut)) i
  | _ => false

/-- The axes `init` books the histograms of the `k`-th name table with. -/
def tableAxes (cfg : Config) (k : Nat) : List AxisSpec :=
  match k with
  | 0 => [cfg.ptAxis]
  | 1 => [cfg.ptAxis, cospAxis]
  | 2 => [cfg.ptAxis, decLenAxis]
  | 3 => [cfg.ptAxis, impParProdAxis]
  | 4 => [cfg.ptAxis, minDCAxyAxis]
  | 5 => [cfg.ptAxis, minTrackPtAxis]
  | 6 => [cfg.ptAxis]
  | 7 => [cfg.ptAxis, cospAxis]
  | 8 => [cfg.ptAxis, decLenAxis]
  | 9 => [cfg.ptAxis, minDCAxyAxis]
  | _ => [cfg.ptAxis, minTrackPtAxis]

/-- The histogram type `init` books the histograms of the `k`-th name table with. -/
def tableType (k : Nat) : HistType :=
  if k = 0 ∨ k = 6 then HistType.kTH1F else HistType.kTH2F

/-- A reference histogram with the axes of the `k`-th name table. -/
def refHisto (cfg : Config) (k : Nat) : Histo := ⟨HistType.kTH1F, tableAxes cfg k, fun _ _ => 0⟩

/-- A registry whose histograms have the axes the booking statements of `init`
give them: every histogram stored under a name of the `k`-th table (channel or
summary column) has the axes of that table. -/
def Registry.WellBooked (cfg : Config) (reg : Registry) : Prop :=
  ∀ k o t h, k < 11 → o < 3 → t < tableCols k → reg (tableName k o t) = some h →
    h.axes = tableAxes cfg k

/-- A registry in which every histogram of the name tables (channel and summary
columns) is booked with the type of its table. -/
def Registry.Complete (reg : Registry) : Prop :=
  ∀ k o t, k < 11 → o < 3 → t < tableCols k →
    ∃ h, reg (tableName k o t) = some h ∧ h.type = tableType k

/-- Column `t` of the 2-prong name tables is booked, with the types of the
tables. -/
def Registry.Holds2 (reg : Registry) (t : Nat) : Prop :=
  ∀ k o, k < 6 → o < 3 → ∃ h, reg (tableName k o t) = some h ∧ h.type = tableType k

/-- Column `t` of the 3-prong name tables is booked, with the types of the
tables. -/
def Registry.Holds3 (reg : Registry) (t : Nat) : Prop :=
  ∀ k o, 6 ≤ k → k < 11 → o < 3 → ∃ h, reg (tableName k o t) = some h ∧ h.type = tableType k

/-- A configuration whose grids are not longer than the constant threshold
arrays the scans read. -/
def Config.InBounds (cfg : Config) : Prop :=
  cfg.cospCutsToTest.length ≤ nCospCutsToTest
  ∧ cfg.decLenCutsToTest.length ≤ nDecLenCutsToTest
  ∧ cfg.impParProdCutsToTest.length ≤ nImpParProdCutsToTest
  ∧ cfg.minDCAxyCutsToTest.length ≤ nMinDCAxyCutsToTest
  ∧ cfg.minTrackPtCutsToTest.length ≤ nMinTrackPtCutsToTest

/-- A registry whose histograms are all empty. -/
def Registry.Zeroed (reg : Registry) : Prop :=
  ∀ name h, reg name = some h → ∀ ix iy, h.content ix iy = 0

/-- The store with every histogram of the name tables booked: the booking
statements of `init`, run for the channel columns and for the summary columns
(`i2Prong <= n2Prong`, `i3Prong <= n3Prong`). -/
def bookAll (cfg : Config) : Registry :=
  (List.range 3).foldl (fun registry iOrig =>
    (List.range (n3Prong + 1)).foldl (init3Prong cfg iOrig)
      ((List.range (n2Prong + 1)).foldl (init2Prong cfg iOrig) registry)) Registry.empty

/-- Content of the cells `(ix, iy)` of the histogram booked under `name`, summed
over all bins `ix` of the first axis (underflow and overflow included). -/
def Registry.sumOverPt (reg : Registry) (name : String) (iy : Nat) : Nat :=
  match reg name with
  | some h => ((List.range ((h.axis 0).nbins + 2)).map (fun ix => h.content ix iy)).sum
  | none => 0

/-! ## The classifier in the words of the specification -/

/-- The three classifications of the specification. -/
inductive Classification where
  | Prompt
  | NonPrompt
  | Background
  deriving DecidableEq, Repr

/-- The row of the name tables (template argument `candOrig`) of a
classification: the tables list the prompt names first, then the non-prompt
names, then the background names. -/
def Classification.candOrig : Classification → Nat
  | Classification.Prompt => 0
  | Classification.NonPrompt => 1
  | Classification.Background => 2

/-- The per-channel classification following the specification's words
(section 4.2): for a channel whose bit is set in the decay-channel bitmask, if
the absolute value of the true-match bitmask equals the single bit of the
channel the classification is Prompt when the true origin is Prompt, NonPrompt
when it is NonPrompt, and none otherwise; else it is Background. A channel
whose bit is not set has no classification. -/
def specChannelScan (decayChannels : Nat) (trueMatch origin : Int) (i : Nat) :
    Option Classification :=
  if decayChannels.testBit i then
    if |trueMatch| = 2 ^ i then
      if origin = OriginPrompt then some Classification.Prompt
      else if origin = OriginNonPrompt then some Classification.NonPrompt
      else none
    else some Classification.Background
  else none

/-- The classifications a candidate gets over its `K` channels, following the
specification's words. -/
def specClasses (K decayChannels : Nat) (trueMatch origin : Int) : List Classification :=
  (List.range K).filterMap (specChannelScan decayChannels trueMatch origin)

/-- The classification of the summary scan following the specification's words:
first Prompt, else NonPrompt, else Background, for whichever got set; none
when nothing got set. -/
def specSummary (classes : List Classification) : Option Classification :=
  if Classification.Prompt ∈ classes then some Classification.Prompt
  else if Classification.NonPrompt ∈ classes then some Classification.NonPrompt
  else if Classification.Background ∈ classes then some Classification.Background
  else none

/-! ## Merging stores -/

/-- Element-wise sum of the bin contents of two histograms. -/
def Histo.merge (h k : Histo) : Histo :=
  { h with content := fun ix iy => h.content ix iy + k.content ix iy }

/-- Element-wise sum of two stores: histograms booked in both are summed bin by
bin, a histogram booked in one store only is kept. -/
def Registry.merge (a b : Registry) : Registry :=
  fun name =>
    match a name, b name with
    | some h, some k => some (h.merge k)
    | some h, none => some h
    | none, some k => some k
    | none, none => none

/-- Merge of the outcomes of two runs: the merged store when both runs
succeeded, no result otherwise. -/
def mergeRuns (a b : Option Registry) : Option Registry :=
  a.bind (fun x => b.bind (fun y => some (x.merge y)))

/-! ## Sample inputs -/

/-- A 2-prong candidate selected for both channels, matched to channel 0, of
prompt origin. -/
def sampleCand2Prong : Cand2Prong :=
  { pt := 3, cpa := 0.96, decayLength := 0.03, impactParameterProduct := -0.00002,
    hfflag := 3, flagMCMatchRec := 1, originMCRec := OriginPrompt,
    index0 := ⟨0.5, 0.002⟩, index1 := ⟨1.2, -0.004⟩ }

/-- A 3-prong candidate selected for channels 0 and 1, matched to channel 0, of
prompt origin. -/
def sampleCand3Prong : Cand3Prong :=
  { pt := 6, cpa := 0.99, decayLength := 0.05,
    hfflag := 3, flagMCMatchRec := -1, originMCRec := OriginPrompt,
    index0 := ⟨0.5, 0.002⟩, index1 := ⟨1.2, -0.004⟩, index2 := ⟨0.7, 0.003⟩ }

/-- A configuration that supplies a pointing-cosine grid of its own, with the
single threshold 0.5; the other configurables keep their defaults. -/
def gridConfig : Config := { defaultConfig with cospCutsToTest := [0.5] }

/-- A 2-prong candidate selected for channel 0 only, matched to it, of prompt
origin, with pointing cosine 0.6. -/
def gridCand2Prong : Cand2Prong :=
  { pt := 3, cpa := 0.6, decayLength := 0.03, impactParameterProduct := -0.00002,
    hfflag := 1, flagMCMatchRec := 1, originMCRec := OriginPrompt,
    index0 := ⟨0.5, 0.002⟩, index1 := ⟨1.2, -0.004⟩ }

/-! ## Vocabulary for the frame of a run -/

/-- The histogram name an operation addresses, if it addresses one. -/
def Op.name : Op → Option String
  | Op.fill1 name _ => some name
  | Op.fill2 name _ _ => some name
  | Op.outOfBounds => none

/-- The six histogram names of the 2-prong key `(candOrig, candType)`. -/
def names2Prong (candOrig candType : Nat) : List String :=
  [nameAt histoNames2Prong candOrig candType, nameAt histoCospNames2Prong candOrig candType,
   nameAt histoDecLenNames2Prong candOrig candType,
   nameAt histoImpParProdNames2Prong candOrig candType,
   nameAt histoMinDCAxyNames2Prong candOrig candType,
   nameAt histoMinTrackPtNames2Prong candOrig candType]

/-- The five histogram names of the 3-prong key `(candOrig, candType)`: yield,
pointing cosine, decay length, min track DCA and min track pT. -/
def names3Prong (candOrig candType : Nat) : List String :=
  [nameAt histoNames3Prong candOrig candType, nameAt histoCospNames3Prong candOrig candType,
   nameAt histoDecLenNames3Prong candOrig candType,
   nameAt histoMinDCAxyNames3Prong candOrig candType,
   nameAt histoMinTrackPtNames3Prong candOrig candType]

/-- A 2-prong candidate none of whose channel bits is set (bit 2 is no 2-prong
channel), matched and of prompt origin. -/
def noChannelCand2Prong : Cand2Prong := { sampleCand2Prong with hfflag := 4 }

/-- A 3-prong candidate none of whose channel bits is set (bit 4 is no 3-prong
channel), matched and of prompt origin. -/
def noChannelCand3Prong : Cand3Prong := { sampleCand3Prong with hfflag := 16 }

/-- A 3-prong candidate selected for channel 1 only, not matched, with the origin
tag of a prompt candidate. -/
def bkgCand3Prong : Cand3Prong :=
  { sampleCand3Prong with hfflag := 2, flagMCMatchRec := 0 }

/-- The 2-prong candidate of the default-grid scenario: pT 3.0, pointing cosine
0.96, decay length 0.03, impact-parameter product -0.00002, only channel bit 0
set, true-match bitmask equal to bit 0, prompt origin, tracks of DCA 0.002 and
-0.004 and of pT 0.5 and 1.2. -/
def scenarioCand2Prong : Cand2Prong :=
  { pt := 3, cpa := 0.96, decayLength := 0.03, impactParameterProduct := -0.00002,
    hfflag := 1, flagMCMatchRec := 1, originMCRec := OriginPrompt,
    index0 := ⟨0.5, 0.002⟩, index1 := ⟨1.2, -0.004⟩ }

/-- A configuration whose pointing-cosine grid has 16 thresholds, one more than
the constant array `cospCuts`; the other configurables keep their defaults. -/
def longGridConfig : Config := { defaultConfig with cospCutsToTest := cospCuts ++ [0.999] }

/-- Successive runs of `process` on batches of candidates, each run starting from
the store the previous one left; the stores reachable by `process` from
`registry` are the results of such sequences. -/
def processRuns (cfg : Config) (registry : Registry)
    (batches : List (List Cand2Prong × List Cand3Prong)) : Option Registry :=
  batches.foldlM (fun r batch => process cfg r batch.1 batch.2) registry

/-- The yield table of the multiplicity of the `k`-th name table: table 0 for the
2-prong tables, table 6 for the 3-prong tables. -/
def yieldTable (k : Nat) : Nat := if k < 6 then 0 else 6

/-! ## Vocabulary for the quantities a candidate is read through -/

/-- Two 2-prong candidates agree on what `process` consumes: the candidate
columns, the decay-channel bitmask, the origin tag, the absolute value of the
true-match bitmask, the smallest absolute track DCA and the smallest track pT. -/
def Cand2Prong.SameConsumed (c c' : Cand2Prong) : Prop :=
  c'.pt = c.pt ∧ c'.cpa = c.cpa ∧ c'.decayLength = c.decayLength
  ∧ c'.impactParameterProduct = c.impactParameterProduct
  ∧ c'.hfflag = c.hfflag ∧ c'.originMCRec = c.originMCRec
  ∧ |c'.flagMCMatchRec| = |c.flagMCMatchRec|
  ∧ min |c'.index0.dcaPrim0| |c'.index1.dcaPrim0| = min |c.index0.dcaPrim0| |c.index1.dcaPrim0|
  ∧ min c'.index0.pt c'.index1.pt = min c.index0.pt c.index1.pt

/-- Two 3-prong candidates agree on what `process` consumes. -/
def Cand3Prong.SameConsumed (c c' : Cand3Prong) : Prop :=
  c'.pt = c.pt ∧ c'.cpa = c.cpa ∧ c'.decayLength = c.decayLength
  ∧ c'.hfflag = c.hfflag ∧ c'.originMCRec = c.originMCRec
  ∧ |c'.flagMCMatchRec| = |c.flagMCMatchRec|
  ∧ min |c'.index0.dcaPrim0| (min |c'.index1.dcaPrim0| |c'.index2.dcaPrim0|)
      = min |c.index0.dcaPrim0| (min |c.index1.dcaPrim0| |c.index2.dcaPrim0|)
  ∧ min c'.index0.pt (min c'.index1.pt c'.index2.pt)
      = min c.index0.pt (min c.index1.pt c.index2.pt)

/-- The track with the sign of its transverse impact parameter flipped. -/
def Track.negDCA (t : Track) : Track := { t with dcaPrim0 := -t.dcaPrim0 }

/-- The sample 3-prong candidate with its tracks rotated: the third track first. -/
def rotatedCand3Prong : Cand3Prong :=
  { pt := 6, cpa := 0.99, decayLength := 0.05,
    hfflag := 3, flagMCMatchRec := -1, originMCRec := OriginPrompt,
    index0 := sampleCand3Prong.index2, index1 := sampleCand3Prong.index0,
    index2 := sampleCand3Prong.index1 }

/-- The sample 2-prong candidate with its tracks exchanged, the DCA of both
tracks negated and the true-match bitmask negated. -/
def mirroredCand2Prong : Cand2Prong :=
  { pt := 3, cpa := 0.96, decayLength := 0.03, impactParameterProduct := -0.00002,
    hfflag := 3, flagMCMatchRec := -1, originMCRec := OriginPrompt,
    index0 := ⟨1.2, 0.004⟩, index1 := ⟨0.5, -0.002⟩ }

theorem Histo.ext_fields {h k : Histo} (ht : h.type = k.type) (ha : h.axes = k.axes)
    (hc : ∀ ix iy, h.content ix iy = k.content ix iy) : h = k := by
  cases h; cases k
  simp only [Histo.mk.injEq] at *
  exact ⟨ht, ha, funext fun ix => funext fun iy => hc ix iy⟩

theorem Histo.addHits_no_ops (h : Histo) (name : String) : h.addHits name [] = h := by
  apply Histo.ext_fields <;> simp [Histo.addHits]

theorem Histo.addHits_twice (h : Histo) (name : String) (l₁ l₂ : List Op) :
    (h.addHits name l₁).addHits name l₂ = h.addHits name (l₁ ++ l₂) := by
  apply Histo.ext_fields
  · rfl
  · rfl
  · intro ix iy
    have hh : Op.hits (h.addHits name l₁) name ix iy = Op.hits h name ix iy := by
      funext op; cases op <;> rfl
    simp only [Histo.addHits, List.countP_append, Nat.add_assoc]
    rw [← hh]
    rfl

theorem Registry.addHits_nil (reg : Registry) : reg.addHits [] = reg := by
  funext name
  simp only [Registry.addHits]
  cases reg name <;> simp [Histo.addHits_no_ops]

theorem Registry.addHits_addHits (reg : Registry) (l₁ l₂ : List Op) :
    (reg.addHits l₁).addHits l₂ = reg.addHits (l₁ ++ l₂) := by
  funext name
  simp only [Registry.addHits]
  cases reg name <;> simp [Histo.addHits_twice]

theorem Registry.get_addHits (reg : Registry) (ops : List Op) (t : HistType) (name : String) :
    ((reg.addHits ops).get t name).isSome = (reg.get t name).isSome := by
  simp only [Registry.get, Registry.addHits]
  cases reg name with
  | none => rfl
  | some h =>
    simp only [Option.map_some']
    have : (h.addHits name ops).type = h.type := rfl
    rw [this]
    split <;> rfl

theorem Op.valid_addHits (reg : Registry) (ops : List Op) (op : Op) :
    op.valid (reg.addHits ops) = op.valid reg := by
  cases op <;> simp [Op.valid, Registry.get_addHits]

theorem Registry.put_bump_eq_addHits (reg : Registry) (name : String) (h : Histo) (op : Op)
    (ix iy : Nat) (hreg : reg name = some h)
    (hop₁ : ∀ (k : Histo) (n : String) (jx jy : Nat), n ≠ name → Op.hits k n jx jy op = false)
    (hop₂ : ∀ (jx jy : Nat), Op.hits h name jx jy op = decide (ix = jx ∧ iy = jy)) :
    reg.put name (h.bump ix iy) = reg.addHits [op] := by
  funext n
  simp only [Registry.put, Registry.addHits]
  by_cases hn : n = name
  · subst hn
    simp only [if_true, hreg, Option.map_some']
    congr 1
    apply Histo.ext_fields
    · rfl
    · rfl
    · intro jx jy
      simp only [Histo.bump, Histo.addHits, List.countP_cons, List.countP_nil, Nat.zero_add,
        hop₂ jx jy]
      by_cases hb : ix = jx ∧ iy = jy
      · obtain ⟨h1, h2⟩ := hb
        subst h1; subst h2; simp
      · have hb2 : ¬ (jx = ix ∧ jy = iy) := fun hh => hb ⟨hh.1.symm, hh.2.symm⟩
        simp [hb, hb2]
  · simp only [hn, if_false]
    cases hr : reg n with
    | none => rfl
    | some k =>
      simp only [Option.map_some']
      congr 1
      apply Histo.ext_fields
      · rfl
      · rfl
      · intro jx jy
        simp [Histo.addHits, hop₁ k n jx jy hn]

theorem Registry.get_eq_some {reg : Registry} {t : HistType} {name : String} {h : Histo} :
    reg.get t name = some h ↔ reg name = some h ∧ h.type = t := by
  unfold Registry.get
  cases hr : reg name with
  | none => simp
  | some k =>
    by_cases hk : k.type = t
    · simp only [hk, if_true, Option.some.injEq]
      constructor
      · intro e; subst e; exact ⟨rfl, hk⟩
      · intro e; exact e.1
    · simp only [hk, if_false, Option.some.injEq]
      constructor
      · intro e; cases e
      · rintro ⟨e, ht⟩; subst e; exact absurd ht hk

theorem Registry.apply_eq (reg : Registry) (op : Op) :
    reg.apply op = if op.valid reg then some (reg.addHits [op]) else none := by
  cases op with
  | outOfBounds => rfl
  | fill1 name x =>
    rcases hg : reg.get HistType.kTH1F name with _ | h
    · simp [Registry.apply, Registry.fillTH1, Op.valid, hg]
    · have hreg := (Registry.get_eq_some.mp hg).1
      simp only [Registry.apply, Registry.fillTH1, Op.valid, hg, Option.map_some',
        Option.isSome_some, if_true, Option.some.injEq]
      apply Registry.put_bump_eq_addHits _ _ _ _ _ _ hreg
      · intro k n jx jy hn
        have hn2 : ¬ name = n := fun e => hn e.symm
        simp [Op.hits, hn2]
      · intro jx jy
        simp [Op.hits, Histo.Fill1]
  | fill2 name x y =>
    rcases hg : reg.get HistType.kTH2F name with _ | h
    · simp [Registry.apply, Registry.fillTH2, Op.valid, hg]
    · have hreg := (Registry.get_eq_some.mp hg).1
      simp only [Registry.apply, Registry.fillTH2, Op.valid, hg, Option.map_some',
        Option.isSome_some, if_true, Option.some.injEq]
      apply Registry.put_bump_eq_addHits _ _ _ _ _ _ hreg
      · intro k n jx jy hn
        have hn2 : ¬ name = n := fun e => hn e.symm
        simp [Op.hits, hn2]
      · intro jx jy
        simp [Op.hits, Histo.Fill2]

/-- What a sequence of operations does: it succeeds exactly when every
operation addresses a booked histogram of the right type and no threshold is
read out of bounds, and it then adds the entries to the histograms. -/
theorem Registry.applyAll_eq (reg : Registry) (ops : List Op) :
    reg.applyAll ops = if ops.all (fun op => op.valid reg) then some (reg.addHits ops)
      else none := by
  induction ops generalizing reg with
  | nil => simp [Registry.applyAll, Registry.addHits_nil]
  | cons op ops ih =>
    have hstep : reg.applyAll (op :: ops) = (reg.apply op).bind (fun r => r.applyAll ops) := by
      simp [Registry.applyAll, List.foldlM_cons]
    rw [hstep, Registry.apply_eq]
    by_cases hv : op.valid reg = true
    · simp only [hv, if_true, Option.some_bind, ih, Op.valid_addHits,
        Registry.addHits_addHits, List.all_cons, Bool.true_and, List.singleton_append]
    · simp [hv]

theorem Registry.applyAll_append (reg : Registry) (l₁ l₂ : List Op) :
    reg.applyAll (l₁ ++ l₂) = (reg.applyAll l₁).bind (fun r => r.applyAll l₂) := by
  simp [Registry.applyAll, List.foldlM_append]

theorem Registry.applyAll_nil (reg : Registry) : reg.applyAll [] = some reg := by
  simp [Registry.applyAll]

theorem Registry.applyAll_singleton (reg : Registry) (op : Op) :
    reg.applyAll [op] = reg.apply op := by
  simp [Registry.applyAll]

theorem foldlM_applyAll {α : Type} (f : Registry → α → Option Registry) (g : α → List Op)
    (l : List α) (hf : ∀ r, ∀ a ∈ l, f r a = r.applyAll (g a)) (reg : Registry) :
    l.foldlM f reg = reg.applyAll (l.flatMap g) := by
  induction l generalizing reg with
  | nil => simp [Registry.applyAll]
  | cons a l ih =>
    rw [List.foldlM_cons, List.flatMap_cons, Registry.applyAll_append,
      hf reg a (List.mem_cons_self a l)]
    cases h : reg.applyAll (g a) with
    | none => rfl
    | some r =>
      simp only [Option.some_bind, Option.bind_eq_bind]
      exact ih (fun r b hb => hf r b (List.mem_cons_of_mem a hb)) r

theorem cutStep_eq (cuts : List ℚ) (pass : ℚ → Bool) (name : String) (pT : ℚ) (reg : Registry)
    (iCut : Nat) :
    cutStep cuts pass name pT reg iCut = reg.applyAll (cutOps1 cuts pass name pT iCut) := by
  unfold cutStep cutOps1
  cases cuts.get? iCut with
  | none => simp [Registry.applyAll_singleton, Registry.apply]
  | some cut =>
    by_cases hp : pass cut = true
    · simp [hp, Registry.applyAll_singleton, Registry.apply]
    · simp [hp, Registry.applyAll_nil]

theorem cutLoop_eq (n : Nat) (cuts : List ℚ) (pass : ℚ → Bool) (name : String) (pT : ℚ)
    (reg : Registry) :
    cutLoop n cuts pass name pT reg = reg.applyAll (cutOps n cuts pass name pT) := by
  unfold cutLoop cutOps
  exact foldlM_applyAll _ _ _ (fun r a _ => cutStep_eq cuts pass name pT r a) reg

theorem testSelections2Prong_eq (cfg : Config) (candType candOrig : Nat) (candidate : Cand2Prong)
    (tracks : List Track) (reg : Registry) :
    testSelections2Prong cfg candType candOrig candidate tracks reg
      = reg.applyAll (scanOps2Prong cfg candType candOrig candidate tracks) := by
  simp only [testSelections2Prong, scanOps2Prong, Registry.applyAll_append, cutLoop_eq,
    Registry.applyAll_singleton, Registry.apply, Option.bind_eq_bind, Option.bind_assoc]

theorem testSelections3Prong_eq (cfg : Config) (candType candOrig : Nat) (candidate : Cand3Prong)
    (tracks : List Track) (reg : Registry) :
    testSelections3Prong cfg candType candOrig candidate tracks reg
      = reg.applyAll (scanOps3Prong cfg candType candOrig candidate tracks) := by
  simp only [testSelections3Prong, scanOps3Prong, Registry.applyAll_append, cutLoop_eq,
    Registry.applyAll_singleton, Registry.apply, Option.bind_eq_bind, Option.bind_assoc]

theorem switch2Prong_eq (cfg : Config) (iDecay candOrig : Nat) (c : Cand2Prong)
    (tracks : List Track) (reg : Registry) (hi : iDecay < n2Prong) :
    switch2Prong cfg iDecay candOrig c tracks reg
      = testSelections2Prong cfg iDecay candOrig c tracks reg := by
  have h2 : iDecay < 2 := hi
  interval_cases iDecay <;> simp [switch2Prong, D0ToPiK, JpsiToEE]

theorem switch3Prong_eq (cfg : Config) (iDecay candOrig : Nat) (c : Cand3Prong)
    (tracks : List Track) (reg : Registry) (hi : iDecay < n3Prong) :
    switch3Prong cfg iDecay candOrig c tracks reg
      = testSelections3Prong cfg iDecay candOrig c tracks reg := by
  have h4 : iDecay < 4 := hi
  interval_cases iDecay <;> simp [switch3Prong, DPlusToPiKPi, LcToPKPi, DsToPiKK, XicToPKPi]

/-- The operations of the loop body of `process` for channel `iDecay` of a
2-prong candidate. -/
theorem decayStep2Prong_eq (cfg : Config) (c : Cand2Prong) (tracks : List Track)
    (flags : Flags) (reg : Registry) (iDecay : Nat) (hi : iDecay < n2Prong) :
    decayStep2Prong cfg c tracks (flags, reg) iDecay
      = (reg.applyAll ((channelOrig c.hfflag c.flagMCMatchRec c.originMCRec iDecay).toList.flatMap
          (fun orig => scanOps2Prong cfg iDecay orig c tracks))).map
        (fun r => (flags.mark (channelOrig c.hfflag c.flagMCMatchRec c.originMCRec iDecay), r)) := by
  unfold decayStep2Prong channelOrig
  simp only [switch2Prong_eq _ _ _ _ _ _ hi, testSelections2Prong_eq]
  split_ifs <;> simp [Flags.mark, Registry.applyAll_nil]

theorem decayStep3Prong_eq (cfg : Config) (c : Cand3Prong) (tracks : List Track)
    (flags : Flags) (reg : Registry) (iDecay : Nat) (hi : iDecay < n3Prong) :
    decayStep3Prong cfg c tracks (flags, reg) iDecay
      = (reg.applyAll ((channelOrig c.hfflag c.flagMCMatchRec c.originMCRec iDecay).toList.flatMap
          (fun orig => scanOps3Prong cfg iDecay orig c tracks))).map
        (fun r => (flags.mark (channelOrig c.hfflag c.flagMCMatchRec c.originMCRec iDecay), r)) := by
  unfold decayStep3Prong channelOrig
  simp only [switch3Prong_eq _ _ _ _ _ _ hi, testSelections3Prong_eq]
  split_ifs <;> simp [Flags.mark, Registry.applyAll_nil]

theorem foldlM_flags (f : Flags × Registry → Nat → Option (Flags × Registry))
    (g : Nat → List Op) (m : Flags → Nat → Flags) (l : List Nat)
    (hf : ∀ flags r, ∀ i ∈ l, f (flags, r) i = (r.applyAll (g i)).map (fun r => (m flags i, r)))
    (flags : Flags) (reg : Registry) :
    l.foldlM f (flags, reg)
      = (reg.applyAll (l.flatMap g)).map (fun r => (l.foldl m flags, r)) := by
  induction l generalizing flags reg with
  | nil => simp [Registry.applyAll]
  | cons a l ih =>
    rw [List.foldlM_cons, List.flatMap_cons, Registry.applyAll_append,
      hf flags reg a (List.mem_cons_self a l)]
    cases h : reg.applyAll (g a) with
    | none => rfl
    | some r =>
      simp only [Option.map_some', Option.some_bind, Option.bind_eq_bind, List.foldl_cons]
      exact ih (fun fl r b hb => hf fl r b (List.mem_cons_of_mem a hb)) _ r

theorem summary2Prong_eq (cfg : Config) (c : Cand2Prong) (tracks : List Track)
    (flags : Flags) (reg : Registry) :
    summary2Prong cfg c tracks (flags, reg)
      = reg.applyAll ((summaryOrig flags).toList.flatMap
          (fun orig => scanOps2Prong cfg n2Prong orig c tracks)) := by
  unfold summary2Prong summaryOrig
  simp only [testSelections2Prong_eq]
  split_ifs <;> simp [Registry.applyAll_nil, n2Prong]

theorem summary3Prong_eq (cfg : Config) (c : Cand3Prong) (tracks : List Track)
    (flags : Flags) (reg : Registry) :
    summary3Prong cfg c tracks (flags, reg)
      = reg.applyAll ((summaryOrig flags).toList.flatMap
          (fun orig => scanOps3Prong cfg n3Prong orig c tracks)) := by
  unfold summary3Prong summaryOrig
  simp only [testSelections3Prong_eq]
  split_ifs <;> simp [Registry.applyAll_nil, n3Prong]

theorem candScans_flatMap {β : Type} (nDecays hfflag : Nat) (m o : Int)
    (g : Nat × Nat → List β) :
    (candScans nDecays hfflag m o).flatMap g
      = (List.range nDecays).flatMap
          (fun i => (channelOrig hfflag m o i).toList.flatMap (fun orig => g (i, orig)))
        ++ (summaryOrig (flagsAfter nDecays hfflag m o)).toList.flatMap
          (fun orig => g (nDecays, orig)) := by
  unfold candScans
  rw [List.flatMap_append, List.flatMap_assoc]
  congr 1
  · congr 1
    funext i
    cases channelOrig hfflag m o i <;> simp
  · cases summaryOrig (flagsAfter nDecays hfflag m o) <;> simp

/-- The body of the 2-prong loop of `process` performs the operations
`candOps2Prong`. -/
theorem processCand2Prong_eq (cfg : Config) (reg : Registry) (c : Cand2Prong) :
    processCand2Prong cfg reg c = reg.applyAll (candOps2Prong cfg c) := by
  unfold processCand2Prong decayLoop2Prong candOps2Prong candScans2Prong
  rw [candScans_flatMap, Registry.applyAll_append]
  dsimp only
  rw [foldlM_flags _ (fun i => (channelOrig c.hfflag c.flagMCMatchRec c.originMCRec i).toList.flatMap
      (fun orig => scanOps2Prong cfg i orig c [c.index0, c.index1]))
    (fun flags i => flags.mark (channelOrig c.hfflag c.flagMCMatchRec c.originMCRec i))]
  · cases h : reg.applyAll ((List.range n2Prong).flatMap fun i =>
        (channelOrig c.hfflag c.flagMCMatchRec c.originMCRec i).toList.flatMap
          (fun orig => scanOps2Prong cfg i orig c [c.index0, c.index1])) with
    | none => rfl
    | some r =>
      simp only [Option.map_some', Option.some_bind, Option.bind_eq_bind]
      rw [summary2Prong_eq]
      rfl
  · intro flags r i hi
    exact decayStep2Prong_eq cfg c _ flags r i (List.mem_range.mp hi)

theorem processCand3Prong_eq (cfg : Config) (reg : Registry) (c : Cand3Prong) :
    processCand3Prong cfg reg c = reg.applyAll (candOps3Prong cfg c) := by
  unfold processCand3Prong decayLoop3Prong candOps3Prong candScans3Prong
  rw [candScans_flatMap, Registry.applyAll_append]
  dsimp only
  rw [foldlM_flags _ (fun i => (channelOrig c.hfflag c.flagMCMatchRec c.originMCRec i).toList.flatMap
      (fun orig => scanOps3Prong cfg i orig c [c.index0, c.index1, c.index2]))
    (fun flags i => flags.mark (channelOrig c.hfflag c.flagMCMatchRec c.originMCRec i))]
  · cases h : reg.applyAll ((List.range n3Prong).flatMap fun i =>
        (channelOrig c.hfflag c.flagMCMatchRec c.originMCRec i).toList.flatMap
          (fun orig => scanOps3Prong cfg i orig c [c.index0, c.index1, c.index2])) with
    | none => rfl
    | some r =>
      simp only [Option.map_some', Option.some_bind, Option.bind_eq_bind]
      rw [summary3Prong_eq]
      rfl
  · intro flags r i hi
    exact decayStep3Prong_eq cfg c _ flags r i (List.mem_range.mp hi)

/-- The function `process` performs the operations `streamOps`. -/
theorem process_eq (cfg : Config) (reg : Registry) (cand2Prongs : List Cand2Prong)
    (cand3Prongs : List Cand3Prong) :
    process cfg reg cand2Prongs cand3Prongs
      = reg.applyAll (streamOps cfg cand2Prongs cand3Prongs) := by
  unfold process streamOps
  rw [Registry.applyAll_append,
    foldlM_applyAll _ (candOps2Prong cfg) cand2Prongs
      (fun r c _ => processCand2Prong_eq cfg r c) reg]
  cases h : reg.applyAll (cand2Prongs.flatMap (candOps2Prong cfg)) with
  | none => rfl
  | some r =>
    simp only [Option.some_bind, Option.bind_eq_bind]
    exact foldlM_applyAll _ (candOps3Prong cfg) cand3Prongs
      (fun r c _ => processCand3Prong_eq cfg r c) r

/-! ## The classifier -/

theorem TESTBIT_eq_testBit (n i : Nat) : TESTBIT n i = n.testBit i := by
  unfold TESTBIT BIT
  rw [Nat.one_shiftLeft]
  by_cases h : n.testBit i = true
  · rw [h, decide_eq_true_iff]
    intro h0
    have h1 : (n &&& 2 ^ i).testBit i = true := by
      rw [Nat.testBit_and, h, Nat.testBit_two_pow_self]; rfl
    rw [h0] at h1
    simp at h1
  · have hf : n.testBit i = false := by simpa using h
    rw [hf, decide_eq_false_iff_not, not_not]
    apply Nat.eq_of_testBit_eq
    intro j
    rw [Nat.testBit_and, Nat.testBit_two_pow, Nat.zero_testBit]
    by_cases hij : i = j
    · subst hij; simp [hf]
    · simp [hij]

theorem natAbs_eq_BIT_iff (m : Int) (i : Nat) : m.natAbs = BIT i ↔ |m| = 2 ^ i := by
  unfold BIT
  rw [Nat.one_shiftLeft, Int.abs_eq_natAbs]
  constructor
  · intro h; rw [h]; simp
  · intro h; exact_mod_cast h

theorem channelOrig_eq_spec (hfflag : Nat) (m o : Int) (i : Nat) :
    channelOrig hfflag m o i = (specChannelScan hfflag m o i).map Classification.candOrig := by
  unfold channelOrig specChannelScan
  rw [TESTBIT_eq_testBit]
  by_cases hb : hfflag.testBit i = true
  · by_cases hm : m.natAbs = BIT i
    · have hm2 := (natAbs_eq_BIT_iff m i).mp hm
      simp only [hb, hm, hm2, if_true]
      split_ifs <;> rfl
    · have hm2 : ¬ |m| = 2 ^ i := fun h => hm ((natAbs_eq_BIT_iff m i).mpr h)
      simp only [hb, hm, hm2, if_true, if_false]
      rfl
  · simp only [hb, if_false]
    rfl

theorem decayLoop2Prong_eq (cfg : Config) (c : Cand2Prong) (tracks : List Track)
    (reg : Registry) :
    decayLoop2Prong cfg c tracks reg
      = (reg.applyAll (channelOps n2Prong c.hfflag c.flagMCMatchRec c.originMCRec
          (fun i orig => scanOps2Prong cfg i orig c tracks))).map
        (fun r => (flagsAfter n2Prong c.hfflag c.flagMCMatchRec c.originMCRec, r)) := by
  unfold decayLoop2Prong channelOps flagsAfter
  exact foldlM_flags _ _
    (fun flags i => flags.mark (channelOrig c.hfflag c.flagMCMatchRec c.originMCRec i)) _
    (fun flags r i hi => decayStep2Prong_eq cfg c tracks flags r i (List.mem_range.mp hi)) _ _

theorem decayLoop3Prong_eq (cfg : Config) (c : Cand3Prong) (tracks : List Track)
    (reg : Registry) :
    decayLoop3Prong cfg c tracks reg
      = (reg.applyAll (channelOps n3Prong c.hfflag c.flagMCMatchRec c.originMCRec
          (fun i orig => scanOps3Prong cfg i orig c tracks))).map
        (fun r => (flagsAfter n3Prong c.hfflag c.flagMCMatchRec c.originMCRec, r)) := by
  unfold decayLoop3Prong channelOps flagsAfter
  exact foldlM_flags _ _
    (fun flags i => flags.mark (channelOrig c.hfflag c.flagMCMatchRec c.originMCRec i)) _
    (fun flags r i hi => decayStep3Prong_eq cfg c tracks flags r i (List.mem_range.mp hi)) _ _

/-- The per-channel scans selected by the specification's classifier perform
the operations `channelOps`. -/
theorem specLoop_eq (K hfflag : Nat) (m o : Int) (scan : Nat → Nat → Registry → Option Registry)
    (scanOps : Nat → Nat → List Op)
    (hscan : ∀ i orig r, scan i orig r = r.applyAll (scanOps i orig)) (reg : Registry) :
    (List.range K).foldlM (fun r i =>
        match specChannelScan hfflag m o i with
        | some cl => scan i cl.candOrig r
        | none => some r) reg
      = reg.applyAll (channelOps K hfflag m o scanOps) := by
  unfold channelOps
  apply foldlM_applyAll
  intro r i _
  rw [channelOrig_eq_spec]
  cases specChannelScan hfflag m o i with
  | none => simp [Registry.applyAll_nil]
  | some cl => simp [hscan]

/-- C1: for every 2-prong candidate (K = 2 channels) and every 3-prong candidate
(K = 4 channels), the registry after the channel loop of `process` is the
registry obtained by running, for the channels `i = 0, ..., K - 1` in order,
the scan the specification's classifier selects for channel `i`: a Prompt scan
(`candOrig = 0`) when the bit `i` of the decay-channel bitmask is set, the
absolute true-match bitmask is `2 ^ i` and the origin is Prompt; a NonPrompt
scan (`candOrig = 1`) when it is NonPrompt; no scan for any other origin; a
Background scan (`candOrig = 2`) when the bit is set and the absolute
true-match bitmask is not `2 ^ i`; and no scan when the bit is not set. -/
theorem channel_loop_runs_classified_scans (cfg : Config) :
    (∀ (c : Cand2Prong) (reg : Registry),
      (decayLoop2Prong cfg c [c.index0, c.index1] reg).map Prod.snd
        = (List.range 2).foldlM (fun r i =>
            match specChannelScan c.hfflag c.flagMCMatchRec c.originMCRec i with
            | some cl => testSelections2Prong cfg i cl.candOrig c [c.index0, c.index1] r
            | none => some r) reg)
    ∧ (∀ (c : Cand3Prong) (reg : Registry),
      (decayLoop3Prong cfg c [c.index0, c.index1, c.index2] reg).map Prod.snd
        = (List.range 4).foldlM (fun r i =>
            match specChannelScan c.hfflag c.flagMCMatchRec c.originMCRec i with
            | some cl =>
                testSelections3Prong cfg i cl.candOrig c [c.index0, c.index1, c.index2] r
            | none => some r) reg) := by
  constructor
  · intro c reg
    rw [decayLoop2Prong_eq,
      specLoop_eq 2 c.hfflag c.flagMCMatchRec c.originMCRec
        (fun i orig r => testSelections2Prong cfg i orig c [c.index0, c.index1] r)
        (fun i orig => scanOps2Prong cfg i orig c [c.index0, c.index1])
        (fun i orig r => testSelections2Prong_eq cfg i orig c _ r)]
    simp [Option.map_map, Function.comp_def, n2Prong, N2ProngDecays]
  · intro c reg
    rw [decayLoop3Prong_eq,
      specLoop_eq 4 c.hfflag c.flagMCMatchRec c.originMCRec
        (fun i orig r => testSelections3Prong cfg i orig c [c.index0, c.index1, c.index2] r)
        (fun i orig => scanOps3Prong cfg i orig c [c.index0, c.index1, c.index2])
        (fun i orig r => testSelections3Prong_eq cfg i orig c _ r)]
    simp [Option.map_map, Function.comp_def, n3Prong, N3ProngDecays]

theorem foldl_mark_spec (hfflag : Nat) (m o : Int) (l : List Nat) (flags : Flags) :
    l.foldl (fun flags i => flags.mark (channelOrig hfflag m o i)) flags
      = ⟨flags.isPrompt || decide (Classification.Prompt ∈ l.filterMap (specChannelScan hfflag m o)),
         flags.isNonPrompt
          || decide (Classification.NonPrompt ∈ l.filterMap (specChannelScan hfflag m o)),
         flags.isBkg
          || decide (Classification.Background ∈ l.filterMap (specChannelScan hfflag m o))⟩ := by
  induction l generalizing flags with
  | nil => simp
  | cons i l ih =>
    rw [List.foldl_cons, ih, channelOrig_eq_spec]
    cases hs : specChannelScan hfflag m o i with
    | none => simp [List.filterMap_cons, hs, Flags.mark]
    | some cl =>
      cases cl <;>
        simp [List.filterMap_cons, hs, Flags.mark, Classification.candOrig, Bool.or_assoc]

theorem summaryOrig_flagsAfter (K hfflag : Nat) (m o : Int) :
    summaryOrig (flagsAfter K hfflag m o)
      = (specSummary (specClasses K hfflag m o)).map Classification.candOrig := by
  unfold flagsAfter
  rw [foldl_mark_spec]
  unfold summaryOrig specSummary specClasses
  simp only [Bool.false_or, decide_eq_true_eq]
  split_ifs <;> rfl

theorem processCand2Prong_spec (cfg : Config) (reg : Registry) (c : Cand2Prong) :
    processCand2Prong cfg reg c
      = ((decayLoop2Prong cfg c [c.index0, c.index1] reg).map Prod.snd).bind (fun r =>
          match specSummary (specClasses 2 c.hfflag c.flagMCMatchRec c.originMCRec) with
          | some cl =>
              testSelections2Prong cfg N2ProngDecays cl.candOrig c [c.index0, c.index1] r
          | none => some r) := by
  unfold processCand2Prong
  dsimp only
  rw [decayLoop2Prong_eq]
  cases reg.applyAll (channelOps n2Prong c.hfflag c.flagMCMatchRec c.originMCRec
      (fun i orig => scanOps2Prong cfg i orig c [c.index0, c.index1])) with
  | none => rfl
  | some r =>
    simp only [Option.map_some', Option.some_bind, Option.bind_eq_bind]
    rw [summary2Prong_eq, summaryOrig_flagsAfter]
    simp only [show n2Prong = 2 from rfl, show N2ProngDecays = 2 from rfl]
    cases specSummary (specClasses 2 c.hfflag c.flagMCMatchRec c.originMCRec) with
    | none => simp [Registry.applyAll_nil]
    | some cl => simp [testSelections2Prong_eq]

theorem processCand3Prong_spec (cfg : Config) (reg : Registry) (c : Cand3Prong) :
    processCand3Prong cfg reg c
      = ((decayLoop3Prong cfg c [c.index0, c.index1, c.index2] reg).map Prod.snd).bind (fun r =>
          match specSummary (specClasses 4 c.hfflag c.flagMCMatchRec c.originMCRec) with
          | some cl =>
              testSelections3Prong cfg N3ProngDecays cl.candOrig c
                [c.index0, c.index1, c.index2] r
          | none => some r) := by
  unfold processCand3Prong
  dsimp only
  rw [decayLoop3Prong_eq]
  cases reg.applyAll (channelOps n3Prong c.hfflag c.flagMCMatchRec c.originMCRec
      (fun i orig => scanOps3Prong cfg i orig c [c.index0, c.index1, c.index2])) with
  | none => rfl
  | some r =>
    simp only [Option.map_some', Option.some_bind, Option.bind_eq_bind]
    rw [summary3Prong_eq, summaryOrig_flagsAfter]
    simp only [show n3Prong = 4 from rfl, show N3ProngDecays = 4 from rfl]
    cases specSummary (specClasses 4 c.hfflag c.flagMCMatchRec c.originMCRec) with
    | none => simp [Registry.applyAll_nil]
    | some cl => simp [testSelections3Prong_eq]

/-- C2: for every candidate, `process` runs the channel loop and then at most
one summary scan (channel index `N2ProngDecays`, resp. `N3ProngDecays`), whose
classification is picked by priority among the classifications the channels
got: Prompt if any channel is Prompt, otherwise NonPrompt if any is NonPrompt,
otherwise Background if any is Background, and no summary scan when no channel
was classified. In particular a candidate that is Prompt for one channel and
Background for another gets the Prompt summary scan (`candOrig = 0`) only. -/
theorem summary_scan_by_priority (cfg : Config) :
    (∀ (c : Cand2Prong) (reg : Registry),
      processCand2Prong cfg reg c
        = ((decayLoop2Prong cfg c [c.index0, c.index1] reg).map Prod.snd).bind (fun r =>
            match specSummary (specClasses 2 c.hfflag c.flagMCMatchRec c.originMCRec) with
            | some cl =>
                testSelections2Prong cfg N2ProngDecays cl.candOrig c [c.index0, c.index1] r
            | none => some r))
    ∧ (∀ (c : Cand3Prong) (reg : Registry),
      processCand3Prong cfg reg c
        = ((decayLoop3Prong cfg c [c.index0, c.index1, c.index2] reg).map Prod.snd).bind
          (fun r =>
            match specSummary (specClasses 4 c.hfflag c.flagMCMatchRec c.originMCRec) with
            | some cl =>
                testSelections3Prong cfg N3ProngDecays cl.candOrig c
                  [c.index0, c.index1, c.index2] r
            | none => some r))
    ∧ (∀ (c : Cand2Prong) (reg : Registry),
      Classification.Prompt ∈ specClasses 2 c.hfflag c.flagMCMatchRec c.originMCRec →
      Classification.Background ∈ specClasses 2 c.hfflag c.flagMCMatchRec c.originMCRec →
      processCand2Prong cfg reg c
        = ((decayLoop2Prong cfg c [c.index0, c.index1] reg).map Prod.snd).bind (fun r =>
            testSelections2Prong cfg N2ProngDecays 0 c [c.index0, c.index1] r))
    ∧ (∀ (c : Cand3Prong) (reg : Registry),
      Classification.Prompt ∈ specClasses 4 c.hfflag c.flagMCMatchRec c.originMCRec →
      Classification.Background ∈ specClasses 4 c.hfflag c.flagMCMatchRec c.originMCRec →
      processCand3Prong cfg reg c
        = ((decayLoop3Prong cfg c [c.index0, c.index1, c.index2] reg).map Prod.snd).bind
          (fun r => testSelections3Prong cfg N3ProngDecays 0 c
            [c.index0, c.index1, c.index2] r)) := by
  refine ⟨fun c reg => processCand2Prong_spec cfg reg c,
    fun c reg => processCand3Prong_spec cfg reg c, ?_, ?_⟩
  · intro c reg hp _
    rw [processCand2Prong_spec]
    simp [specSummary, hp, Classification.candOrig]
  · intro c reg hp _
    rw [processCand3Prong_spec]
    simp [specSummary, hp, Classification.candOrig]

/-! ## Names and axes -/

set_option maxRecDepth 1000000 in
theorem allKeys_names_nodup :
    (allKeys.map (fun p => tableName p.1 p.2.1 p.2.2)).Nodup := by
  decide!

theorem mem_allKeys {k o t : Nat} (hk : k < 11) (ho : o < 3) (ht : t < tableCols k) :
    (k, o, t) ∈ allKeys := by
  unfold allKeys
  simp only [List.mem_flatMap, List.mem_range, List.mem_map]
  exact ⟨k, hk, o, ho, t, ht, rfl⟩

/-- Distinct positions of the name tables hold distinct names. -/
theorem tableName_inj {k k' o o' t t' : Nat} (hk : k < 11) (hk' : k' < 11) (ho : o < 3)
    (ho' : o' < 3) (ht : t < tableCols k) (ht' : t' < tableCols k') :
    tableName k o t = tableName k' o' t' ↔ k = k' ∧ o = o' ∧ t = t' := by
  constructor
  · intro h
    have := List.inj_on_of_nodup_map allKeys_names_nodup (mem_allKeys hk ho ht)
      (mem_allKeys hk' ho' ht') h
    simpa using this
  · rintro ⟨rfl, rfl, rfl⟩; rfl

theorem findBin_quantized (n j : Nat) (hj : j < n) :
    (quantizedAxis n).findBin ((j : ℚ) + 1) = j + 1 := by
  have hn : (0 : ℚ) < n := by exact_mod_cast Nat.lt_of_le_of_lt (Nat.zero_le j) hj
  have hj0 : (0 : ℚ) ≤ j := by exact_mod_cast Nat.zero_le j
  have hjn : (j : ℚ) + 1 ≤ n := by exact_mod_cast hj
  unfold AxisSpec.findBin quantizedAxis
  simp only [List.headD_cons, List.getLastD_cons, List.getLastD_nil]
  have h1 : ¬ ((j : ℚ) + 1 < 0.5) := by norm_num; linarith
  have h2 : (j : ℚ) + 1 < (n : ℚ) + 0.5 := by norm_num; linarith
  simp only [h1, h2, if_false, not_true, if_true, not_false_eq_true]
  have h3 : (n : ℚ) * ((j : ℚ) + 1 - 0.5) / ((n : ℚ) + 0.5 - 0.5) = (j : ℚ) + 0.5 := by
    field_simp
    ring
  rw [h3]
  have h4 : Int.floor ((j : ℚ) + 0.5) = (j : ℤ) := by
    rw [Int.floor_eq_iff]
    constructor
    · push_cast; norm_num
    · push_cast; norm_num
  rw [h4]
  simp [Nat.add_comm]

/-! ## Entries added by a scan -/

theorem scanOps2Prong_eq_loops (cfg : Config) (t o : Nat) (c : Cand2Prong) (tr : List Track) :
    scanOps2Prong cfg t o c tr
      = Op.fill1 (tableName 0 o t) c.pt :: (loops2Prong cfg t o c tr).flatMap (CutLoop.ops c.pt) := by
  simp [scanOps2Prong, loops2Prong, CutLoop.ops, tableName, histoTables]

theorem scanOps3Prong_eq_loops (cfg : Config) (t o : Nat) (c : Cand3Prong) (tr : List Track) :
    scanOps3Prong cfg t o c tr
      = Op.fill1 (tableName 6 o t) c.pt :: (loops3Prong cfg t o c tr).flatMap (CutLoop.ops c.pt) := by
  simp [scanOps3Prong, loops3Prong, CutLoop.ops, tableName, histoTables]

theorem countP_hits_cutOps1 (h : Histo) (name name' : String) (cuts : List ℚ)
    (pass : ℚ → Bool) (pT : ℚ) (ix i j : Nat)
    (hax : name' = name → h.axis 1 = quantizedAxis cuts.length) :
    (cutOps1 cuts pass name' pT j).countP (Op.hits h name ix (i + 1))
      = if name' = name ∧ j = i ∧ passAt cuts pass j = true ∧ (h.axis 0).findBin pT = ix
        then 1 else 0 := by
  unfold cutOps1 passAt
  cases hc : cuts.get? j with
  | none => simp [Op.hits]
  | some cut =>
    have hj : j < cuts.length := by
      by_contra hlt
      rw [List.get?_eq_none.mpr (Nat.le_of_not_lt hlt)] at hc
      cases hc
    by_cases hp : pass cut = true
    · by_cases hn : name' = name
      · simp only [hp, if_true, List.countP_cons, List.countP_nil, Op.hits, hax hn,
          findBin_quantized cuts.length j hj, hn, true_and, Nat.zero_add]
        by_cases hji : j = i
        · subst hji
          by_cases hx : (h.axis 0).findBin pT = ix <;> simp [hx]
        · have : ¬ (j + 1 = i + 1) := fun e => hji (Nat.succ.inj e)
          simp [hji, this]
      · simp [hp, Op.hits, hn]
    · simp [hp]

theorem countP_hits_cutOps (h : Histo) (name name' : String) (n : Nat) (cuts : List ℚ)
    (pass : ℚ → Bool) (pT : ℚ) (ix i : Nat)
    (hax : name' = name → h.axis 1 = quantizedAxis cuts.length) :
    (cutOps n cuts pass name' pT).countP (Op.hits h name ix (i + 1))
      = if name' = name ∧ i < n ∧ passAt cuts pass i = true ∧ (h.axis 0).findBin pT = ix
        then 1 else 0 := by
  unfold cutOps
  have key : ∀ m, m ≤ n →
      ((List.range m).flatMap (cutOps1 cuts pass name' pT)).countP (Op.hits h name ix (i + 1))
        = if name' = name ∧ i < m ∧ passAt cuts pass i = true ∧ (h.axis 0).findBin pT = ix
          then 1 else 0 := by
    intro m
    induction m with
    | zero => intro _; simp
    | succ m ih =>
      intro hm
      rw [List.range_succ, List.flatMap_append, List.countP_append, ih (Nat.le_of_succ_le hm),
        List.flatMap_singleton, countP_hits_cutOps1 h name name' cuts pass pT ix i m hax]
      by_cases hmi : m = i
      · subst hmi
        simp
      · by_cases him : i < m
        · have : i < m + 1 := Nat.lt_succ_of_lt him
          simp [hmi, him, this]
        · have : ¬ i < m + 1 := by omega
          simp [hmi, him, this]
  exact key n (Nat.le_refl n)

theorem countP_hits_cutOps_of_ne (h : Histo) (name name' : String) (n : Nat) (cuts : List ℚ)
    (pass : ℚ → Bool) (pT : ℚ) (ix iy : Nat) (hne : name' ≠ name) :
    (cutOps n cuts pass name' pT).countP (Op.hits h name ix iy) = 0 := by
  unfold cutOps
  rw [List.countP_eq_zero]
  intro op hop
  simp only [List.mem_flatMap, List.mem_range] at hop
  obtain ⟨j, _, hj⟩ := hop
  unfold cutOps1 at hj
  split at hj
  · rw [List.mem_singleton] at hj; subst hj; simp [Op.hits]
  · split at hj
    · rw [List.mem_singleton] at hj; subst hj; simp [Op.hits, hne]
    · simp at hj

/-- Entries a list of threshold loops adds to the cell `(ix, i + 1)` of the
histogram booked under `name`. -/
theorem countP_hits_loops (h : Histo) (name : String) (ix i : Nat) (pT : ℚ)
    (loops : List CutLoop)
    (hq : ∀ l ∈ loops, l.name = name → h.axis 1 = quantizedAxis l.cuts.length) :
    (loops.flatMap (CutLoop.ops pT)).countP (Op.hits h name ix (i + 1))
      = (loops.map (fun l =>
          if l.name = name ∧ i < l.n ∧ passAt l.cuts l.pass i = true
            ∧ (h.axis 0).findBin pT = ix then 1 else 0)).sum := by
  induction loops with
  | nil => simp
  | cons l loops ih =>
    rw [List.flatMap_cons, List.countP_append, List.map_cons, List.sum_cons,
      ih (fun l' hl' => hq l' (List.mem_cons_of_mem l hl'))]
    congr 1
    exact countP_hits_cutOps h name l.name l.n l.cuts l.pass pT ix i
      (hq l (List.mem_cons_self l loops))

theorem countP_hits_loops_of_ne (h : Histo) (name : String) (ix iy : Nat) (pT : ℚ)
    (loops : List CutLoop) (hne : ∀ l ∈ loops, l.name ≠ name) :
    (loops.flatMap (CutLoop.ops pT)).countP (Op.hits h name ix iy) = 0 := by
  rw [List.countP_eq_zero]
  intro op hop
  simp only [List.mem_flatMap] at hop
  obtain ⟨l, hl, hop⟩ := hop
  have h0 := countP_hits_cutOps_of_ne h name l.name l.n l.cuts l.pass pT ix iy (hne l hl)
  rw [List.countP_eq_zero] at h0
  exact h0 op hop

theorem tableName_eq_iff2 {k k' o o' t t' : Nat} (hk : k < 11) (hk' : k' < 6) (ho : o < 3)
    (ho' : o' < 3) (ht : t < tableCols k) (ht' : t' < 3) :
    tableName k' o' t' = tableName k o t ↔ k' = k ∧ o' = o ∧ t' = t :=
  tableName_inj (by omega) hk ho' ho (by simpa [tableCols, hk'] using ht') ht

theorem tableName_eq_iff3 {k k' o o' t t' : Nat} (hk : k < 11) (hk' : 6 ≤ k') (hk'' : k' < 11)
    (ho : o < 3) (ho' : o' < 3) (ht : t < tableCols k) (ht' : t' < 5) :
    tableName k' o' t' = tableName k o t ↔ k' = k ∧ o' = o ∧ t' = t :=
  tableName_inj hk'' hk ho' ho
    (by have : ¬ k' < 6 := by omega
        simpa [tableCols, this] using ht') ht

/-- Entries a 2-prong scan adds to the cell `(ix, i + 1)` of a histogram of the
name tables. -/
theorem scanHits2Prong (cfg : Config) (k o t o' t' ix i : Nat) (c : Cand2Prong)
    (tr : List Track) (h : Histo) (hk : k < 11) (ho : o < 3) (ht : t < tableCols k)
    (ho' : o' < 3) (ht' : t' < 3) (hax : h.axes = tableAxes cfg k) :
    (scanOps2Prong cfg t' o' c tr).countP (Op.hits h (tableName k o t) ix (i + 1))
      = if o' = o ∧ t' = t ∧ i < tableLen cfg k ∧ pass2Prong k c tr i = true
          ∧ cfg.ptAxis.findBin c.pt = ix then 1 else 0 := by
  have hx : h.axis 0 = cfg.ptAxis := by
    unfold Histo.axis; rw [hax]
    interval_cases k <;> rfl
  rw [scanOps2Prong_eq_loops, List.countP_cons, countP_hits_loops]
  · simp only [loops2Prong, List.map_cons, List.map_nil, List.sum_cons, List.sum_nil,
      tableName_eq_iff2 hk (show 1 < 6 by decide) ho ho' ht ht',
      tableName_eq_iff2 hk (show 2 < 6 by decide) ho ho' ht ht',
      tableName_eq_iff2 hk (show 3 < 6 by decide) ho ho' ht ht',
      tableName_eq_iff2 hk (show 4 < 6 by decide) ho ho' ht ht',
      tableName_eq_iff2 hk (show 5 < 6 by decide) ho ho' ht ht', hx, Op.hits]
    interval_cases k <;> simp [tableLen, pass2Prong, and_assoc]
  · intro l hl hname
    simp only [loops2Prong, List.mem_cons, List.mem_singleton, List.not_mem_nil, or_false] at hl
    unfold Histo.axis
    rw [hax]
    rcases hl with rfl | rfl | rfl | rfl | rfl
    · obtain ⟨rfl, _, _⟩ :=
        (tableName_eq_iff2 hk (show 1 < 6 by decide) ho ho' ht ht').mp hname
      rfl
    · obtain ⟨rfl, _, _⟩ :=
        (tableName_eq_iff2 hk (show 2 < 6 by decide) ho ho' ht ht').mp hname
      rfl
    · obtain ⟨rfl, _, _⟩ :=
        (tableName_eq_iff2 hk (show 3 < 6 by decide) ho ho' ht ht').mp hname
      rfl
    · obtain ⟨rfl, _, _⟩ :=
        (tableName_eq_iff2 hk (show 4 < 6 by decide) ho ho' ht ht').mp hname
      rfl
    · obtain ⟨rfl, _, _⟩ :=
        (tableName_eq_iff2 hk (show 5 < 6 by decide) ho ho' ht ht').mp hname
      rfl

/-- Entries a 3-prong scan adds to the cell `(ix, i + 1)` of a histogram of the
name tables. -/
theorem scanHits3Prong (cfg : Config) (k o t o' t' ix i : Nat) (c : Cand3Prong)
    (tr : List Track) (h : Histo) (hk : k < 11) (ho : o < 3) (ht : t < tableCols k)
    (ho' : o' < 3) (ht' : t' < 5) (hax : h.axes = tableAxes cfg k) :
    (scanOps3Prong cfg t' o' c tr).countP (Op.hits h (tableName k o t) ix (i + 1))
      = if o' = o ∧ t' = t ∧ i < tableLen cfg k ∧ pass3Prong k c tr i = true
          ∧ cfg.ptAxis.findBin c.pt = ix then 1 else 0 := by
  have hx : h.axis 0 = cfg.ptAxis := by
    unfold Histo.axis; rw [hax]
    interval_cases k <;> rfl
  rw [scanOps3Prong_eq_loops, List.countP_cons, countP_hits_loops]
  · simp only [loops3Prong, List.map_cons, List.map_nil, List.sum_cons, List.sum_nil,
      tableName_eq_iff3 hk (show 6 ≤ 7 by decide) (show 7 < 11 by decide) ho ho' ht ht',
      tableName_eq_iff3 hk (show 6 ≤ 8 by decide) (show 8 < 11 by decide) ho ho' ht ht',
      tableName_eq_iff3 hk (show 6 ≤ 9 by decide) (show 9 < 11 by decide) ho ho' ht ht',
      tableName_eq_iff3 hk (show 6 ≤ 10 by decide) (show 10 < 11 by decide) ho ho' ht ht',
      hx, Op.hits]
    interval_cases k <;> simp [tableLen, pass3Prong, and_assoc]
  · intro l hl hname
    simp only [loops3Prong, List.mem_cons, List.mem_singleton, List.not_mem_nil, or_false] at hl
    unfold Histo.axis
    rw [hax]
    rcases hl with rfl | rfl | rfl | rfl
    · obtain ⟨rfl, _, _⟩ := (tableName_eq_iff3 hk (show 6 ≤ 7 by decide)
        (show 7 < 11 by decide) ho ho' ht ht').mp hname
      rfl
    · obtain ⟨rfl, _, _⟩ := (tableName_eq_iff3 hk (show 6 ≤ 8 by decide)
        (show 8 < 11 by decide) ho ho' ht ht').mp hname
      rfl
    · obtain ⟨rfl, _, _⟩ := (tableName_eq_iff3 hk (show 6 ≤ 9 by decide)
        (show 9 < 11 by decide) ho ho' ht ht').mp hname
      rfl
    · obtain ⟨rfl, _, _⟩ := (tableName_eq_iff3 hk (show 6 ≤ 10 by decide)
        (show 10 < 11 by decide) ho ho' ht ht').mp hname
      rfl

/-- Entries a 2-prong scan adds to the cell `(ix, 0)` of a yield histogram. -/
theorem scanYield2Prong (cfg : Config) (k o t o' t' ix : Nat) (c : Cand2Prong)
    (tr : List Track) (h : Histo) (hk : k = 0 ∨ k = 6) (ho : o < 3) (ht : t < tableCols k)
    (ho' : o' < 3) (ht' : t' < 3) (hax : h.axes = tableAxes cfg k) :
    (scanOps2Prong cfg t' o' c tr).countP (Op.hits h (tableName k o t) ix 0)
      = if k = 0 ∧ o' = o ∧ t' = t ∧ cfg.ptAxis.findBin c.pt = ix then 1 else 0 := by
  have hk11 : k < 11 := by omega
  have hx : h.axis 0 = cfg.ptAxis := by
    unfold Histo.axis; rw [hax]
    rcases hk with rfl | rfl <;> rfl
  rw [scanOps2Prong_eq_loops, List.countP_cons, countP_hits_loops_of_ne]
  · simp only [Op.hits, hx, Nat.zero_add,
      tableName_eq_iff2 hk11 (show 0 < 6 by decide) ho ho' ht ht', and_true]
    have hiff : ((0 = k ∧ o' = o ∧ t' = t) ∧ cfg.ptAxis.findBin c.pt = ix)
        ↔ (k = 0 ∧ o' = o ∧ t' = t ∧ cfg.ptAxis.findBin c.pt = ix) :=
      ⟨fun e => ⟨e.1.1.symm, e.1.2.1, e.1.2.2, e.2⟩,
        fun e => ⟨⟨e.1.symm, e.2.1, e.2.2.1⟩, e.2.2.2⟩⟩
    simp only [hiff, decide_eq_true_eq]
  · intro l hl hname
    simp only [loops2Prong, List.mem_cons, List.mem_singleton, List.not_mem_nil, or_false] at hl
    rcases hl with rfl | rfl | rfl | rfl | rfl
    · have := (tableName_eq_iff2 hk11 (show 1 < 6 by decide) ho ho' ht ht').mp hname
      omega
    · have := (tableName_eq_iff2 hk11 (show 2 < 6 by decide) ho ho' ht ht').mp hname
      omega
    · have := (tableName_eq_iff2 hk11 (show 3 < 6 by decide) ho ho' ht ht').mp hname
      omega
    · have := (tableName_eq_iff2 hk11 (show 4 < 6 by decide) ho ho' ht ht').mp hname
      omega
    · have := (tableName_eq_iff2 hk11 (show 5 < 6 by decide) ho ho' ht ht').mp hname
      omega

/-- Entries a 3-prong scan adds to the cell `(ix, 0)` of a yield histogram. -/
theorem scanYield3Prong (cfg : Config) (k o t o' t' ix : Nat) (c : Cand3Prong)
    (tr : List Track) (h : Histo) (hk : k = 0 ∨ k = 6) (ho : o < 3) (ht : t < tableCols k)
    (ho' : o' < 3) (ht' : t' < 5) (hax : h.axes = tableAxes cfg k) :
    (scanOps3Prong cfg t' o' c tr).countP (Op.hits h (tableName k o t) ix 0)
      = if k = 6 ∧ o' = o ∧ t' = t ∧ cfg.ptAxis.findBin c.pt = ix then 1 else 0 := by
  have hk11 : k < 11 := by omega
  have hx : h.axis 0 = cfg.ptAxis := by
    unfold Histo.axis; rw [hax]
    rcases hk with rfl | rfl <;> rfl
  rw [scanOps3Prong_eq_loops, List.countP_cons, countP_hits_loops_of_ne]
  · simp only [Op.hits, hx, Nat.zero_add, and_true,
      tableName_eq_iff3 hk11 (show 6 ≤ 6 by decide) (show 6 < 11 by decide) ho ho' ht ht']
    have hiff : ((6 = k ∧ o' = o ∧ t' = t) ∧ cfg.ptAxis.findBin c.pt = ix)
        ↔ (k = 6 ∧ o' = o ∧ t' = t ∧ cfg.ptAxis.findBin c.pt = ix) :=
      ⟨fun e => ⟨e.1.1.symm, e.1.2.1, e.1.2.2, e.2⟩,
        fun e => ⟨⟨e.1.symm, e.2.1, e.2.2.1⟩, e.2.2.2⟩⟩
    simp only [hiff, decide_eq_true_eq]
  · intro l hl hname
    simp only [loops3Prong, List.mem_cons, List.mem_singleton, List.not_mem_nil, or_false] at hl
    rcases hl with rfl | rfl | rfl | rfl
    · have := (tableName_eq_iff3 hk11 (show 6 ≤ 7 by decide) (show 7 < 11 by decide)
        ho ho' ht ht').mp hname
      omega
    · have := (tableName_eq_iff3 hk11 (show 6 ≤ 8 by decide) (show 8 < 11 by decide)
        ho ho' ht ht').mp hname
      omega
    · have := (tableName_eq_iff3 hk11 (show 6 ≤ 9 by decide) (show 9 < 11 by decide)
        ho ho' ht ht').mp hname
      omega
    · have := (tableName_eq_iff3 hk11 (show 6 ≤ 10 by decide) (show 10 < 11 by decide)
        ho ho' ht ht').mp hname
      omega

/-! ## Entries added by a run -/

theorem Op.hits_congr {h k : Histo} (hax : h.axes = k.axes) (name : String) (ix iy : Nat) :
    Op.hits h name ix iy = Op.hits k name ix iy := by
  funext op
  cases op <;> simp [Op.hits, Histo.axis, hax]

theorem countP_hits_of_unbooked (reg : Registry) (ops : List Op) (h : Histo) (name : String)
    (ix iy : Nat) (hreg : reg name = none) (hv : ops.all (fun op => op.valid reg) = true) :
    ops.countP (Op.hits h name ix iy) = 0 := by
  rw [List.countP_eq_zero]
  intro op hop
  have hvalid := List.all_eq_true.mp hv op hop
  cases op with
  | outOfBounds => simp [Op.hits]
  | fill1 n x =>
    intro hh
    have hn : n = name := by simp [Op.hits] at hh; exact hh.1
    subst hn
    simp [Op.valid, Registry.get, hreg] at hvalid
  | fill2 n x y =>
    intro hh
    have hn : n = name := by simp [Op.hits] at hh; exact hh.1
    subst hn
    simp [Op.valid, Registry.get, hreg] at hvalid

theorem applyAll_eq_some {reg reg' : Registry} {ops : List Op}
    (hrun : reg.applyAll ops = some reg') :
    ops.all (fun op => op.valid reg) = true ∧ reg' = reg.addHits ops := by
  rw [Registry.applyAll_eq] at hrun
  by_cases hv : ops.all (fun op => op.valid reg) = true
  · rw [if_pos hv] at hrun
    exact ⟨hv, (Option.some.inj hrun).symm⟩
  · rw [if_neg hv] at hrun
    cases hrun

/-- The content of a cell after a successful sequence of operations. -/
theorem count_applyAll (cfg : Config) (reg reg' : Registry) (ops : List Op)
    (hrun : reg.applyAll ops = some reg') (hwb : reg.WellBooked cfg) (k o t ix iy : Nat)
    (hk : k < 11) (ho : o < 3) (ht : t < tableCols k) :
    reg'.count (tableName k o t) ix iy
      = reg.count (tableName k o t) ix iy
        + ops.countP (Op.hits (refHisto cfg k) (tableName k o t) ix iy) := by
  obtain ⟨hv, rfl⟩ := applyAll_eq_some hrun
  unfold Registry.count Registry.addHits
  cases hreg : reg (tableName k o t) with
  | none =>
    simp only [Option.map_none']
    rw [countP_hits_of_unbooked reg ops _ _ ix iy hreg hv]
  | some h =>
    simp only [Option.map_some', Histo.addHits]
    rw [Op.hits_congr (show h.axes = (refHisto cfg k).axes from hwb k o t h hk ho ht hreg)]

theorem wellBooked_applyAll (cfg : Config) (reg reg' : Registry) (ops : List Op)
    (hrun : reg.applyAll ops = some reg') (hwb : reg.WellBooked cfg) : reg'.WellBooked cfg := by
  obtain ⟨_, rfl⟩ := applyAll_eq_some hrun
  intro k o t h hk ho ht hreg
  unfold Registry.addHits at hreg
  cases hr : reg (tableName k o t) with
  | none => simp [hr] at hreg
  | some h0 =>
    simp only [hr, Option.map_some', Option.some.injEq] at hreg
    subst hreg
    exact hwb k o t h0 hk ho ht hr

/-! ## The scans of a candidate -/

theorem channelOrig_lt (hfflag : Nat) (m o : Int) (i orig : Nat)
    (h : channelOrig hfflag m o i = some orig) : orig < 3 := by
  unfold channelOrig at h
  split_ifs at h <;> simp at h <;> omega

theorem summaryOrig_lt (flags : Flags) (orig : Nat) (h : summaryOrig flags = some orig) :
    orig < 3 := by
  unfold summaryOrig at h
  split_ifs at h <;> simp at h <;> omega

theorem mem_candScans {K hfflag : Nat} {m o : Int} {s : Nat × Nat} :
    s ∈ candScans K hfflag m o ↔
      (s.1 < K ∧ channelOrig hfflag m o s.1 = some s.2)
      ∨ (s.1 = K ∧ summaryOrig (flagsAfter K hfflag m o) = some s.2) := by
  unfold candScans
  simp only [List.mem_append, List.mem_flatMap, List.mem_range, List.mem_map,
    Option.mem_toList, Option.mem_def]
  constructor
  · rintro (⟨i, hi, orig, ho, rfl⟩ | ⟨orig, ho, rfl⟩)
    · exact Or.inl ⟨hi, ho⟩
    · exact Or.inr ⟨rfl, ho⟩
  · rintro (⟨hi, ho⟩ | ⟨hi, ho⟩)
    · exact Or.inl ⟨s.1, hi, s.2, ho, rfl⟩
    · exact Or.inr ⟨s.2, ho, by rw [← hi]⟩

theorem candScans_bounds {K hfflag : Nat} {m o : Int} {s : Nat × Nat}
    (hs : s ∈ candScans K hfflag m o) : s.1 < K + 1 ∧ s.2 < 3 := by
  rcases mem_candScans.mp hs with ⟨hi, ho⟩ | ⟨hi, ho⟩
  · exact ⟨Nat.lt_succ_of_lt hi, channelOrig_lt _ _ _ _ _ ho⟩
  · exact ⟨by omega, summaryOrig_lt _ _ ho⟩

theorem flatMap_option_sublist (f : Nat → Option Nat) (l : List Nat) :
    ((l.flatMap (fun i => (f i).toList.map (fun orig => (i, orig)))).map Prod.fst).Sublist l := by
  induction l with
  | nil => simp
  | cons a l ih =>
    rw [List.flatMap_cons, List.map_append]
    cases f a with
    | none => simpa using ih.trans (List.sublist_cons_self a l)
    | some b => simpa using ih

theorem candScans_nodup (K hfflag : Nat) (m o : Int) : (candScans K hfflag m o).Nodup := by
  apply List.Nodup.of_map Prod.fst
  unfold candScans
  rw [List.map_append]
  have h1 := flatMap_option_sublist (channelOrig hfflag m o) (List.range K)
  have h2 : (((summaryOrig (flagsAfter K hfflag m o)).toList.map
      (fun orig => (K, orig))).map Prod.fst).Sublist [K] := by
    cases summaryOrig (flagsAfter K hfflag m o) <;> simp
  have h3 := List.Sublist.append h1 h2
  rw [← List.range_succ] at h3
  exact List.Nodup.sublist h3 (List.nodup_range (K + 1))

theorem sum_indicator_of_nodup (l : List (Nat × Nat)) (hl : l.Nodup) (t o : Nat) (Q : Prop)
    [Decidable Q] (f : Nat × Nat → Nat)
    (hf : ∀ s ∈ l, f s = if s.2 = o ∧ s.1 = t ∧ Q then 1 else 0) :
    (l.map f).sum = if (t, o) ∈ l ∧ Q then 1 else 0 := by
  induction l with
  | nil => simp
  | cons a l ih =>
    rw [List.map_cons, List.sum_cons, hf a (List.mem_cons_self a l),
      ih (List.nodup_cons.mp hl).2 (fun s hs => hf s (List.mem_cons_of_mem a hs))]
    have hnot := (List.nodup_cons.mp hl).1
    by_cases hQ : Q
    · by_cases ha : a = (t, o)
      · subst ha
        simp [hQ, hnot]
      · have ha' : ¬ (a.2 = o ∧ a.1 = t) := fun e => ha (Prod.ext e.2 e.1)
        have ha'' : ¬ ((t, o) = a) := fun e => ha e.symm
        simp [hQ, ha', ha'', List.mem_cons]
    · simp [hQ]

theorem sum_map_indicator {α : Type} (l : List α) (P : α → Prop) [DecidablePred P] :
    (l.map (fun a => if P a then 1 else 0)).sum = l.countP (fun a => decide (P a)) := by
  induction l with
  | nil => simp
  | cons a l ih =>
    rw [List.map_cons, List.sum_cons, ih, List.countP_cons]
    by_cases h : P a <;> simp [h, Nat.add_comm]

theorem countP_streamOps (cfg : Config) (c2s : List Cand2Prong) (c3s : List Cand3Prong)
    (p : Op → Bool) :
    (streamOps cfg c2s c3s).countP p
      = (c2s.map (fun c => ((candScans2Prong c).map (fun s =>
          (scanOps2Prong cfg s.1 s.2 c [c.index0, c.index1]).countP p)).sum)).sum
        + (c3s.map (fun c => ((candScans3Prong c).map (fun s =>
          (scanOps3Prong cfg s.1 s.2 c [c.index0, c.index1, c.index2]).countP p)).sum)).sum := by
  unfold streamOps candOps2Prong candOps3Prong
  simp only [List.countP_append, List.countP_flatMap, Function.comp_def]

/-- Entries a run adds to the cell `(ix, i + 1)` of a histogram of the name
tables: one per candidate that is scanned under the key of the histogram, passes
the `i`-th threshold of its dimension and falls in the pT bin `ix`. -/
theorem stream_hits (cfg : Config) (k o t ix i : Nat) (c2s : List Cand2Prong)
    (c3s : List Cand3Prong) (hk : k < 11) (ho : o < 3) (ht : t < tableCols k) :
    (streamOps cfg c2s c3s).countP (Op.hits (refHisto cfg k) (tableName k o t) ix (i + 1))
      = c2s.countP (fun c => decide ((t, o) ∈ candScans2Prong c ∧ i < tableLen cfg k
          ∧ pass2Prong k c [c.index0, c.index1] i = true ∧ cfg.ptAxis.findBin c.pt = ix))
        + c3s.countP (fun c => decide ((t, o) ∈ candScans3Prong c ∧ i < tableLen cfg k
          ∧ pass3Prong k c [c.index0, c.index1, c.index2] i = true
          ∧ cfg.ptAxis.findBin c.pt = ix)) := by
  rw [countP_streamOps]
  have h2 : ∀ c : Cand2Prong, ((candScans2Prong c).map (fun s =>
      (scanOps2Prong cfg s.1 s.2 c [c.index0, c.index1]).countP
        (Op.hits (refHisto cfg k) (tableName k o t) ix (i + 1)))).sum
      = if (t, o) ∈ candScans2Prong c ∧ (i < tableLen cfg k
          ∧ pass2Prong k c [c.index0, c.index1] i = true ∧ cfg.ptAxis.findBin c.pt = ix)
        then 1 else 0 := fun c =>
    sum_indicator_of_nodup _ (candScans_nodup _ _ _ _) t o _ _ (fun s hs =>
      scanHits2Prong cfg k o t s.2 s.1 ix i c _ (refHisto cfg k) hk ho ht
        (candScans_bounds hs).2 (candScans_bounds hs).1 rfl)
  have h3 : ∀ c : Cand3Prong, ((candScans3Prong c).map (fun s =>
      (scanOps3Prong cfg s.1 s.2 c [c.index0, c.index1, c.index2]).countP
        (Op.hits (refHisto cfg k) (tableName k o t) ix (i + 1)))).sum
      = if (t, o) ∈ candScans3Prong c ∧ (i < tableLen cfg k
          ∧ pass3Prong k c [c.index0, c.index1, c.index2] i = true
          ∧ cfg.ptAxis.findBin c.pt = ix)
        then 1 else 0 := fun c =>
    sum_indicator_of_nodup _ (candScans_nodup _ _ _ _) t o _ _ (fun s hs =>
      scanHits3Prong cfg k o t s.2 s.1 ix i c _ (refHisto cfg k) hk ho ht
        (candScans_bounds hs).2 (candScans_bounds hs).1 rfl)
  simp only [h2, h3, sum_map_indicator]

/-- Entries a run adds to the cell `(ix, 0)` of a yield histogram: one per
candidate that is scanned under the key of the histogram and falls in the pT
bin `ix`. -/
theorem stream_yield (cfg : Config) (k o t ix : Nat) (c2s : List Cand2Prong)
    (c3s : List Cand3Prong) (hk : k = 0 ∨ k = 6) (ho : o < 3) (ht : t < tableCols k) :
    (streamOps cfg c2s c3s).countP (Op.hits (refHisto cfg k) (tableName k o t) ix 0)
      = c2s.countP (fun c => decide ((t, o) ∈ candScans2Prong c
          ∧ k = 0 ∧ cfg.ptAxis.findBin c.pt = ix))
        + c3s.countP (fun c => decide ((t, o) ∈ candScans3Prong c
          ∧ k = 6 ∧ cfg.ptAxis.findBin c.pt = ix)) := by
  rw [countP_streamOps]
  have h2 : ∀ c : Cand2Prong, ((candScans2Prong c).map (fun s =>
      (scanOps2Prong cfg s.1 s.2 c [c.index0, c.index1]).countP
        (Op.hits (refHisto cfg k) (tableName k o t) ix 0))).sum
      = if (t, o) ∈ candScans2Prong c ∧ (k = 0 ∧ cfg.ptAxis.findBin c.pt = ix)
        then 1 else 0 := fun c =>
    sum_indicator_of_nodup _ (candScans_nodup _ _ _ _) t o _ _ (fun s hs => by
      rw [scanYield2Prong cfg k o t s.2 s.1 ix c _ (refHisto cfg k) hk ho ht
        (candScans_bounds hs).2 (candScans_bounds hs).1 rfl]
      by_cases hk0 : k = 0 <;> simp [hk0])
  have h3 : ∀ c : Cand3Prong, ((candScans3Prong c).map (fun s =>
      (scanOps3Prong cfg s.1 s.2 c [c.index0, c.index1, c.index2]).countP
        (Op.hits (refHisto cfg k) (tableName k o t) ix 0))).sum
      = if (t, o) ∈ candScans3Prong c ∧ (k = 6 ∧ cfg.ptAxis.findBin c.pt = ix)
        then 1 else 0 := fun c =>
    sum_indicator_of_nodup _ (candScans_nodup _ _ _ _) t o _ _ (fun s hs => by
      rw [scanYield3Prong cfg k o t s.2 s.1 ix c _ (refHisto cfg k) hk ho ht
        (candScans_bounds hs).2 (candScans_bounds hs).1 rfl]
      by_cases hk6 : k = 6 <;> simp [hk6])
  simp only [h2, h3, sum_map_indicator]

/-! ## The booked stores -/

set_option maxRecDepth 1000000 in
/-- The store `bookAll` holds, under every name of the tables, an empty histogram
with the type and axes of its table. -/
theorem bookAll_apply (cfg : Config) (k o t : Nat) (hk : k < 11) (ho : o < 3)
    (ht : t < tableCols k) :
    bookAll cfg (tableName k o t) = some ⟨tableType k, tableAxes cfg k, fun _ _ => 0⟩ := by
  interval_cases k <;> interval_cases o <;>
    (simp only [tableCols] at ht; norm_num at ht; interval_cases t <;> rfl)

set_option maxRecDepth 1000000 in
/-- The store after `init` holds, under every channel name of the tables, an
empty histogram with the type and axes of its table. -/
theorem init_apply (cfg : Config) (k o t : Nat) (hk : k < 11) (ho : o < 3)
    (ht : t + 1 < tableCols k) :
    init cfg (tableName k o t) = some ⟨tableType k, tableAxes cfg k, fun _ _ => 0⟩ := by
  have ht4 : t < 4 := by unfold tableCols at ht; split_ifs at ht <;> omega
  interval_cases k <;> interval_cases o <;> interval_cases t <;>
    first
    | (exfalso; revert ht; decide)
    | rfl

set_option maxRecDepth 1000000 in
/-- The store after `init` holds nothing under the summary names of the tables. -/
theorem init_apply_summary (cfg : Config) (k o : Nat) (hk : k < 11) (ho : o < 3) :
    init cfg (tableName k o (tableCols k - 1)) = none := by
  interval_cases k <;> interval_cases o <;> rfl

theorem bookAll_wellBooked (cfg : Config) : (bookAll cfg).WellBooked cfg := by
  intro k o t h hk ho ht hreg
  rw [bookAll_apply cfg k o t hk ho ht] at hreg
  cases hreg
  rfl

theorem bookAll_complete (cfg : Config) : (bookAll cfg).Complete := by
  intro k o t hk ho ht
  exact ⟨_, bookAll_apply cfg k o t hk ho ht, rfl⟩

theorem init_wellBooked (cfg : Config) : (init cfg).WellBooked cfg := by
  intro k o t h hk ho ht hreg
  by_cases hs : t + 1 < tableCols k
  · rw [init_apply cfg k o t hk ho hs] at hreg
    cases hreg
    rfl
  · have : t = tableCols k - 1 := by omega
    subst this
    rw [init_apply_summary cfg k o hk ho] at hreg
    cases hreg

theorem zeroed_add (reg : Registry) (name : String) (type : HistType) (axes : List AxisSpec)
    (h : reg.Zeroed) : (reg.add name type axes).Zeroed := by
  intro n k hk ix iy
  unfold Registry.add Registry.put at hk
  by_cases hn : n = name
  · simp only [hn, if_true, Option.some.injEq] at hk
    subst hk
    rfl
  · simp only [hn, if_false] at hk
    exact h n k hk ix iy

theorem zeroed_foldl {α : Type} (f : Registry → α → Registry)
    (hf : ∀ r a, r.Zeroed → (f r a).Zeroed) (l : List α) (reg : Registry) (h : reg.Zeroed) :
    (l.foldl f reg).Zeroed := by
  induction l generalizing reg with
  | nil => exact h
  | cons a l ih => exact ih _ (hf reg a h)

theorem zeroed_init2Prong (cfg : Config) (iOrig : Nat) (reg : Registry) (i : Nat)
    (h : reg.Zeroed) : (init2Prong cfg iOrig reg i).Zeroed := by
  unfold init2Prong
  exact zeroed_add _ _ _ _ (zeroed_add _ _ _ _ (zeroed_add _ _ _ _ (zeroed_add _ _ _ _
    (zeroed_add _ _ _ _ (zeroed_add _ _ _ _ h)))))

theorem zeroed_init3Prong (cfg : Config) (iOrig : Nat) (reg : Registry) (i : Nat)
    (h : reg.Zeroed) : (init3Prong cfg iOrig reg i).Zeroed := by
  unfold init3Prong
  exact zeroed_add _ _ _ _ (zeroed_add _ _ _ _ (zeroed_add _ _ _ _ (zeroed_add _ _ _ _
    (zeroed_add _ _ _ _ h))))

theorem zeroed_empty : Registry.empty.Zeroed := by
  intro n k hk
  cases hk

theorem init_zeroed (cfg : Config) : (init cfg).Zeroed := by
  unfold init initFrom
  apply zeroed_foldl _ _ _ _ zeroed_empty
  intro r iOrig hr
  unfold initOrig
  exact zeroed_foldl _ (fun r a => zeroed_init3Prong cfg iOrig r a) _ _
    (zeroed_foldl _ (fun r a => zeroed_init2Prong cfg iOrig r a) _ _ hr)

theorem bookAll_zeroed (cfg : Config) : (bookAll cfg).Zeroed := by
  unfold bookAll
  apply zeroed_foldl _ _ _ _ zeroed_empty
  intro r iOrig hr
  exact zeroed_foldl _ (fun r a => zeroed_init3Prong cfg iOrig r a) _ _
    (zeroed_foldl _ (fun r a => zeroed_init2Prong cfg iOrig r a) _ _ hr)

/-! ## When a run succeeds -/

theorem mem_cutOps {n : Nat} {cuts : List ℚ} {pass : ℚ → Bool} {name : String} {pT : ℚ}
    {op : Op} (hop : op ∈ cutOps n cuts pass name pT) (hn : n ≤ cuts.length) :
    ∃ y, op = Op.fill2 name pT y := by
  unfold cutOps at hop
  simp only [List.mem_flatMap, List.mem_range] at hop
  obtain ⟨j, hj, hop⟩ := hop
  unfold cutOps1 at hop
  have hlt : j < cuts.length := Nat.lt_of_lt_of_le hj hn
  rw [List.get?_eq_get hlt] at hop
  simp only at hop
  split at hop
  · exact ⟨_, List.mem_singleton.mp hop⟩
  · simp at hop

theorem valid_fill1_of_type {reg : Registry} {name : String} {h : Histo} (x : ℚ)
    (hreg : reg name = some h) (hty : h.type = HistType.kTH1F) :
    (Op.fill1 name x).valid reg = true := by
  simp [Op.valid, Registry.get, hreg, hty]

theorem valid_fill2_of_type {reg : Registry} {name : String} {h : Histo} (x y : ℚ)
    (hreg : reg name = some h) (hty : h.type = HistType.kTH2F) :
    (Op.fill2 name x y).valid reg = true := by
  simp [Op.valid, Registry.get, hreg, hty]

theorem valid_scanOps2Prong {cfg : Config} {reg : Registry} {t : Nat} (hc : reg.Holds2 t)
    (hb : cfg.InBounds) (o : Nat) (c : Cand2Prong) (tr : List Track) (ho : o < 3) :
    ∀ op ∈ scanOps2Prong cfg t o c tr, op.valid reg = true := by
  obtain ⟨hb1, hb2, hb3, hb4, hb5⟩ := hb
  intro op hop
  rw [scanOps2Prong_eq_loops] at hop
  simp only [List.mem_cons, List.mem_flatMap, loops2Prong, CutLoop.ops, List.not_mem_nil,
    or_false, exists_eq_or_imp, exists_eq_left] at hop
  rcases hop with rfl | hop | hop | hop | hop | hop
  · obtain ⟨h, hreg, hty⟩ := hc 0 o (by decide) ho
    exact valid_fill1_of_type _ hreg hty
  · obtain ⟨y, rfl⟩ := mem_cutOps hop hb1
    obtain ⟨h, hreg, hty⟩ := hc 1 o (by decide) ho
    exact valid_fill2_of_type _ _ hreg hty
  · obtain ⟨y, rfl⟩ := mem_cutOps hop hb2
    obtain ⟨h, hreg, hty⟩ := hc 2 o (by decide) ho
    exact valid_fill2_of_type _ _ hreg hty
  · obtain ⟨y, rfl⟩ := mem_cutOps hop hb3
    obtain ⟨h, hreg, hty⟩ := hc 3 o (by decide) ho
    exact valid_fill2_of_type _ _ hreg hty
  · obtain ⟨y, rfl⟩ := mem_cutOps hop hb4
    obtain ⟨h, hreg, hty⟩ := hc 4 o (by decide) ho
    exact valid_fill2_of_type _ _ hreg hty
  · obtain ⟨y, rfl⟩ := mem_cutOps hop hb5
    obtain ⟨h, hreg, hty⟩ := hc 5 o (by decide) ho
    exact valid_fill2_of_type _ _ hreg hty

theorem valid_scanOps3Prong {cfg : Config} {reg : Registry} {t : Nat} (hc : reg.Holds3 t)
    (hb : cfg.InBounds) (o : Nat) (c : Cand3Prong) (tr : List Track) (ho : o < 3) :
    ∀ op ∈ scanOps3Prong cfg t o c tr, op.valid reg = true := by
  obtain ⟨hb1, hb2, _, hb4, hb5⟩ := hb
  intro op hop
  rw [scanOps3Prong_eq_loops] at hop
  simp only [List.mem_cons, List.mem_flatMap, loops3Prong, CutLoop.ops, List.not_mem_nil,
    or_false, exists_eq_or_imp, exists_eq_left] at hop
  rcases hop with rfl | hop | hop | hop | hop
  · obtain ⟨h, hreg, hty⟩ := hc 6 o (by decide) (by decide) ho
    exact valid_fill1_of_type _ hreg hty
  · obtain ⟨y, rfl⟩ := mem_cutOps hop hb1
    obtain ⟨h, hreg, hty⟩ := hc 7 o (by decide) (by decide) ho
    exact valid_fill2_of_type _ _ hreg hty
  · obtain ⟨y, rfl⟩ := mem_cutOps hop hb2
    obtain ⟨h, hreg, hty⟩ := hc 8 o (by decide) (by decide) ho
    exact valid_fill2_of_type _ _ hreg hty
  · obtain ⟨y, rfl⟩ := mem_cutOps hop hb4
    obtain ⟨h, hreg, hty⟩ := hc 9 o (by decide) (by decide) ho
    exact valid_fill2_of_type _ _ hreg hty
  · obtain ⟨y, rfl⟩ := mem_cutOps hop hb5
    obtain ⟨h, hreg, hty⟩ := hc 10 o (by decide) (by decide) ho
    exact valid_fill2_of_type _ _ hreg hty

theorem complete_holds2 {reg : Registry} (hc : reg.Complete) (t : Nat) (ht : t < 3) :
    reg.Holds2 t := by
  intro k o hk ho
  exact hc k o t (by omega) ho (by simpa [tableCols, hk] using ht)

theorem complete_holds3 {reg : Registry} (hc : reg.Complete) (t : Nat) (ht : t < 5) :
    reg.Holds3 t := by
  intro k o hk6 hk ho
  have : ¬ k < 6 := by omega
  exact hc k o t hk ho (by simpa [tableCols, this] using ht)

theorem init_holds2 (cfg : Config) (t : Nat) (ht : t < 2) : (init cfg).Holds2 t := by
  intro k o hk ho
  exact ⟨_, init_apply cfg k o t (by omega) ho (by simp only [tableCols, hk, if_true]; omega),
    rfl⟩

/-- A 2-prong scan succeeds when the column it addresses is booked and the
grids are not longer than the constant threshold arrays. -/
theorem testSelections2Prong_succeeds {cfg : Config} {reg : Registry} {t : Nat}
    (hc : reg.Holds2 t) (hb : cfg.InBounds) (o : Nat) (c : Cand2Prong) (tr : List Track)
    (ho : o < 3) : ∃ reg', testSelections2Prong cfg t o c tr reg = some reg' := by
  rw [testSelections2Prong_eq, Registry.applyAll_eq,
    if_pos (List.all_eq_true.mpr (valid_scanOps2Prong hc hb o c tr ho))]
  exact ⟨_, rfl⟩

/-- On a store that holds every histogram of the name tables, with grids not
longer than the constant threshold arrays, `process` succeeds. -/
theorem process_succeeds (cfg : Config) (reg : Registry) (c2s : List Cand2Prong)
    (c3s : List Cand3Prong) (hc : reg.Complete) (hb : cfg.InBounds) :
    ∃ reg', process cfg reg c2s c3s = some reg' := by
  rw [process_eq, Registry.applyAll_eq]
  have hall : (streamOps cfg c2s c3s).all (fun op => op.valid reg) = true := by
    rw [List.all_eq_true]
    intro op hop
    unfold streamOps candOps2Prong candOps3Prong at hop
    simp only [List.mem_append, List.mem_flatMap] at hop
    rcases hop with ⟨c, _, s, hs, hop⟩ | ⟨c, _, s, hs, hop⟩
    · exact valid_scanOps2Prong (complete_holds2 hc s.1 (candScans_bounds hs).1) hb s.2 c _
        (candScans_bounds hs).2 op hop
    · exact valid_scanOps3Prong (complete_holds3 hc s.1 (candScans_bounds hs).1) hb s.2 c _
        (candScans_bounds hs).2 op hop
  rw [if_pos hall]
  exact ⟨_, rfl⟩

/-! ## The cells a scan and a run change -/

/-- The content of a cell `(ix, i + 1)` after a successful 2-prong scan. -/
theorem scan2_count (cfg : Config) (reg reg' : Registry) (t o : Nat) (c : Cand2Prong)
    (tr : List Track) (hrun : testSelections2Prong cfg t o c tr reg = some reg')
    (hwb : reg.WellBooked cfg) (ho : o < 3) (ht : t < 3) (k o' t' ix i : Nat) (hk : k < 11)
    (ho' : o' < 3) (ht' : t' < tableCols k) :
    reg'.count (tableName k o' t') ix (i + 1)
      = reg.count (tableName k o' t') ix (i + 1)
        + if o = o' ∧ t = t' ∧ i < tableLen cfg k ∧ pass2Prong k c tr i = true
            ∧ cfg.ptAxis.findBin c.pt = ix then 1 else 0 := by
  rw [testSelections2Prong_eq] at hrun
  rw [count_applyAll cfg reg reg' _ hrun hwb k o' t' ix (i + 1) hk ho' ht',
    scanHits2Prong cfg k o' t' o t ix i c tr (refHisto cfg k) hk ho' ht' ho ht rfl]

/-- The content of a cell `(ix, i + 1)` after a successful 3-prong scan. -/
theorem scan3_count (cfg : Config) (reg reg' : Registry) (t o : Nat) (c : Cand3Prong)
    (tr : List Track) (hrun : testSelections3Prong cfg t o c tr reg = some reg')
    (hwb : reg.WellBooked cfg) (ho : o < 3) (ht : t < 5) (k o' t' ix i : Nat) (hk : k < 11)
    (ho' : o' < 3) (ht' : t' < tableCols k) :
    reg'.count (tableName k o' t') ix (i + 1)
      = reg.count (tableName k o' t') ix (i + 1)
        + if o = o' ∧ t = t' ∧ i < tableLen cfg k ∧ pass3Prong k c tr i = true
            ∧ cfg.ptAxis.findBin c.pt = ix then 1 else 0 := by
  rw [testSelections3Prong_eq] at hrun
  rw [count_applyAll cfg reg reg' _ hrun hwb k o' t' ix (i + 1) hk ho' ht',
    scanHits3Prong cfg k o' t' o t ix i c tr (refHisto cfg k) hk ho' ht' ho ht rfl]

theorem findBin_le (a : AxisSpec) (x : ℚ) : a.findBin x ≤ a.nbins + 1 := by
  unfold AxisSpec.findBin
  split_ifs with h1 h2
  · exact Nat.zero_le _
  · have hx1 : a.binEdges.headD 0 ≤ x := not_lt.mp h1
    have hx2 : x < a.binEdges.getLastD 0 := h2
    cases hn : a.nBins with
    | none =>
      simp only [AxisSpec.nbins, hn]
      have := List.length_filter_le (fun e => decide (e ≤ x)) a.binEdges
      omega
    | some n =>
      simp only [AxisSpec.nbins, hn]
      have hd : 0 < a.binEdges.getLastD 0 - a.binEdges.headD 0 := by linarith
      have hfrac : (n : ℚ) * (x - a.binEdges.headD 0)
          / (a.binEdges.getLastD 0 - a.binEdges.headD 0) ≤ n := by
        rw [div_le_iff₀ hd]
        have hn0 : (0 : ℚ) ≤ n := Nat.cast_nonneg n
        nlinarith
      have hfl : Int.floor ((n : ℚ) * (x - a.binEdges.headD 0)
          / (a.binEdges.getLastD 0 - a.binEdges.headD 0)) ≤ (n : ℤ) := by
        have := Int.floor_le ((n : ℚ) * (x - a.binEdges.headD 0)
          / (a.binEdges.getLastD 0 - a.binEdges.headD 0))
        have h3 : ((Int.floor ((n : ℚ) * (x - a.binEdges.headD 0)
          / (a.binEdges.getLastD 0 - a.binEdges.headD 0)) : ℤ) : ℚ) ≤ ((n : ℤ) : ℚ) := by
          push_cast
          linarith
        exact_mod_cast h3
      omega
  · exact Nat.le_refl _

theorem sum_range_indicator (m j : Nat) (hj : j < m) (Q : Prop) [Decidable Q] :
    ((List.range m).map (fun ix => if Q ∧ j = ix then 1 else 0)).sum = if Q then 1 else 0 := by
  induction m with
  | zero => omega
  | succ m ih =>
    rw [List.range_succ, List.map_append, List.sum_append, List.map_singleton,
      List.sum_singleton]
    by_cases hjm : j = m
    · subst hjm
      have h0 : ((List.range j).map (fun ix => if Q ∧ j = ix then 1 else 0)).sum = 0 := by
        apply List.sum_eq_zero
        intro x hx
        simp only [List.mem_map, List.mem_range] at hx
        obtain ⟨ix, hix, rfl⟩ := hx
        have : ¬ (j = ix) := by omega
        simp [this]
      rw [h0]
      simp
    · rw [ih (by omega)]
      simp [hjm]

/-- Summing, over the pT bins, the candidates that satisfy `P` and fall in the
bin gives the candidates that satisfy `P`. -/
theorem sum_countP_findBin {α : Type} (a : AxisSpec) (l : List α) (P : α → Prop)
    [DecidablePred P] (pt : α → ℚ) :
    ((List.range (a.nbins + 2)).map (fun ix =>
        l.countP (fun c => decide (P c ∧ a.findBin (pt c) = ix)))).sum
      = l.countP (fun c => decide (P c)) := by
  induction l with
  | nil => simp
  | cons c l ih =>
    simp only [List.countP_cons]
    rw [← ih]
    have hsplit : ∀ (f g : Nat → Nat) (r : List Nat),
        (r.map (fun ix => f ix + g ix)).sum = (r.map f).sum + (r.map g).sum := by
      intro f g r
      induction r with
      | nil => simp
      | cons x r ihr => simp only [List.map_cons, List.sum_cons, ihr]; omega
    rw [hsplit]
    congr 1
    have hlt : a.findBin (pt c) < a.nbins + 2 := Nat.lt_succ_of_le (findBin_le a (pt c))
    have := sum_range_indicator (a.nbins + 2) (a.findBin (pt c)) hlt (P c)
    simp only [decide_eq_true_eq]
    exact this

theorem sum_map_add (f g : Nat → Nat) (r : List Nat) :
    (r.map (fun ix => f ix + g ix)).sum = (r.map f).sum + (r.map g).sum := by
  induction r with
  | nil => simp
  | cons x r ihr => simp only [List.map_cons, List.sum_cons, ihr]; omega

/-- On a store booked with the axes of `init`, the sum over the pT bins is
taken over the bins of the configured pT axis. -/
theorem sumOverPt_eq (cfg : Config) (reg : Registry) (hwb : reg.WellBooked cfg)
    (k o t iy : Nat) (hk : k < 11) (ho : o < 3) (ht : t < tableCols k) :
    reg.sumOverPt (tableName k o t) iy
      = ((List.range (cfg.ptAxis.nbins + 2)).map
          (fun ix => reg.count (tableName k o t) ix iy)).sum := by
  unfold Registry.sumOverPt Registry.count
  cases hreg : reg (tableName k o t) with
  | none => simp
  | some h =>
    have hax := hwb k o t h hk ho ht hreg
    have hx : h.axis 0 = cfg.ptAxis := by
      unfold Histo.axis; rw [hax]
      interval_cases k <;> rfl
    simp only [hx]

theorem count_of_zeroed {reg : Registry} (hz : reg.Zeroed) (name : String) (ix iy : Nat) :
    reg.count name ix iy = 0 := by
  unfold Registry.count
  cases hreg : reg name with
  | none => rfl
  | some h => exact hz name h hreg ix iy

theorem defaultConfig_inBounds : defaultConfig.InBounds := by
  unfold Config.InBounds defaultConfig
  decide

theorem gridConfig_inBounds : gridConfig.InBounds := by
  unfold Config.InBounds gridConfig defaultConfig
  decide

theorem mem_streamOps2 {cfg : Config} {c2s : List Cand2Prong} {c3s : List Cand3Prong}
    {c : Cand2Prong} {s : Nat × Nat} {op : Op} (hc : c ∈ c2s) (hs : s ∈ candScans2Prong c)
    (hop : op ∈ scanOps2Prong cfg s.1 s.2 c [c.index0, c.index1]) :
    op ∈ streamOps cfg c2s c3s := by
  unfold streamOps candOps2Prong
  simp only [List.mem_append, List.mem_flatMap]
  exact Or.inl ⟨c, hc, s, hs, hop⟩

theorem mem_streamOps3 {cfg : Config} {c2s : List Cand2Prong} {c3s : List Cand3Prong}
    {c : Cand3Prong} {s : Nat × Nat} {op : Op} (hc : c ∈ c3s) (hs : s ∈ candScans3Prong c)
    (hop : op ∈ scanOps3Prong cfg s.1 s.2 c [c.index0, c.index1, c.index2]) :
    op ∈ streamOps cfg c2s c3s := by
  unfold streamOps candOps3Prong
  simp only [List.mem_append, List.mem_flatMap]
  exact Or.inr ⟨c, hc, s, hs, hop⟩

theorem process_eq_none_of_invalid {cfg : Config} {reg : Registry} {c2s : List Cand2Prong}
    {c3s : List Cand3Prong} (op : Op) (hop : op ∈ streamOps cfg c2s c3s)
    (hv : op.valid reg = false) : process cfg reg c2s c3s = none := by
  rw [process_eq, Registry.applyAll_eq]
  have : ¬ (streamOps cfg c2s c3s).all (fun op => op.valid reg) = true := by
    intro hall
    have := List.all_eq_true.mp hall op hop
    rw [hv] at this
    cases this
  rw [if_neg this]

/-! ## Which thresholds a scan reads, and which histograms `init` books -/

/-- C3 (evaluation at the failing input): with the configured pointing-cosine
grid `[0.5]`, a Prompt channel-0 scan of a candidate with pointing cosine 0.6,
run on the store after `init`, succeeds and leaves every cell of threshold
index 1 of the cosine histogram at 0, although 0.6 passes the first value of
the configured grid: the scan compares against `cospCuts[0] = 0.70`. -/
theorem scan_compares_with_constant_array :
    gridConfig.cospCutsToTest.get? 0 = some 0.5 ∧ gridCand2Prong.cpa > 0.5
    ∧ ∃ reg', testSelections2Prong gridConfig D0ToPiK 0 gridCand2Prong
          [gridCand2Prong.index0, gridCand2Prong.index1] (init gridConfig) = some reg'
        ∧ ∀ ix, reg'.count (nameAt histoCospNames2Prong 0 D0ToPiK) ix 1 = 0 := by
  obtain ⟨reg', hrun⟩ := testSelections2Prong_succeeds (init_holds2 gridConfig D0ToPiK (by decide))
    gridConfig_inBounds 0 gridCand2Prong [gridCand2Prong.index0, gridCand2Prong.index1]
    (by decide)
  refine ⟨rfl, by norm_num [gridCand2Prong], reg', hrun, fun ix => ?_⟩
  have h := scan2_count gridConfig _ reg' D0ToPiK 0 gridCand2Prong _ hrun
    (init_wellBooked gridConfig) (by decide) (by decide) 1 0 0 ix 0 (by decide) (by decide)
    (by decide)
  have hname : nameAt histoCospNames2Prong 0 D0ToPiK = tableName 1 0 0 := rfl
  have hpass : pass2Prong 1 gridCand2Prong [gridCand2Prong.index0, gridCand2Prong.index1] 0
      = false := by
    simp only [pass2Prong, passAt, cospCuts, gridCand2Prong, List.get?_cons_zero,
      decide_eq_false_iff_not]
    norm_num
  rw [hname, h, count_of_zeroed (init_zeroed gridConfig), hpass]
  simp

/-- C4 (evaluation at the failing input): the store after `init` holds no
histogram under the 2-prong and 3-prong summary names, and `process`, started
from that store on one candidate that is classified, fails at the summary scan. -/
theorem init_books_no_summary_histogram :
    init defaultConfig (nameAt histoNames2Prong 0 N2ProngDecays) = none
    ∧ init defaultConfig (nameAt histoCospNames2Prong 0 N2ProngDecays) = none
    ∧ init defaultConfig (nameAt histoNames3Prong 0 N3ProngDecays) = none
    ∧ process defaultConfig (init defaultConfig) [sampleCand2Prong] [] = none
    ∧ process defaultConfig (init defaultConfig) [] [sampleCand3Prong] = none := by
  refine ⟨init_apply_summary defaultConfig 0 0 (by decide) (by decide),
    init_apply_summary defaultConfig 1 0 (by decide) (by decide),
    init_apply_summary defaultConfig 6 0 (by decide) (by decide), ?_, ?_⟩
  · apply process_eq_none_of_invalid (Op.fill1 (tableName 0 0 2) sampleCand2Prong.pt)
    · apply mem_streamOps2 (c := sampleCand2Prong) (s := (2, 0)) (List.mem_singleton.mpr rfl)
      · decide
      · rw [scanOps2Prong_eq_loops]
        exact List.mem_cons_self _ _
    · have := init_apply_summary defaultConfig 0 0 (by decide) (by decide)
      simp only [Op.valid, Registry.get]
      rw [show tableName 0 0 2 = tableName 0 0 (tableCols 0 - 1) from rfl, this]
      rfl
  · apply process_eq_none_of_invalid (Op.fill1 (tableName 6 0 4) sampleCand3Prong.pt)
    · apply mem_streamOps3 (c := sampleCand3Prong) (s := (4, 0)) (List.mem_singleton.mpr rfl)
      · decide
      · rw [scanOps3Prong_eq_loops]
        exact List.mem_cons_self _ _
    · have := init_apply_summary defaultConfig 6 0 (by decide) (by decide)
      simp only [Op.valid, Registry.get]
      rw [show tableName 6 0 4 = tableName 6 0 (tableCols 6 - 1) from rfl, this]
      rfl

/-! ## Yields -/

/-- The total content of a yield histogram after a run. -/
theorem yield_total (cfg : Config) (reg reg' : Registry) (c2s : List Cand2Prong)
    (c3s : List Cand3Prong) (hrun : process cfg reg c2s c3s = some reg')
    (hwb : reg.WellBooked cfg) (k o t : Nat) (hk : k = 0 ∨ k = 6) (ho : o < 3)
    (ht : t < tableCols k) :
    reg'.sumOverPt (tableName k o t) 0
      = reg.sumOverPt (tableName k o t) 0
        + c2s.countP (fun c => decide ((t, o) ∈ candScans2Prong c ∧ k = 0))
        + c3s.countP (fun c => decide ((t, o) ∈ candScans3Prong c ∧ k = 6)) := by
  have hk11 : k < 11 := by omega
  rw [process_eq] at hrun
  rw [sumOverPt_eq cfg reg' (wellBooked_applyAll cfg reg reg' _ hrun hwb) k o t 0 hk11 ho ht,
    sumOverPt_eq cfg reg hwb k o t 0 hk11 ho ht]
  simp only [count_applyAll cfg reg reg' _ hrun hwb k o t _ 0 hk11 ho ht,
    stream_yield cfg k o t _ c2s c3s hk ho ht, sum_map_add, ← and_assoc]
  rw [sum_countP_findBin cfg.ptAxis c2s (fun c => (t, o) ∈ candScans2Prong c ∧ k = 0)
      (fun c => c.pt),
    sum_countP_findBin cfg.ptAxis c3s (fun c => (t, o) ∈ candScans3Prong c ∧ k = 6)
      (fun c => c.pt)]
  omega

/-- When a run of `process` completes on a store booked with the axes of `init`,
the total content of the 1D yield histogram of every (classification, channel)
pair, and of every (classification, summary) pair, is its total content before
the run plus the number of candidates of the stream the classifier assigned to
that pair; the cut grids do not enter. From an empty store it is exactly that
number. -/
theorem yield_counter_counts_classified (cfg : Config) (reg reg' : Registry)
    (c2s : List Cand2Prong) (c3s : List Cand3Prong)
    (hrun : process cfg reg c2s c3s = some reg') (hwb : reg.WellBooked cfg) (o : Nat)
    (ho : o < 3) :
    (∀ t, t < n2Prong →
      reg'.sumOverPt (nameAt histoNames2Prong o t) 0
        = reg.sumOverPt (nameAt histoNames2Prong o t) 0
          + c2s.countP (fun c =>
              decide (channelOrig c.hfflag c.flagMCMatchRec c.originMCRec t = some o)))
    ∧ reg'.sumOverPt (nameAt histoNames2Prong o n2Prong) 0
        = reg.sumOverPt (nameAt histoNames2Prong o n2Prong) 0
          + c2s.countP (fun c => decide
              (summaryOrig (flagsAfter n2Prong c.hfflag c.flagMCMatchRec c.originMCRec)
                = some o))
    ∧ (∀ t, t < n3Prong →
      reg'.sumOverPt (nameAt histoNames3Prong o t) 0
        = reg.sumOverPt (nameAt histoNames3Prong o t) 0
          + c3s.countP (fun c =>
              decide (channelOrig c.hfflag c.flagMCMatchRec c.originMCRec t = some o)))
    ∧ reg'.sumOverPt (nameAt histoNames3Prong o n3Prong) 0
        = reg.sumOverPt (nameAt histoNames3Prong o n3Prong) 0
          + c3s.countP (fun c => decide
              (summaryOrig (flagsAfter n3Prong c.hfflag c.flagMCMatchRec c.originMCRec)
                = some o)) := by
  have h2 : ∀ t, t < 3 → reg'.sumOverPt (nameAt histoNames2Prong o t) 0
      = reg.sumOverPt (nameAt histoNames2Prong o t) 0
        + c2s.countP (fun c => decide ((t, o) ∈ candScans2Prong c)) := by
    intro t ht
    have := yield_total cfg reg reg' c2s c3s hrun hwb 0 o t (Or.inl rfl) ho ht
    simpa [tableName, histoTables] using this
  have h3 : ∀ t, t < 5 → reg'.sumOverPt (nameAt histoNames3Prong o t) 0
      = reg.sumOverPt (nameAt histoNames3Prong o t) 0
        + c3s.countP (fun c => decide ((t, o) ∈ candScans3Prong c)) := by
    intro t ht
    have := yield_total cfg reg reg' c2s c3s hrun hwb 6 o t (Or.inr rfl) ho ht
    simpa [tableName, histoTables] using this
  refine ⟨fun t ht => ?_, ?_, fun t ht => ?_, ?_⟩
  · rw [h2 t (by unfold n2Prong N2ProngDecays at ht; omega)]
    congr 2
    funext c
    simp only [candScans2Prong, mem_candScans, decide_eq_decide]
    constructor
    · rintro (⟨_, h⟩ | ⟨h, _⟩)
      · exact h
      · exact absurd h (Nat.ne_of_lt ht)
    · intro h
      exact Or.inl ⟨ht, h⟩
  · rw [h2 n2Prong (by decide)]
    congr 2
    funext c
    simp only [candScans2Prong, mem_candScans, decide_eq_decide]
    constructor
    · rintro (⟨h, _⟩ | ⟨_, h⟩)
      · exact absurd h (Nat.lt_irrefl _)
      · exact h
    · intro h
      exact Or.inr ⟨trivial, h⟩
  · rw [h3 t (by unfold n3Prong N3ProngDecays at ht; omega)]
    congr 2
    funext c
    simp only [candScans3Prong, mem_candScans, decide_eq_decide]
    constructor
    · rintro (⟨_, h⟩ | ⟨h, _⟩)
      · exact h
      · exact absurd h (Nat.ne_of_lt ht)
    · intro h
      exact Or.inl ⟨ht, h⟩
  · rw [h3 n3Prong (by decide)]
    congr 2
    funext c
    simp only [candScans3Prong, mem_candScans, decide_eq_decide]
    constructor
    · rintro (⟨h, _⟩ | ⟨_, h⟩)
      · exact absurd h (Nat.lt_irrefl _)
      · exact h
    · intro h
      exact Or.inr ⟨trivial, h⟩

/-! ## Strict comparisons and the tested quantities -/

theorem passAt_of_get {cuts : List ℚ} {pass : ℚ → Bool} {i : Nat} {cut : ℚ}
    (h : cuts.get? i = some cut) : passAt cuts pass i = pass cut := by
  unfold passAt
  rw [h]

theorem sortedPt_two (a b : ℚ) : (sortedPt [a, b]).getD 0 0 = min a b := by
  unfold sortedPt
  simp only [List.insertionSort, List.orderedInsert]
  by_cases h : a ≤ b
  · simp [h]
  · simp [h, min_eq_right (le_of_not_le h)]

theorem sortedPt_three (a b c : ℚ) : (sortedPt [a, b, c]).getD 0 0 = min a (min b c) := by
  unfold sortedPt
  simp only [List.insertionSort, List.orderedInsert]
  by_cases hbc : b ≤ c
  · by_cases hab : a ≤ b
    · simp [hbc, hab, min_eq_left (le_trans hab hbc)]
    · simp [hbc, hab, min_eq_right (le_of_not_le hab)]
  · have hcb : c ≤ b := le_of_not_le hbc
    by_cases hac : a ≤ c
    · simp [hbc, hac, min_eq_right hcb]
    · simp [hbc, hac, min_eq_right hcb, min_eq_right (le_of_not_le hac)]

theorem sortedAbsDCA_two (a b : ℚ) : (sortedAbsDCA [a, b]).getD 0 0 = min |a| |b| := by
  have := sortedPt_two |a| |b|
  simpa [sortedAbsDCA, sortedPt] using this

theorem sortedAbsDCA_three (a b c : ℚ) :
    (sortedAbsDCA [a, b, c]).getD 0 0 = min |a| (min |b| |c|) := by
  have := sortedPt_three |a| |b| |c|
  simpa [sortedAbsDCA, sortedPt] using this

/-- C10: the quantity the min-track-DCA loop tests (`absDCA[0]`, the first
element of the ascending-sorted list of absolute transverse impact parameters)
is the minimum of the absolute DCA of the 2, resp. 3, tracks, and the quantity
the min-track-pT loop tests (`ptTrack[0]`) is the minimum track pT. So, for a
threshold index `i` below the size of the configured grid, with `cut` the
`i`-th threshold the scan reads, a successful scan adds one entry to the cell
`(ix, i + 1)` of the min-DCA histogram exactly when every track has an
absolute DCA strictly greater than `cut` (and `ix` is the pT bin of the
candidate), and likewise for the min-pT histogram and the track pT. -/
theorem min_track_quantities_tested (cfg : Config) (reg reg' : Registry)
    (hwb : reg.WellBooked cfg) (o t ix i : Nat) (ho : o < 3) (cut : ℚ) :
    (∀ (c : Cand2Prong) (t0 t1 : Track), t ≤ n2Prong →
      testSelections2Prong cfg t o c [t0, t1] reg = some reg' →
      (sortedAbsDCA [t0.dcaPrim0, t1.dcaPrim0]).getD 0 0 = min |t0.dcaPrim0| |t1.dcaPrim0|
      ∧ (sortedPt [t0.pt, t1.pt]).getD 0 0 = min t0.pt t1.pt
      ∧ (i < cfg.minDCAxyCutsToTest.length → minDCAxyCuts.get? i = some cut →
        reg'.count (nameAt histoMinDCAxyNames2Prong o t) ix (i + 1)
          = reg.count (nameAt histoMinDCAxyNames2Prong o t) ix (i + 1)
            + if (cut < |t0.dcaPrim0| ∧ cut < |t1.dcaPrim0|) ∧ cfg.ptAxis.findBin c.pt = ix
              then 1 else 0)
      ∧ (i < cfg.minTrackPtCutsToTest.length → minTrackPtCuts.get? i = some cut →
        reg'.count (nameAt histoMinTrackPtNames2Prong o t) ix (i + 1)
          = reg.count (nameAt histoMinTrackPtNames2Prong o t) ix (i + 1)
            + if (cut < t0.pt ∧ cut < t1.pt) ∧ cfg.ptAxis.findBin c.pt = ix then 1 else 0))
    ∧ (∀ (c : Cand3Prong) (t0 t1 t2 : Track), t ≤ n3Prong →
      testSelections3Prong cfg t o c [t0, t1, t2] reg = some reg' →
      (sortedAbsDCA [t0.dcaPrim0, t1.dcaPrim0, t2.dcaPrim0]).getD 0 0
          = min |t0.dcaPrim0| (min |t1.dcaPrim0| |t2.dcaPrim0|)
      ∧ (sortedPt [t0.pt, t1.pt, t2.pt]).getD 0 0 = min t0.pt (min t1.pt t2.pt)
      ∧ (i < cfg.minDCAxyCutsToTest.length → minDCAxyCuts.get? i = some cut →
        reg'.count (nameAt histoMinDCAxyNames3Prong o t) ix (i + 1)
          = reg.count (nameAt histoMinDCAxyNames3Prong o t) ix (i + 1)
            + if (cut < |t0.dcaPrim0| ∧ cut < |t1.dcaPrim0| ∧ cut < |t2.dcaPrim0|)
                ∧ cfg.ptAxis.findBin c.pt = ix then 1 else 0)
      ∧ (i < cfg.minTrackPtCutsToTest.length → minTrackPtCuts.get? i = some cut →
        reg'.count (nameAt histoMinTrackPtNames3Prong o t) ix (i + 1)
          = reg.count (nameAt histoMinTrackPtNames3Prong o t) ix (i + 1)
            + if (cut < t0.pt ∧ cut < t1.pt ∧ cut < t2.pt) ∧ cfg.ptAxis.findBin c.pt = ix
              then 1 else 0)) := by
  constructor
  · intro c t0 t1 ht hrun
    have ht3 : t < 3 := by unfold n2Prong N2ProngDecays at ht; omega
    have key := fun k (hk : k < 6) => scan2_count cfg reg reg' t o c [t0, t1] hrun hwb ho ht3
      k o t ix i (by omega) ho (by simpa [tableCols, hk] using ht3)
    refine ⟨sortedAbsDCA_two _ _, sortedPt_two _ _, fun hi hg => ?_, fun hi hg => ?_⟩
    · have h := key 4 (by decide)
      have hp : pass2Prong 4 c [t0, t1] i
          = decide (cut < |t0.dcaPrim0| ∧ cut < |t1.dcaPrim0|) := by
        simp only [pass2Prong, passAt_of_get hg, List.getD_cons_zero, List.getD_cons_succ,
          sortedAbsDCA_two, gt_iff_lt, lt_min_iff]
      rw [hp] at h
      rw [show nameAt histoMinDCAxyNames2Prong o t = tableName 4 o t from rfl, h]
      simp [tableLen, hi]
    · have h := key 5 (by decide)
      have hp : pass2Prong 5 c [t0, t1] i = decide (cut < t0.pt ∧ cut < t1.pt) := by
        simp only [pass2Prong, passAt_of_get hg, List.getD_cons_zero, List.getD_cons_succ,
          sortedPt_two, gt_iff_lt, lt_min_iff]
      rw [hp] at h
      rw [show nameAt histoMinTrackPtNames2Prong o t = tableName 5 o t from rfl, h]
      simp [tableLen, hi]
  · intro c t0 t1 t2 ht hrun
    have ht5 : t < 5 := by unfold n3Prong N3ProngDecays at ht; omega
    have key := fun k (hk6 : 6 ≤ k) (hk : k < 11) =>
      scan3_count cfg reg reg' t o c [t0, t1, t2] hrun hwb ho ht5 k o t ix i hk ho
        (by have : ¬ k < 6 := by omega
            simpa [tableCols, this] using ht5)
    refine ⟨sortedAbsDCA_three _ _ _, sortedPt_three _ _ _, fun hi hg => ?_, fun hi hg => ?_⟩
    · have h := key 9 (by decide) (by decide)
      have hp : pass3Prong 9 c [t0, t1, t2] i
          = decide (cut < |t0.dcaPrim0| ∧ cut < |t1.dcaPrim0| ∧ cut < |t2.dcaPrim0|) := by
        simp only [pass3Prong, passAt_of_get hg, List.getD_cons_zero, List.getD_cons_succ,
          sortedAbsDCA_three, gt_iff_lt, lt_min_iff]
      rw [hp] at h
      rw [show nameAt histoMinDCAxyNames3Prong o t = tableName 9 o t from rfl, h]
      simp [tableLen, hi]
    · have h := key 10 (by decide) (by decide)
      have hp : pass3Prong 10 c [t0, t1, t2] i
          = decide (cut < t0.pt ∧ cut < t1.pt ∧ cut < t2.pt) := by
        simp only [pass3Prong, passAt_of_get hg, List.getD_cons_zero, List.getD_cons_succ,
          sortedPt_three, gt_iff_lt, lt_min_iff]
      rw [hp] at h
      rw [show nameAt histoMinTrackPtNames3Prong o t = tableName 10 o t from rfl, h]
      simp [tableLen, hi]

/-! ## Order independence and merging -/

theorem addHits_perm (reg : Registry) {ops ops' : List Op} (h : ops.Perm ops') :
    reg.addHits ops = reg.addHits ops' := by
  funext name
  unfold Registry.addHits
  cases reg name with
  | none => rfl
  | some k =>
    simp only [Option.map_some', Option.some.injEq]
    apply Histo.ext_fields
    · rfl
    · rfl
    · intro ix iy
      simp only [Histo.addHits, h.countP_eq]

theorem all_valid_perm (reg : Registry) {ops ops' : List Op} (h : ops.Perm ops') :
    ops.all (fun op => op.valid reg) = ops'.all (fun op => op.valid reg) := by
  rw [Bool.eq_iff_iff, List.all_eq_true, List.all_eq_true]
  exact ⟨fun hall op hop => hall op (h.mem_iff.mpr hop),
    fun hall op hop => hall op (h.mem_iff.mp hop)⟩

/-- A sequence of operations and a permutation of it have the same outcome. -/
theorem applyAll_perm (reg : Registry) {ops ops' : List Op} (h : ops.Perm ops') :
    reg.applyAll ops = reg.applyAll ops' := by
  rw [Registry.applyAll_eq, Registry.applyAll_eq, all_valid_perm reg h, addHits_perm reg h]

theorem streamOps_perm (cfg : Config) {c2s c2s' : List Cand2Prong} {c3s c3s' : List Cand3Prong}
    (h2 : c2s.Perm c2s') (h3 : c3s.Perm c3s') :
    (streamOps cfg c2s c3s).Perm (streamOps cfg c2s' c3s') := by
  unfold streamOps
  exact List.Perm.append (List.Perm.flatMap_right _ h2) (List.Perm.flatMap_right _ h3)

theorem streamOps_append_perm (cfg : Config) (a2 b2 : List Cand2Prong)
    (a3 b3 : List Cand3Prong) :
    (streamOps cfg (a2 ++ b2) (a3 ++ b3)).Perm (streamOps cfg a2 a3 ++ streamOps cfg b2 b3) := by
  unfold streamOps
  rw [List.flatMap_append, List.flatMap_append, List.append_assoc, List.append_assoc]
  apply List.Perm.append_left
  rw [← List.append_assoc, ← List.append_assoc]
  exact List.Perm.append_right _ List.perm_append_comm

theorem addHits_append_of_zeroed (reg : Registry) (hz : reg.Zeroed) (l₁ l₂ : List Op) :
    reg.addHits (l₁ ++ l₂) = (reg.addHits l₁).merge (reg.addHits l₂) := by
  funext name
  unfold Registry.merge Registry.addHits
  cases hreg : reg name with
  | none => rfl
  | some h =>
    simp only [Option.map_some', Option.some.injEq]
    apply Histo.ext_fields
    · rfl
    · rfl
    · intro ix iy
      simp only [Histo.merge, Histo.addHits, List.countP_append, hz name h hreg ix iy]
      omega

theorem applyAll_append_of_zeroed (reg : Registry) (hz : reg.Zeroed) (l₁ l₂ : List Op) :
    reg.applyAll (l₁ ++ l₂) = mergeRuns (reg.applyAll l₁) (reg.applyAll l₂) := by
  simp only [Registry.applyAll_eq, List.all_append, mergeRuns]
  by_cases h1 : l₁.all (fun op => op.valid reg) = true
  · by_cases h2 : l₂.all (fun op => op.valid reg) = true
    · simp [h1, h2, addHits_append_of_zeroed reg hz]
    · simp [h1, h2]
  · simp [h1]

theorem merge_assoc (x y z : Registry) : (x.merge y).merge z = x.merge (y.merge z) := by
  funext name
  unfold Registry.merge
  cases x name <;> cases y name <;> cases z name <;> simp [Histo.merge, Nat.add_assoc]

/-- C8: `process` run on a candidate stream and on any permutation of it (of
the 2-prong candidates and of the 3-prong candidates), from the same initial
store, has the same outcome: the same final store, with every histogram and
every bin equal, or a failure in both cases. -/
theorem process_order_independent (cfg : Config) (reg : Registry)
    (c2s c2s' : List Cand2Prong) (c3s c3s' : List Cand3Prong) (h2 : c2s.Perm c2s')
    (h3 : c3s.Perm c3s') :
    process cfg reg c2s c3s = process cfg reg c2s' c3s' := by
  rw [process_eq, process_eq]
  exact applyAll_perm reg (streamOps_perm cfg h2 h3)

/-- C9: from a store whose histograms are all empty, processing the
concatenation of two candidate streams gives the element-wise sum (`merge`) of
the stores obtained by processing the two streams separately; the merged result
is the same whichever partition comes first, and merging is associative. -/
theorem process_concat_eq_merge (cfg : Config) (reg : Registry) (hz : reg.Zeroed)
    (a2 b2 : List Cand2Prong) (a3 b3 : List Cand3Prong) :
    process cfg reg (a2 ++ b2) (a3 ++ b3)
        = mergeRuns (process cfg reg a2 a3) (process cfg reg b2 b3)
    ∧ mergeRuns (process cfg reg a2 a3) (process cfg reg b2 b3)
        = mergeRuns (process cfg reg b2 b3) (process cfg reg a2 a3)
    ∧ ∀ x y z : Registry, (x.merge y).merge z = x.merge (y.merge z) := by
  have split : ∀ (a2 b2 : List Cand2Prong) (a3 b3 : List Cand3Prong),
      process cfg reg (a2 ++ b2) (a3 ++ b3)
        = mergeRuns (process cfg reg a2 a3) (process cfg reg b2 b3) := by
    intro a2 b2 a3 b3
    rw [process_eq, process_eq, process_eq,
      applyAll_perm reg (streamOps_append_perm cfg a2 b2 a3 b3),
      applyAll_append_of_zeroed reg hz]
  refine ⟨split a2 b2 a3 b3, ?_, merge_assoc⟩
  rw [← split a2 b2 a3 b3, ← split b2 a2 b3 a3]
  rw [process_eq, process_eq]
  apply applyAll_perm
  exact streamOps_perm cfg List.perm_append_comm List.perm_append_comm

/-! ## Monotonicity of the pass counts -/

/-- The content, summed over pT, of the cells of threshold index `i + 1` of a
histogram after a run: one more per candidate scanned under the key of the
histogram that passes the `i`-th threshold of its dimension. -/
theorem stream_total (cfg : Config) (reg reg' : Registry) (c2s : List Cand2Prong)
    (c3s : List Cand3Prong) (hrun : process cfg reg c2s c3s = some reg')
    (hwb : reg.WellBooked cfg) (k o t i : Nat) (hk : k < 11) (ho : o < 3)
    (ht : t < tableCols k) :
    reg'.sumOverPt (tableName k o t) (i + 1)
      = reg.sumOverPt (tableName k o t) (i + 1)
        + c2s.countP (fun c => decide ((t, o) ∈ candScans2Prong c ∧ i < tableLen cfg k
            ∧ pass2Prong k c [c.index0, c.index1] i = true))
        + c3s.countP (fun c => decide ((t, o) ∈ candScans3Prong c ∧ i < tableLen cfg k
            ∧ pass3Prong k c [c.index0, c.index1, c.index2] i = true)) := by
  rw [process_eq] at hrun
  rw [sumOverPt_eq cfg reg' (wellBooked_applyAll cfg reg reg' _ hrun hwb) k o t _ hk ho ht,
    sumOverPt_eq cfg reg hwb k o t _ hk ho ht]
  simp only [count_applyAll cfg reg reg' _ hrun hwb k o t _ _ hk ho ht,
    stream_hits cfg k o t _ i c2s c3s hk ho ht, sum_map_add, ← and_assoc]
  rw [sum_countP_findBin cfg.ptAxis c2s
      (fun c => ((t, o) ∈ candScans2Prong c ∧ i < tableLen cfg k)
        ∧ pass2Prong k c [c.index0, c.index1] i = true) (fun c => c.pt),
    sum_countP_findBin cfg.ptAxis c3s
      (fun c => ((t, o) ∈ candScans3Prong c ∧ i < tableLen cfg k)
        ∧ pass3Prong k c [c.index0, c.index1, c.index2] i = true) (fun c => c.pt)]
  omega

theorem sumOverPt_of_zeroed {reg : Registry} (hz : reg.Zeroed) (name : String) (iy : Nat) :
    reg.sumOverPt name iy = 0 := by
  unfold Registry.sumOverPt
  cases hreg : reg name with
  | none => rfl
  | some h =>
    apply List.sum_eq_zero
    intro x hx
    simp only [List.mem_map] at hx
    obtain ⟨ix, _, rfl⟩ := hx
    exact hz name h hreg ix iy

theorem chain_get_le (l : List ℚ) (hl : l.Chain' (· ≤ ·)) (i : Nat) (a b : ℚ)
    (ha : l.get? i = some a) (hb : l.get? (i + 1) = some b) : a ≤ b := by
  induction l generalizing i with
  | nil => simp at ha
  | cons x l ih =>
    cases l with
    | nil => simp at hb
    | cons y l =>
      rw [List.chain'_cons] at hl
      cases i with
      | zero =>
        simp only [List.get?_cons_zero, List.get?_cons_succ, Option.some.injEq] at ha hb
        rw [← ha, ← hb]
        exact hl.1
      | succ i =>
        simp only [List.get?_cons_succ] at ha hb
        exact ih hl.2 i ha (by simpa using hb)

theorem passAt_gt_mono (cuts : List ℚ) (hl : cuts.Chain' (· ≤ ·)) (x : ℚ) (i : Nat)
    (h : passAt cuts (fun cut => decide (x > cut)) (i + 1) = true) :
    passAt cuts (fun cut => decide (x > cut)) i = true := by
  unfold passAt at h ⊢
  cases hb : cuts.get? (i + 1) with
  | none => rw [hb] at h; cases h
  | some b =>
    rw [hb] at h
    simp only [decide_eq_true_eq] at h
    have hlen : i < cuts.length := by
      have := List.get?_eq_some.mp hb
      obtain ⟨hlt, _⟩ := this
      omega
    have ha : cuts.get? i = some (cuts.get ⟨i, hlen⟩) := List.get?_eq_get hlen
    have hab := chain_get_le cuts hl i _ b ha hb
    rw [ha]
    simp only [decide_eq_true_eq]
    exact lt_of_le_of_lt hab h

theorem passAt_lt_mono (cuts : List ℚ) (hl : cuts.Chain' (· ≤ ·)) (x : ℚ) (i : Nat)
    (hi : i + 1 < cuts.length)
    (h : passAt cuts (fun cut => decide (x < cut)) i = true) :
    passAt cuts (fun cut => decide (x < cut)) (i + 1) = true := by
  unfold passAt at h ⊢
  have hb : cuts.get? (i + 1) = some (cuts.get ⟨i + 1, hi⟩) := List.get?_eq_get hi
  cases ha : cuts.get? i with
  | none => rw [ha] at h; cases h
  | some a =>
    rw [ha] at h
    simp only [decide_eq_true_eq] at h
    have hab := chain_get_le cuts hl i a _ ha hb
    rw [hb]
    simp only [decide_eq_true_eq]
    exact lt_of_lt_of_le h hab

theorem cospCuts_chain : cospCuts.Chain' (· ≤ ·) := by
  unfold cospCuts
  simp only [List.chain'_cons, List.chain'_singleton, and_true]
  norm_num

theorem decLenCuts_chain : decLenCuts.Chain' (· ≤ ·) := by
  unfold decLenCuts
  simp only [List.chain'_cons, List.chain'_singleton, and_true]
  norm_num

theorem impParProdCuts_chain : impParProdCuts.Chain' (· ≤ ·) := by
  unfold impParProdCuts
  simp only [List.chain'_cons, List.chain'_singleton, and_true]
  norm_num

theorem minDCAxyCuts_chain : minDCAxyCuts.Chain' (· ≤ ·) := by
  unfold minDCAxyCuts
  simp only [List.chain'_cons, List.chain'_singleton, and_true]
  norm_num

theorem minTrackPtCuts_chain : minTrackPtCuts.Chain' (· ≤ ·) := by
  unfold minTrackPtCuts
  simp only [List.chain'_cons, List.chain'_singleton, and_true]
  norm_num

theorem pass2Prong_mono (k : Nat) (hk : k ≠ 3) (c : Cand2Prong) (tr : List Track) (i : Nat)
    (h : pass2Prong k c tr (i + 1) = true) : pass2Prong k c tr i = true := by
  unfold pass2Prong at h ⊢
  split at h
  · exact passAt_gt_mono _ cospCuts_chain _ _ h
  · exact passAt_gt_mono _ decLenCuts_chain _ _ h
  · exact absurd rfl hk
  · exact passAt_gt_mono _ minDCAxyCuts_chain _ _ h
  · exact passAt_gt_mono _ minTrackPtCuts_chain _ _ h
  · cases h

theorem pass3Prong_mono (k : Nat) (c : Cand3Prong) (tr : List Track) (i : Nat)
    (h : pass3Prong k c tr (i + 1) = true) : pass3Prong k c tr i = true := by
  unfold pass3Prong at h ⊢
  split at h
  · exact passAt_gt_mono _ cospCuts_chain _ _ h
  · exact passAt_gt_mono _ decLenCuts_chain _ _ h
  · exact passAt_gt_mono _ minDCAxyCuts_chain _ _ h
  · exact passAt_gt_mono _ minTrackPtCuts_chain _ _ h
  · cases h

theorem outOfBounds_mem_cutOps (n : Nat) (cuts : List ℚ) (pass : ℚ → Bool) (name : String)
    (pT : ℚ) (h : cuts.length < n) : Op.outOfBounds ∈ cutOps n cuts pass name pT := by
  unfold cutOps
  simp only [List.mem_flatMap, List.mem_range]
  refine ⟨cuts.length, h, ?_⟩
  unfold cutOps1
  rw [List.get?_eq_none.mpr (Nat.le_refl _)]
  exact List.mem_singleton.mpr rfl

/-- A run in which a 2-prong candidate is scanned can only succeed when the
impact-parameter-product grid is not longer than the constant array. -/
theorem impParProd_inBounds_of_run (cfg : Config) (reg reg' : Registry)
    (c2s : List Cand2Prong) (c3s : List Cand3Prong)
    (hrun : process cfg reg c2s c3s = some reg') (c : Cand2Prong) (hc : c ∈ c2s)
    (s : Nat × Nat) (hs : s ∈ candScans2Prong c) :
    cfg.impParProdCutsToTest.length ≤ impParProdCuts.length := by
  by_contra hlt
  have hlt' : impParProdCuts.length < cfg.impParProdCutsToTest.length := Nat.lt_of_not_le hlt
  have hmem : Op.outOfBounds ∈ streamOps cfg c2s c3s := by
    apply mem_streamOps2 hc hs
    unfold scanOps2Prong
    simp only [List.mem_append]
    exact Or.inl (Or.inl (Or.inr (outOfBounds_mem_cutOps _ _ _ _ _ hlt')))
  rw [process_eq_none_of_invalid _ hmem rfl] at hrun
  cases hrun

/-- For a dimension compared with `>`, the pass count summed over pT does not
increase with the threshold index. -/
theorem total_antitone (cfg : Config) (reg reg' : Registry) (c2s : List Cand2Prong)
    (c3s : List Cand3Prong) (hrun : process cfg reg c2s c3s = some reg')
    (hwb : reg.WellBooked cfg) (hz : reg.Zeroed) (k o t i : Nat) (hk : k < 11) (hk3 : k ≠ 3)
    (ho : o < 3) (ht : t < tableCols k) :
    reg'.sumOverPt (tableName k o t) (i + 2) ≤ reg'.sumOverPt (tableName k o t) (i + 1) := by
  rw [stream_total cfg reg reg' c2s c3s hrun hwb k o t (i + 1) hk ho ht,
    stream_total cfg reg reg' c2s c3s hrun hwb k o t i hk ho ht,
    sumOverPt_of_zeroed hz, sumOverPt_of_zeroed hz]
  have h2 : c2s.countP (fun c => decide ((t, o) ∈ candScans2Prong c ∧ i + 1 < tableLen cfg k
        ∧ pass2Prong k c [c.index0, c.index1] (i + 1) = true))
      ≤ c2s.countP (fun c => decide ((t, o) ∈ candScans2Prong c ∧ i < tableLen cfg k
        ∧ pass2Prong k c [c.index0, c.index1] i = true)) := by
    apply List.countP_mono_left
    intro c _ hp
    simp only [decide_eq_true_eq] at hp ⊢
    exact ⟨hp.1, by omega, pass2Prong_mono k hk3 c _ i hp.2.2⟩
  have h3 : c3s.countP (fun c => decide ((t, o) ∈ candScans3Prong c ∧ i + 1 < tableLen cfg k
        ∧ pass3Prong k c [c.index0, c.index1, c.index2] (i + 1) = true))
      ≤ c3s.countP (fun c => decide ((t, o) ∈ candScans3Prong c ∧ i < tableLen cfg k
        ∧ pass3Prong k c [c.index0, c.index1, c.index2] i = true)) := by
    apply List.countP_mono_left
    intro c _ hp
    simp only [decide_eq_true_eq] at hp ⊢
    exact ⟨hp.1, by omega, pass3Prong_mono k c _ i hp.2.2⟩
  omega

/-- For the impact-parameter product, compared with `<`, the pass count summed
over pT does not decrease with the threshold index. -/
theorem total_monotone_impParProd (cfg : Config) (reg reg' : Registry)
    (c2s : List Cand2Prong) (c3s : List Cand3Prong)
    (hrun : process cfg reg c2s c3s = some reg') (hwb : reg.WellBooked cfg) (hz : reg.Zeroed)
    (o t i : Nat) (ho : o < 3) (ht : t < 3) (hi : i + 1 < cfg.impParProdCutsToTest.length) :
    reg'.sumOverPt (tableName 3 o t) (i + 1) ≤ reg'.sumOverPt (tableName 3 o t) (i + 2) := by
  rw [stream_total cfg reg reg' c2s c3s hrun hwb 3 o t (i + 1) (by decide) ho ht,
    stream_total cfg reg reg' c2s c3s hrun hwb 3 o t i (by decide) ho ht,
    sumOverPt_of_zeroed hz, sumOverPt_of_zeroed hz]
  have h2 : c2s.countP (fun c => decide ((t, o) ∈ candScans2Prong c ∧ i < tableLen cfg 3
        ∧ pass2Prong 3 c [c.index0, c.index1] i = true))
      ≤ c2s.countP (fun c => decide ((t, o) ∈ candScans2Prong c ∧ i + 1 < tableLen cfg 3
        ∧ pass2Prong 3 c [c.index0, c.index1] (i + 1) = true)) := by
    apply List.countP_mono_left
    intro c hc hp
    simp only [decide_eq_true_eq] at hp ⊢
    have hb := impParProd_inBounds_of_run cfg reg reg' c2s c3s hrun c hc (t, o) hp.1
    refine ⟨hp.1, hi, ?_⟩
    exact passAt_lt_mono _ impParProdCuts_chain _ i (by omega) hp.2.2
  have h3 : c3s.countP (fun c => decide ((t, o) ∈ candScans3Prong c ∧ i < tableLen cfg 3
        ∧ pass3Prong 3 c [c.index0, c.index1, c.index2] i = true))
      ≤ c3s.countP (fun c => decide ((t, o) ∈ candScans3Prong c ∧ i + 1 < tableLen cfg 3
        ∧ pass3Prong 3 c [c.index0, c.index1, c.index2] (i + 1) = true)) := by
    apply List.countP_mono_left
    intro c _ hp
    simp only [decide_eq_true_eq] at hp
    exact absurd hp.2.2 (by simp [pass3Prong])
  omega

/-- When a run of `process` completes from an empty store booked with the axes
of `init`, for every key, the pass count summed over pT of each dimension compared
with `>` (pointing cosine, decay length, min track DCA, min track pT; 2-prong
and 3-prong) is non-increasing in the threshold index, and the pass count of
the impact-parameter product, compared with `<`, is non-decreasing in the
threshold index over the indices of the configured grid. The scans compare
against the constant threshold arrays, which are ascending, so this holds for
every configured grid, in particular for every monotonically increasing one. -/
theorem pass_count_monotone (cfg : Config) (reg reg' : Registry) (c2s : List Cand2Prong)
    (c3s : List Cand3Prong) (hrun : process cfg reg c2s c3s = some reg')
    (hwb : reg.WellBooked cfg) (hz : reg.Zeroed) (o t i : Nat) (ho : o < 3) :
    (t ≤ n2Prong →
      reg'.sumOverPt (nameAt histoCospNames2Prong o t) (i + 2)
          ≤ reg'.sumOverPt (nameAt histoCospNames2Prong o t) (i + 1)
      ∧ reg'.sumOverPt (nameAt histoDecLenNames2Prong o t) (i + 2)
          ≤ reg'.sumOverPt (nameAt histoDecLenNames2Prong o t) (i + 1)
      ∧ (i + 1 < cfg.impParProdCutsToTest.length →
        reg'.sumOverPt (nameAt histoImpParProdNames2Prong o t) (i + 1)
          ≤ reg'.sumOverPt (nameAt histoImpParProdNames2Prong o t) (i + 2))
      ∧ reg'.sumOverPt (nameAt histoMinDCAxyNames2Prong o t) (i + 2)
          ≤ reg'.sumOverPt (nameAt histoMinDCAxyNames2Prong o t) (i + 1)
      ∧ reg'.sumOverPt (nameAt histoMinTrackPtNames2Prong o t) (i + 2)
          ≤ reg'.sumOverPt (nameAt histoMinTrackPtNames2Prong o t) (i + 1))
    ∧ (t ≤ n3Prong →
      reg'.sumOverPt (nameAt histoCospNames3Prong o t) (i + 2)
          ≤ reg'.sumOverPt (nameAt histoCospNames3Prong o t) (i + 1)
      ∧ reg'.sumOverPt (nameAt histoDecLenNames3Prong o t) (i + 2)
          ≤ reg'.sumOverPt (nameAt histoDecLenNames3Prong o t) (i + 1)
      ∧ reg'.sumOverPt (nameAt histoMinDCAxyNames3Prong o t) (i + 2)
          ≤ reg'.sumOverPt (nameAt histoMinDCAxyNames3Prong o t) (i + 1)
      ∧ reg'.sumOverPt (nameAt histoMinTrackPtNames3Prong o t) (i + 2)
          ≤ reg'.sumOverPt (nameAt histoMinTrackPtNames3Prong o t) (i + 1)) := by
  constructor
  · intro ht
    have ht3 : t < 3 := by unfold n2Prong N2ProngDecays at ht; omega
    have key := fun k (hk : k < 6) (hk3 : k ≠ 3) =>
      total_antitone cfg reg reg' c2s c3s hrun hwb hz k o t i (by omega) hk3 ho
        (by simpa [tableCols, hk] using ht3)
    exact ⟨key 1 (by decide) (by decide), key 2 (by decide) (by decide),
      fun hi => total_monotone_impParProd cfg reg reg' c2s c3s hrun hwb hz o t i ho ht3 hi,
      key 4 (by decide) (by decide), key 5 (by decide) (by decide)⟩
  · intro ht
    have ht5 : t < 5 := by unfold n3Prong N3ProngDecays at ht; omega
    have key := fun k (hk6 : 6 ≤ k) (hk : k < 11) =>
      total_antitone cfg reg reg' c2s c3s hrun hwb hz k o t i hk (by omega) ho
        (by have : ¬ k < 6 := by omega
            simpa [tableCols, this] using ht5)
    exact ⟨key 7 (by decide) (by decide), key 8 (by decide) (by decide),
      key 9 (by decide) (by decide), key 10 (by decide) (by decide)⟩

/-! ## Instances on the sample inputs -/

/-- Instance of C2: the sample candidates are Prompt for channel 0 and
Background for channel 1, and get the Prompt summary scan only. -/
theorem summary_scan_by_priority_witness :
    (Classification.Prompt ∈ specClasses 2 sampleCand2Prong.hfflag
        sampleCand2Prong.flagMCMatchRec sampleCand2Prong.originMCRec
      ∧ Classification.Background ∈ specClasses 2 sampleCand2Prong.hfflag
        sampleCand2Prong.flagMCMatchRec sampleCand2Prong.originMCRec
      ∧ processCand2Prong defaultConfig (bookAll defaultConfig) sampleCand2Prong
        = ((decayLoop2Prong defaultConfig sampleCand2Prong
              [sampleCand2Prong.index0, sampleCand2Prong.index1]
              (bookAll defaultConfig)).map Prod.snd).bind (fun r =>
            testSelections2Prong defaultConfig N2ProngDecays 0 sampleCand2Prong
              [sampleCand2Prong.index0, sampleCand2Prong.index1] r))
    ∧ (Classification.Prompt ∈ specClasses 4 sampleCand3Prong.hfflag
        sampleCand3Prong.flagMCMatchRec sampleCand3Prong.originMCRec
      ∧ Classification.Background ∈ specClasses 4 sampleCand3Prong.hfflag
        sampleCand3Prong.flagMCMatchRec sampleCand3Prong.originMCRec
      ∧ processCand3Prong defaultConfig (bookAll defaultConfig) sampleCand3Prong
        = ((decayLoop3Prong defaultConfig sampleCand3Prong
              [sampleCand3Prong.index0, sampleCand3Prong.index1, sampleCand3Prong.index2]
              (bookAll defaultConfig)).map Prod.snd).bind (fun r =>
            testSelections3Prong defaultConfig N3ProngDecays 0 sampleCand3Prong
              [sampleCand3Prong.index0, sampleCand3Prong.index1, sampleCand3Prong.index2] r)) :=
  ⟨⟨by decide, by decide,
      (summary_scan_by_priority defaultConfig).2.2.1 sampleCand2Prong (bookAll defaultConfig)
        (by decide) (by decide)⟩,
    ⟨by decide, by decide,
      (summary_scan_by_priority defaultConfig).2.2.2 sampleCand3Prong (bookAll defaultConfig)
        (by decide) (by decide)⟩⟩

/-- The yields after `process` on the two sample candidates, from the
store with every histogram booked, the Prompt channel-0 2-prong yield totals 1,
the Prompt 3-prong summary yield totals 1 and the NonPrompt channel-0 yield
totals 0. -/
theorem yield_counter_counts_classified_witness :
    ∃ reg', process defaultConfig (bookAll defaultConfig) [sampleCand2Prong] [sampleCand3Prong]
        = some reg'
      ∧ (bookAll defaultConfig).WellBooked defaultConfig
      ∧ reg'.sumOverPt (nameAt histoNames2Prong 0 0) 0 = 1
      ∧ reg'.sumOverPt (nameAt histoNames3Prong 0 n3Prong) 0 = 1
      ∧ reg'.sumOverPt (nameAt histoNames2Prong 1 0) 0 = 0 := by
  obtain ⟨reg', hrun⟩ := process_succeeds defaultConfig (bookAll defaultConfig)
    [sampleCand2Prong] [sampleCand3Prong] (bookAll_complete _) defaultConfig_inBounds
  have h0 := yield_counter_counts_classified defaultConfig _ reg' _ _ hrun
    (bookAll_wellBooked _) 0 (by decide)
  have h1 := yield_counter_counts_classified defaultConfig _ reg' _ _ hrun
    (bookAll_wellBooked _) 1 (by decide)
  refine ⟨reg', hrun, bookAll_wellBooked _, ?_, ?_, ?_⟩
  · rw [h0.1 0 (by decide), sumOverPt_of_zeroed (bookAll_zeroed _)]
    decide
  · rw [h0.2.2.2, sumOverPt_of_zeroed (bookAll_zeroed _)]
    decide
  · rw [h1.1 0 (by decide), sumOverPt_of_zeroed (bookAll_zeroed _)]
    decide

/-- The pass counts after `process` on the sample candidates, from the store
with every histogram booked: the Prompt channel-0 cosine pass count of
threshold index 11 is at most that of index 10, and the Background channel-1
impact-parameter-product pass count of index 4 is at most that of index 5. -/
theorem pass_count_monotone_witness :
    ∃ reg', process defaultConfig (bookAll defaultConfig) [sampleCand2Prong] [sampleCand3Prong]
        = some reg'
      ∧ (bookAll defaultConfig).WellBooked defaultConfig ∧ (bookAll defaultConfig).Zeroed
      ∧ reg'.sumOverPt (nameAt histoCospNames2Prong 0 0) 11
          ≤ reg'.sumOverPt (nameAt histoCospNames2Prong 0 0) 10
      ∧ reg'.sumOverPt (nameAt histoImpParProdNames2Prong 2 1) 4
          ≤ reg'.sumOverPt (nameAt histoImpParProdNames2Prong 2 1) 5
      ∧ reg'.sumOverPt (nameAt histoMinTrackPtNames3Prong 0 n3Prong) 3
          ≤ reg'.sumOverPt (nameAt histoMinTrackPtNames3Prong 0 n3Prong) 2 := by
  obtain ⟨reg', hrun⟩ := process_succeeds defaultConfig (bookAll defaultConfig)
    [sampleCand2Prong] [sampleCand3Prong] (bookAll_complete _) defaultConfig_inBounds
  exact ⟨reg', hrun, bookAll_wellBooked _, bookAll_zeroed _,
    ((pass_count_monotone defaultConfig _ reg' _ _ hrun (bookAll_wellBooked _)
      (bookAll_zeroed _) 0 0 9 (by decide)).1 (by decide)).1,
    ((pass_count_monotone defaultConfig _ reg' _ _ hrun (bookAll_wellBooked _)
      (bookAll_zeroed _) 2 1 3 (by decide)).1 (by decide)).2.2.1 (by decide),
    ((pass_count_monotone defaultConfig _ reg' _ _ hrun (bookAll_wellBooked _)
      (bookAll_zeroed _) 0 n3Prong 1 (by decide)).2 (by decide)).2.2.2⟩

/-- Instance of C8: the two orders of a stream of two 2-prong candidates give
the same outcome, and the run succeeds. -/
theorem process_order_independent_witness :
    [sampleCand2Prong, gridCand2Prong].Perm [gridCand2Prong, sampleCand2Prong]
    ∧ [sampleCand3Prong].Perm [sampleCand3Prong]
    ∧ process defaultConfig (bookAll defaultConfig) [sampleCand2Prong, gridCand2Prong]
        [sampleCand3Prong]
      = process defaultConfig (bookAll defaultConfig) [gridCand2Prong, sampleCand2Prong]
        [sampleCand3Prong]
    ∧ ∃ reg', process defaultConfig (bookAll defaultConfig) [sampleCand2Prong, gridCand2Prong]
        [sampleCand3Prong] = some reg' :=
  ⟨List.Perm.swap _ _ _, List.Perm.refl _,
    process_order_independent defaultConfig (bookAll defaultConfig) _ _ _ _
      (List.Perm.swap _ _ _) (List.Perm.refl _),
    process_succeeds defaultConfig (bookAll defaultConfig) _ _ (bookAll_complete _)
      defaultConfig_inBounds⟩

/-- Instance of C9: processing two streams separately from the empty booked
store and merging gives the store of the concatenated stream, whose run
succeeds. -/
theorem process_concat_eq_merge_witness :
    (bookAll defaultConfig).Zeroed
    ∧ process defaultConfig (bookAll defaultConfig) ([sampleCand2Prong] ++ [gridCand2Prong])
        ([] ++ [sampleCand3Prong])
      = mergeRuns (process defaultConfig (bookAll defaultConfig) [sampleCand2Prong] [])
          (process defaultConfig (bookAll defaultConfig) [gridCand2Prong] [sampleCand3Prong])
    ∧ ∃ reg', process defaultConfig (bookAll defaultConfig)
        ([sampleCand2Prong] ++ [gridCand2Prong]) ([] ++ [sampleCand3Prong]) = some reg' :=
  ⟨bookAll_zeroed _,
    (process_concat_eq_merge defaultConfig (bookAll defaultConfig) (bookAll_zeroed _)
      [sampleCand2Prong] [gridCand2Prong] [] [sampleCand3Prong]).1,
    process_succeeds defaultConfig (bookAll defaultConfig) _ _ (bookAll_complete _)
      defaultConfig_inBounds⟩

/-- Instance of C10: the tracks of the sample 2-prong candidate have absolute
DCA 0.002 and 0.004, both above the threshold 0.0015 of index 3, and its
Prompt channel-0 scan adds one entry to the cell (pT bin 2, index 4) of the
min-DCA histogram; its smallest track pT, 0.5, is not above the threshold 0.5
of index 4 and the cell (pT bin 2, index 5) of the min-pT histogram stays
empty. -/
theorem min_track_quantities_tested_witness :
    ∃ reg', testSelections2Prong defaultConfig 0 0 sampleCand2Prong
        [sampleCand2Prong.index0, sampleCand2Prong.index1] (bookAll defaultConfig) = some reg'
      ∧ (bookAll defaultConfig).WellBooked defaultConfig
      ∧ minDCAxyCuts.get? 3 = some 0.0015 ∧ minTrackPtCuts.get? 4 = some 0.50
      ∧ reg'.count (nameAt histoMinDCAxyNames2Prong 0 0) 2 4 = 1
      ∧ reg'.count (nameAt histoMinTrackPtNames2Prong 0 0) 2 5 = 0 := by
  obtain ⟨reg', hrun⟩ := testSelections2Prong_succeeds
    (complete_holds2 (bookAll_complete defaultConfig) 0 (by decide)) defaultConfig_inBounds 0
    sampleCand2Prong [sampleCand2Prong.index0, sampleCand2Prong.index1] (by decide)
  have hbin : defaultConfig.ptAxis.findBin sampleCand2Prong.pt = 2 := by
    simp [defaultConfig, sampleCand2Prong, AxisSpec.findBin, List.filter]
    norm_num
  have h4 := ((min_track_quantities_tested defaultConfig _ reg' (bookAll_wellBooked _) 0 0 2 3
    (by decide) 0.0015).1 sampleCand2Prong _ _ (by decide) hrun).2.2.1 (by decide) rfl
  have h5 := ((min_track_quantities_tested defaultConfig _ reg' (bookAll_wellBooked _) 0 0 2 4
    (by decide) 0.50).1 sampleCand2Prong _ _ (by decide) hrun).2.2.2 (by decide) rfl
  refine ⟨reg', hrun, bookAll_wellBooked _, rfl, rfl, ?_, ?_⟩
  · rw [h4, count_of_zeroed (bookAll_zeroed _), hbin]
    norm_num [sampleCand2Prong, abs_of_neg, abs_of_pos]
  · rw [h5, count_of_zeroed (bookAll_zeroed _), hbin]
    norm_num [sampleCand2Prong]

/-! ## The frame of a scan -/

theorem hits_name {h : Histo} {name : String} {ix iy : Nat} {op : Op}
    (hh : Op.hits h name ix iy op = true) : op.name = some name := by
  cases op with
  | outOfBounds => simp [Op.hits] at hh
  | fill1 n x => simp only [Op.hits, decide_eq_true_eq] at hh; simp [Op.name, hh.1]
  | fill2 n x y => simp only [Op.hits, decide_eq_true_eq] at hh; simp [Op.name, hh.1]

/-- A sequence of operations leaves the histograms it does not address as they
are. -/
theorem addHits_of_not_addressed (reg : Registry) (ops : List Op) (name : String)
    (hn : ∀ op ∈ ops, op.name ≠ some name) : (reg.addHits ops) name = reg name := by
  unfold Registry.addHits
  cases reg name with
  | none => rfl
  | some h =>
    simp only [Option.map_some', Option.some.injEq]
    apply Histo.ext_fields
    · rfl
    · rfl
    · intro ix iy
      have h0 : ops.countP (Op.hits h name ix iy) = 0 := by
        rw [List.countP_eq_zero]
        intro op hop hh
        exact hn op hop (hits_name hh)
      simp [Histo.addHits, h0]

theorem name_mem_cutOps {n : Nat} {cuts : List ℚ} {pass : ℚ → Bool} {name : String} {pT : ℚ}
    {op : Op} (hop : op ∈ cutOps n cuts pass name pT) :
    op.name = none ∨ op.name = some name := by
  unfold cutOps at hop
  simp only [List.mem_flatMap, List.mem_range] at hop
  obtain ⟨j, _, hop⟩ := hop
  unfold cutOps1 at hop
  split at hop
  · rw [List.mem_singleton] at hop; subst hop; exact Or.inl rfl
  · split at hop
    · rw [List.mem_singleton] at hop; subst hop; exact Or.inr rfl
    · simp at hop

/-- The operations of a 2-prong scan address the six histograms of its key. -/
theorem name_mem_scanOps2Prong {cfg : Config} {t o : Nat} {c : Cand2Prong} {tr : List Track}
    {op : Op} (hop : op ∈ scanOps2Prong cfg t o c tr) :
    op.name = none ∨ ∃ n ∈ names2Prong o t, op.name = some n := by
  unfold scanOps2Prong at hop
  simp only [List.mem_append, List.mem_singleton] at hop
  rcases hop with ((((hop | hop) | hop) | hop) | hop) | hop
  · subst hop
    exact Or.inr ⟨_, by simp [names2Prong], rfl⟩
  · exact (name_mem_cutOps hop).imp id (fun h => ⟨_, by simp [names2Prong], h⟩)
  · exact (name_mem_cutOps hop).imp id (fun h => ⟨_, by simp [names2Prong], h⟩)
  · exact (name_mem_cutOps hop).imp id (fun h => ⟨_, by simp [names2Prong], h⟩)
  · exact (name_mem_cutOps hop).imp id (fun h => ⟨_, by simp [names2Prong], h⟩)
  · exact (name_mem_cutOps hop).imp id (fun h => ⟨_, by simp [names2Prong], h⟩)

/-- The operations of a 3-prong scan address the five histograms of its key. -/
theorem name_mem_scanOps3Prong {cfg : Config} {t o : Nat} {c : Cand3Prong} {tr : List Track}
    {op : Op} (hop : op ∈ scanOps3Prong cfg t o c tr) :
    op.name = none ∨ ∃ n ∈ names3Prong o t, op.name = some n := by
  unfold scanOps3Prong at hop
  simp only [List.mem_append, List.mem_singleton] at hop
  rcases hop with (((hop | hop) | hop) | hop) | hop
  · subst hop
    exact Or.inr ⟨_, by simp [names3Prong], rfl⟩
  · exact (name_mem_cutOps hop).imp id (fun h => ⟨_, by simp [names3Prong], h⟩)
  · exact (name_mem_cutOps hop).imp id (fun h => ⟨_, by simp [names3Prong], h⟩)
  · exact (name_mem_cutOps hop).imp id (fun h => ⟨_, by simp [names3Prong], h⟩)
  · exact (name_mem_cutOps hop).imp id (fun h => ⟨_, by simp [names3Prong], h⟩)

/-- A successful 2-prong scan changes the store only under the six names of its
key. -/
theorem scan2_frame (cfg : Config) (reg reg' : Registry) (t o : Nat) (c : Cand2Prong)
    (tr : List Track) (hrun : testSelections2Prong cfg t o c tr reg = some reg')
    (name : String) (hn : name ∉ names2Prong o t) : reg' name = reg name := by
  rw [testSelections2Prong_eq] at hrun
  obtain ⟨_, rfl⟩ := applyAll_eq_some hrun
  apply addHits_of_not_addressed
  intro op hop he
  rcases name_mem_scanOps2Prong hop with h | ⟨n, hmem, h⟩
  · rw [h] at he; cases he
  · rw [h] at he
    cases he
    exact hn hmem

/-- A successful 3-prong scan changes the store only under the five names of
its key. -/
theorem scan3_frame (cfg : Config) (reg reg' : Registry) (t o : Nat) (c : Cand3Prong)
    (tr : List Track) (hrun : testSelections3Prong cfg t o c tr reg = some reg')
    (name : String) (hn : name ∉ names3Prong o t) : reg' name = reg name := by
  rw [testSelections3Prong_eq] at hrun
  obtain ⟨_, rfl⟩ := applyAll_eq_some hrun
  apply addHits_of_not_addressed
  intro op hop he
  rcases name_mem_scanOps3Prong hop with h | ⟨n, hmem, h⟩
  · rw [h] at he; cases he
  · rw [h] at he
    cases he
    exact hn hmem

/-- The names of a 3-prong key are the entries of the 3-prong tables. -/
theorem mem_names3Prong {o t : Nat} {name : String} (h : name ∈ names3Prong o t) :
    ∃ k, 6 ≤ k ∧ k < 11 ∧ name = tableName k o t := by
  simp only [names3Prong, List.mem_cons, List.mem_singleton, List.not_mem_nil, or_false] at h
  rcases h with rfl | rfl | rfl | rfl | rfl
  · exact ⟨6, by decide, by decide, rfl⟩
  · exact ⟨7, by decide, by decide, rfl⟩
  · exact ⟨8, by decide, by decide, rfl⟩
  · exact ⟨9, by decide, by decide, rfl⟩
  · exact ⟨10, by decide, by decide, rfl⟩

/-- The names of a 2-prong key are the entries of the 2-prong tables. -/
theorem mem_names2Prong {o t : Nat} {name : String} (h : name ∈ names2Prong o t) :
    ∃ k, k < 6 ∧ name = tableName k o t := by
  simp only [names2Prong, List.mem_cons, List.mem_singleton, List.not_mem_nil, or_false] at h
  rcases h with rfl | rfl | rfl | rfl | rfl | rfl
  · exact ⟨0, by decide, rfl⟩
  · exact ⟨1, by decide, rfl⟩
  · exact ⟨2, by decide, rfl⟩
  · exact ⟨3, by decide, rfl⟩
  · exact ⟨4, by decide, rfl⟩
  · exact ⟨5, by decide, rfl⟩

/-- An operation of a run belongs to a scan of one of the candidates. -/
theorem mem_streamOps_iff {cfg : Config} {c2s : List Cand2Prong} {c3s : List Cand3Prong}
    {op : Op} :
    op ∈ streamOps cfg c2s c3s ↔
      (∃ c ∈ c2s, ∃ s ∈ candScans2Prong c,
        op ∈ scanOps2Prong cfg s.1 s.2 c [c.index0, c.index1])
      ∨ (∃ c ∈ c3s, ∃ s ∈ candScans3Prong c,
        op ∈ scanOps3Prong cfg s.1 s.2 c [c.index0, c.index1, c.index2]) := by
  unfold streamOps candOps2Prong candOps3Prong
  simp only [List.mem_append, List.mem_flatMap]

/-- A successful run changes the store only under the names of the keys of the
scans it runs. -/
theorem process_frame (cfg : Config) (reg reg' : Registry) (c2s : List Cand2Prong)
    (c3s : List Cand3Prong) (hrun : process cfg reg c2s c3s = some reg') (name : String)
    (h2 : ∀ c ∈ c2s, ∀ s ∈ candScans2Prong c, name ∉ names2Prong s.2 s.1)
    (h3 : ∀ c ∈ c3s, ∀ s ∈ candScans3Prong c, name ∉ names3Prong s.2 s.1) :
    reg' name = reg name := by
  rw [process_eq] at hrun
  obtain ⟨_, rfl⟩ := applyAll_eq_some hrun
  apply addHits_of_not_addressed
  intro op hop he
  rcases mem_streamOps_iff.mp hop with ⟨c, hc, s, hs, hmem⟩ | ⟨c, hc, s, hs, hmem⟩
  · rcases name_mem_scanOps2Prong hmem with h | ⟨n, hn, h⟩
    · rw [h] at he; cases he
    · rw [h] at he
      cases he
      exact h2 c hc s hs hn
  · rcases name_mem_scanOps3Prong hmem with h | ⟨n, hn, h⟩
    · rw [h] at he; cases he
    · rw [h] at he
      cases he
      exact h3 c hc s hs hn

/-- An entry of a 2-prong table is none of the names of a 3-prong key. -/
theorem tableName2_not_mem_names3Prong {k o t o' t' : Nat} (hk : k < 6) (ho : o < 3)
    (ht : t < 3) (ho' : o' < 3) (ht' : t' < 5) : tableName k o t ∉ names3Prong o' t' := by
  intro hmem
  obtain ⟨k', hk6, hk11, he⟩ := mem_names3Prong hmem
  have hcols : t < tableCols k := by simpa [tableCols, hk] using ht
  have := (tableName_eq_iff3 (by omega : k < 11) hk6 hk11 ho ho' hcols ht').mp he.symm
  omega

/-- A successful 2-prong scan read the impact-parameter-product array within
its bounds. -/
theorem scan2_impParProd_inBounds {cfg : Config} {reg reg' : Registry} {t o : Nat}
    {c : Cand2Prong} {tr : List Track}
    (hrun : testSelections2Prong cfg t o c tr reg = some reg') :
    cfg.impParProdCutsToTest.length ≤ impParProdCuts.length := by
  by_contra hlt
  have hlt' : impParProdCuts.length < cfg.impParProdCutsToTest.length := Nat.lt_of_not_le hlt
  rw [testSelections2Prong_eq] at hrun
  obtain ⟨hall, _⟩ := applyAll_eq_some hrun
  have hmem : Op.outOfBounds ∈ scanOps2Prong cfg t o c tr := by
    unfold scanOps2Prong
    simp only [List.mem_append]
    exact Or.inl (Or.inl (Or.inr (outOfBounds_mem_cutOps _ _ _ _ _ hlt')))
  have := List.all_eq_true.mp hall _ hmem
  simp [Op.valid] at this

/-! ## The histograms `init` books -/

theorem add_apply_some {reg : Registry} {n name : String} {ty : HistType}
    {ax : List AxisSpec} {h : Histo} (hs : (reg.add n ty ax) name = some h) :
    name = n ∨ reg name = some h := by
  unfold Registry.add Registry.put at hs
  split_ifs at hs with he
  · exact Or.inl he
  · exact Or.inr hs

/-- The booking of a 2-prong key books under the six names of the key. -/
theorem init2Prong_apply_some {cfg : Config} {o i : Nat} {reg : Registry} {name : String}
    {h : Histo} (hs : init2Prong cfg o reg i name = some h) :
    name ∈ names2Prong o i ∨ reg name = some h := by
  unfold init2Prong at hs
  rcases add_apply_some hs with e | hs
  · exact Or.inl (by simp [names2Prong, e])
  rcases add_apply_some hs with e | hs
  · exact Or.inl (by simp [names2Prong, e])
  rcases add_apply_some hs with e | hs
  · exact Or.inl (by simp [names2Prong, e])
  rcases add_apply_some hs with e | hs
  · exact Or.inl (by simp [names2Prong, e])
  rcases add_apply_some hs with e | hs
  · exact Or.inl (by simp [names2Prong, e])
  rcases add_apply_some hs with e | hs
  · exact Or.inl (by simp [names2Prong, e])
  exact Or.inr hs

/-- The booking of a 3-prong key books under the five names of the key. -/
theorem init3Prong_apply_some {cfg : Config} {o i : Nat} {reg : Registry} {name : String}
    {h : Histo} (hs : init3Prong cfg o reg i name = some h) :
    name ∈ names3Prong o i ∨ reg name = some h := by
  unfold init3Prong at hs
  rcases add_apply_some hs with e | hs
  · exact Or.inl (by simp [names3Prong, e])
  rcases add_apply_some hs with e | hs
  · exact Or.inl (by simp [names3Prong, e])
  rcases add_apply_some hs with e | hs
  · exact Or.inl (by simp [names3Prong, e])
  rcases add_apply_some hs with e | hs
  · exact Or.inl (by simp [names3Prong, e])
  rcases add_apply_some hs with e | hs
  · exact Or.inl (by simp [names3Prong, e])
  exact Or.inr hs

/-- The booking of a 3-prong key leaves every other name as it is. -/
theorem init3Prong_frame (cfg : Config) (o i : Nat) (reg : Registry) (name : String)
    (hn : name ∉ names3Prong o i) : init3Prong cfg o reg i name = reg name := by
  simp only [names3Prong, List.mem_cons, List.mem_singleton, List.not_mem_nil, or_false,
    not_or] at hn
  obtain ⟨h1, h2, h3, h4, h5⟩ := hn
  simp [init3Prong, Registry.add, Registry.put, h1, h2, h3, h4, h5]

theorem foldl_init_apply_some {f : Registry → Nat → Registry} (names : Nat → List String)
    (hf : ∀ reg i name h, f reg i name = some h → name ∈ names i ∨ reg name = some h)
    (n : Nat) (reg : Registry) (name : String) (h : Histo)
    (hs : (List.range n).foldl f reg name = some h) :
    (∃ i, i < n ∧ name ∈ names i) ∨ reg name = some h := by
  induction n with
  | zero => exact Or.inr hs
  | succ n ih =>
    rw [List.range_succ, List.foldl_append] at hs
    rcases hf _ _ _ _ hs with hmem | hs
    · exact Or.inl ⟨n, Nat.lt_succ_self n, hmem⟩
    · rcases ih hs with ⟨i, hi, hmem⟩ | hs
      · exact Or.inl ⟨i, Nat.lt_succ_of_lt hi, hmem⟩
      · exact Or.inr hs

/-- The store after `init` holds histograms under the names of the keys of the
2-prong channels and of the 3-prong channels only. -/
theorem init_apply_some (cfg : Config) (name : String) (h : Histo)
    (hs : init cfg name = some h) :
    ∃ o t, o < 3 ∧ ((t < n2Prong ∧ name ∈ names2Prong o t)
      ∨ (t < n3Prong ∧ name ∈ names3Prong o t)) := by
  unfold init initFrom at hs
  have key : ∀ (reg : Registry) (o : Nat) (name : String) (h : Histo),
      initOrig cfg reg o name = some h →
        name ∈ ((List.range n2Prong).flatMap (names2Prong o)
          ++ (List.range n3Prong).flatMap (names3Prong o)) ∨ reg name = some h := by
    intro reg o name h hs
    unfold initOrig at hs
    rcases foldl_init_apply_some (names3Prong o)
        (fun _ _ _ _ => init3Prong_apply_some) _ _ _ _ hs with ⟨i, hi, hmem⟩ | hs
    · exact Or.inl (List.mem_append.mpr (Or.inr (List.mem_flatMap.mpr
        ⟨i, List.mem_range.mpr hi, hmem⟩)))
    rcases foldl_init_apply_some (names2Prong o)
        (fun _ _ _ _ => init2Prong_apply_some) _ _ _ _ hs with ⟨i, hi, hmem⟩ | hs
    · exact Or.inl (List.mem_append.mpr (Or.inl (List.mem_flatMap.mpr
        ⟨i, List.mem_range.mpr hi, hmem⟩)))
    exact Or.inr hs
  rcases foldl_init_apply_some _ key 3 _ _ _ hs with ⟨o, ho, hmem⟩ | hs
  · refine ⟨o, ?_⟩
    rcases List.mem_append.mp hmem with hmem | hmem
    · obtain ⟨t, ht, hmem⟩ := List.mem_flatMap.mp hmem
      exact ⟨t, ho, Or.inl ⟨List.mem_range.mp ht, hmem⟩⟩
    · obtain ⟨t, ht, hmem⟩ := List.mem_flatMap.mp hmem
      exact ⟨t, ho, Or.inr ⟨List.mem_range.mp ht, hmem⟩⟩
  · cases hs

/-! ## The impact-parameter-product scan -/

/-- C11: the impact-parameter-product scan is run for 2-prong candidates only.
A successful 2-prong scan of key `(o, t)` reads, for every index `i` below the
size of the configured grid, a threshold `cut` of the constant array
`impParProdCuts` and adds one entry to the cell `(ix, i + 1)` of the
impact-parameter-product histogram of its key exactly when the candidate's
impact-parameter product is strictly less than `cut` (and `ix` is the pT bin of
the candidate). A successful 3-prong scan, and a successful run over 3-prong
candidates, leave every impact-parameter-product histogram as it is. The
booking of a 3-prong key in `init` touches only the five names of the key
(yield, pointing cosine, decay length, min track DCA, min track pT), and the
store after `init` holds histograms only under the six names of the 2-prong
channel keys and the five names of the 3-prong channel keys. -/
theorem impParProd_scan_two_prong_only (cfg : Config) :
    (∀ (reg reg' : Registry) (o t i ix : Nat) (c : Cand2Prong) (tr : List Track),
      reg.WellBooked cfg → o < 3 → t ≤ n2Prong → i < cfg.impParProdCutsToTest.length →
      testSelections2Prong cfg t o c tr reg = some reg' →
      ∃ cut, impParProdCuts.get? i = some cut
        ∧ reg'.count (nameAt histoImpParProdNames2Prong o t) ix (i + 1)
          = reg.count (nameAt histoImpParProdNames2Prong o t) ix (i + 1)
            + if c.impactParameterProduct < cut ∧ cfg.ptAxis.findBin c.pt = ix
              then 1 else 0)
    ∧ (∀ (reg reg' : Registry) (o t : Nat) (c : Cand3Prong) (tr : List Track),
      o < 3 → t ≤ n3Prong → testSelections3Prong cfg t o c tr reg = some reg' →
      ∀ o' t', o' < 3 → t' ≤ n2Prong →
        reg' (nameAt histoImpParProdNames2Prong o' t')
          = reg (nameAt histoImpParProdNames2Prong o' t'))
    ∧ (∀ (reg reg' : Registry) (c3s : List Cand3Prong),
      process cfg reg [] c3s = some reg' →
      ∀ o' t', o' < 3 → t' ≤ n2Prong →
        reg' (nameAt histoImpParProdNames2Prong o' t')
          = reg (nameAt histoImpParProdNames2Prong o' t'))
    ∧ (∀ (reg : Registry) (iOrig i3Prong : Nat) (name : String),
      name ∉ names3Prong iOrig i3Prong →
        init3Prong cfg iOrig reg i3Prong name = reg name)
    ∧ (∀ (name : String) (h : Histo), init cfg name = some h →
      ∃ o t, o < 3 ∧ ((t < n2Prong ∧ name ∈ names2Prong o t)
        ∨ (t < n3Prong ∧ name ∈ names3Prong o t))) := by
  have hn2 : n2Prong = 2 := rfl
  have hn3 : n3Prong = 4 := rfl
  refine ⟨?_, ?_, ?_, ?_, ?_⟩
  · intro reg reg' o t i ix c tr hwb ho ht hi hrun
    have hb := scan2_impParProd_inBounds hrun
    have hlt : i < impParProdCuts.length := Nat.lt_of_lt_of_le hi hb
    refine ⟨impParProdCuts.get ⟨i, hlt⟩, List.get?_eq_get hlt, ?_⟩
    have hcount := scan2_count cfg reg reg' t o c tr hrun hwb ho (by omega) 3 o t ix i
      (by decide) ho (by show t < 3; omega)
    have hpass : pass2Prong 3 c tr i
        = decide (c.impactParameterProduct < impParProdCuts.get ⟨i, hlt⟩) :=
      passAt_of_get (List.get?_eq_get hlt)
    have hlen : tableLen cfg 3 = cfg.impParProdCutsToTest.length := rfl
    rw [hpass, hlen] at hcount
    simpa [hi] using hcount
  · intro reg reg' o t c tr ho ht hrun o' t' ho' ht'
    exact scan3_frame cfg reg reg' t o c tr hrun _
      (tableName2_not_mem_names3Prong (k := 3) (by decide) ho' (by omega) ho (by omega))
  · intro reg reg' c3s hrun o' t' ho' ht'
    apply process_frame cfg reg reg' [] c3s hrun
    · intro c hc
      cases hc
    · intro c _ s hs
      have hb := candScans_bounds hs
      exact tableName2_not_mem_names3Prong (k := 3) (by decide) ho' (by omega) hb.2
        (by omega)
  · intro reg o i name hn
    exact init3Prong_frame cfg o i reg name hn
  · intro name h hs
    exact init_apply_some cfg name h hs

/-- Instance of C11 on the sample 2-prong candidate (impact-parameter product
-0.00002) and the store with every histogram booked: its Prompt channel-0 scan
reads the threshold of index 4 and counts the candidate in the cell of
threshold index 5 when it is below the threshold. -/
theorem impParProd_scan_two_prong_only_witness :
    ∃ reg', testSelections2Prong defaultConfig 0 0 sampleCand2Prong
        [sampleCand2Prong.index0, sampleCand2Prong.index1] (bookAll defaultConfig) = some reg'
      ∧ ∃ cut, impParProdCuts.get? 4 = some cut
        ∧ reg'.count (nameAt histoImpParProdNames2Prong 0 0) 2 (4 + 1)
          = (bookAll defaultConfig).count (nameAt histoImpParProdNames2Prong 0 0) 2 (4 + 1)
            + if sampleCand2Prong.impactParameterProduct < cut
                ∧ defaultConfig.ptAxis.findBin sampleCand2Prong.pt = 2 then 1 else 0 := by
  obtain ⟨reg', hrun⟩ := testSelections2Prong_succeeds
    (complete_holds2 (bookAll_complete defaultConfig) 0 (by decide)) defaultConfig_inBounds 0
    sampleCand2Prong [sampleCand2Prong.index0, sampleCand2Prong.index1] (by decide)
  exact ⟨reg', hrun, (impParProd_scan_two_prong_only defaultConfig).1 _ reg' 0 0 4 2
    sampleCand2Prong _ (bookAll_wellBooked _) (by decide) (by decide) (by decide) hrun⟩

/-! ## Candidates without a channel bit, and background candidates -/

theorem channelOrig_of_no_bit {hfflag : Nat} {m o : Int} {i : Nat}
    (h : TESTBIT hfflag i = false) : channelOrig hfflag m o i = none := by
  simp [channelOrig, h]

theorem channelOrig_of_unmatched {hfflag : Nat} {m o : Int} {i : Nat}
    (h : TESTBIT hfflag i = true) (hm : m.natAbs ≠ BIT i) :
    channelOrig hfflag m o i = some 2 := by
  simp [channelOrig, h, hm]

/-- Channels that are not selected, or selected and not matched, set no flag
but the background flag. -/
theorem foldl_mark_bkg (hfflag : Nat) (m o : Int) (l : List Nat) (flags : Flags)
    (h : ∀ j ∈ l, channelOrig hfflag m o j = none ∨ channelOrig hfflag m o j = some 2) :
    l.foldl (fun flags i => flags.mark (channelOrig hfflag m o i)) flags
      = ⟨flags.isPrompt, flags.isNonPrompt,
          flags.isBkg || l.any (fun j => decide (channelOrig hfflag m o j = some 2))⟩ := by
  induction l generalizing flags with
  | nil => simp
  | cons a l ih =>
    rw [List.foldl_cons, ih _ (fun j hj => h j (List.mem_cons_of_mem _ hj))]
    rcases h a (List.mem_cons_self _ _) with ha | ha
    · simp [ha, Flags.mark]
    · simp [ha, Flags.mark]

/-- A candidate with no channel bit set is scanned for no channel and gets no
summary scan. -/
theorem candScans_of_no_bit (K hfflag : Nat) (m o : Int)
    (h : ∀ i, i < K → TESTBIT hfflag i = false) : candScans K hfflag m o = [] := by
  have hnone : ∀ j ∈ List.range K, channelOrig hfflag m o j = none := fun j hj =>
    channelOrig_of_no_bit (h j (List.mem_range.mp hj))
  have hflags : flagsAfter K hfflag m o = ⟨false, false, false⟩ := by
    unfold flagsAfter
    rw [foldl_mark_bkg hfflag m o _ _ (fun j hj => Or.inl (hnone j hj))]
    have : (List.range K).any (fun j => decide (channelOrig hfflag m o j = some 2)) = false := by
      rw [List.any_eq_false]
      intro j hj
      simp [hnone j hj]
    simp [this]
  apply List.eq_nil_iff_forall_not_mem.mpr
  intro s hs
  rcases mem_candScans.mp hs with ⟨hlt, hc⟩ | ⟨_, hc⟩
  · rw [channelOrig_of_no_bit (h _ hlt)] at hc
    cases hc
  · rw [hflags] at hc
    simp [summaryOrig] at hc

/-- A candidate selected for channel `i` only and not matched to it is scanned
as Background for channel `i` and for the summary, and not otherwise. -/
theorem mem_candScans_bkg (K hfflag : Nat) (m o : Int) (i : Nat) (hi : i < K)
    (hbit : ∀ j, j < K → (TESTBIT hfflag j = true ↔ j = i)) (hm : m.natAbs ≠ BIT i)
    (s : Nat × Nat) : s ∈ candScans K hfflag m o ↔ s = (i, 2) ∨ s = (K, 2) := by
  have hi2 : channelOrig hfflag m o i = some 2 :=
    channelOrig_of_unmatched ((hbit i hi).mpr rfl) hm
  have hother : ∀ j, j < K → j ≠ i → channelOrig hfflag m o j = none := by
    intro j hj hne
    apply channelOrig_of_no_bit
    cases hb : TESTBIT hfflag j with
    | false => rfl
    | true => exact absurd ((hbit j hj).mp hb) hne
  have hall : ∀ j ∈ List.range K,
      channelOrig hfflag m o j = none ∨ channelOrig hfflag m o j = some 2 := by
    intro j hj
    by_cases hji : j = i
    · exact Or.inr (hji ▸ hi2)
    · exact Or.inl (hother j (List.mem_range.mp hj) hji)
  have hflags : flagsAfter K hfflag m o = ⟨false, false, true⟩ := by
    unfold flagsAfter
    rw [foldl_mark_bkg hfflag m o _ _ hall]
    have : (List.range K).any (fun j => decide (channelOrig hfflag m o j = some 2)) = true := by
      rw [List.any_eq_true]
      exact ⟨i, List.mem_range.mpr hi, by simp [hi2]⟩
    simp [this]
  rw [mem_candScans, hflags]
  obtain ⟨a, b⟩ := s
  simp only [Prod.mk.injEq]
  constructor
  · rintro (⟨hlt, hc⟩ | ⟨he, hc⟩)
    · by_cases hai : a = i
      · subst hai
        rw [hi2] at hc
        exact Or.inl ⟨rfl, (Option.some.inj hc).symm⟩
      · rw [hother a hlt hai] at hc
        cases hc
    · simp only [summaryOrig] at hc
      exact Or.inr ⟨he, (Option.some.inj hc).symm⟩
  · rintro (⟨rfl, rfl⟩ | ⟨rfl, rfl⟩)
    · exact Or.inl ⟨hi, hi2⟩
    · exact Or.inr ⟨rfl, rfl⟩

/-- C12: when no candidate of the two streams has a channel bit set in its
decay-channel bitmask (no bit among 0, 1 for a 2-prong candidate, among 0..3
for a 3-prong candidate), `process` runs no per-channel scan and no summary
scan: no candidate has a scan to run, the run performs no fill operation, and
it succeeds on every store and returns the store unchanged, whatever the
true-match bitmasks and origins of the candidates are. -/
theorem no_channel_bit_no_scan (cfg : Config) (reg : Registry) (c2s : List Cand2Prong)
    (c3s : List Cand3Prong)
    (h2 : ∀ c ∈ c2s, ∀ i, i < n2Prong → TESTBIT c.hfflag i = false)
    (h3 : ∀ c ∈ c3s, ∀ i, i < n3Prong → TESTBIT c.hfflag i = false) :
    (∀ c ∈ c2s, candScans2Prong c = [] ∧ processCand2Prong cfg reg c = some reg)
    ∧ (∀ c ∈ c3s, candScans3Prong c = [] ∧ processCand3Prong cfg reg c = some reg)
    ∧ streamOps cfg c2s c3s = []
    ∧ process cfg reg c2s c3s = some reg := by
  have e2 : ∀ c ∈ c2s, candScans2Prong c = [] := fun c hc =>
    candScans_of_no_bit _ _ _ _ (h2 c hc)
  have e3 : ∀ c ∈ c3s, candScans3Prong c = [] := fun c hc =>
    candScans_of_no_bit _ _ _ _ (h3 c hc)
  have hops : streamOps cfg c2s c3s = [] := by
    apply List.eq_nil_iff_forall_not_mem.mpr
    intro op hop
    rcases mem_streamOps_iff.mp hop with ⟨c, hc, s, hs, _⟩ | ⟨c, hc, s, hs, _⟩
    · rw [e2 c hc] at hs
      cases hs
    · rw [e3 c hc] at hs
      cases hs
  refine ⟨?_, ?_, hops, ?_⟩
  · intro c hc
    refine ⟨e2 c hc, ?_⟩
    rw [processCand2Prong_eq, candOps2Prong, e2 c hc]
    rfl
  · intro c hc
    refine ⟨e3 c hc, ?_⟩
    rw [processCand3Prong_eq, candOps3Prong, e3 c hc]
    rfl
  · rw [process_eq, hops]
    rfl

/-- Instance of C12: a 2-prong candidate with only bit 2 set and a 3-prong
candidate with only bit 4 set, both matched and prompt, leave the empty store
as it is. -/
theorem no_channel_bit_no_scan_witness :
    streamOps defaultConfig [noChannelCand2Prong] [noChannelCand3Prong] = []
    ∧ process defaultConfig Registry.empty [noChannelCand2Prong] [noChannelCand3Prong]
        = some Registry.empty :=
  (no_channel_bit_no_scan defaultConfig Registry.empty [noChannelCand2Prong]
    [noChannelCand3Prong]
    (by
      intro c hc i hi
      rw [List.mem_singleton] at hc
      subst hc
      have hi2 : i < 2 := hi
      interval_cases i <;> decide)
    (by
      intro c hc i hi
      rw [List.mem_singleton] at hc
      subst hc
      have hi4 : i < 4 := hi
      interval_cases i <;> decide)).2.2

/-- An entry of the Prompt or NonPrompt rows of the name tables is none of the
names of a Background 3-prong key. -/
theorem tableName_not_mem_names3Prong_bkg {k o t i : Nat} (hk : k < 11) (ho : o < 2)
    (ht : t < tableCols k) (hi : i < 5) : tableName k o t ∉ names3Prong 2 i := by
  intro hmem
  obtain ⟨k', hk6, hk11, he⟩ := mem_names3Prong hmem
  have := (tableName_eq_iff3 hk hk6 hk11 (by omega : o < 3) (by decide : 2 < 3) ht hi).mp
    he.symm
  omega

/-- A run of `process` that completes on a single 3-prong candidate that has,
among the
channel bits 0..3, exactly the bit `i` set and whose absolute true-match
bitmask is not `2 ^ i` changes the store only under the names of the Background
key of channel `i` and of the Background summary key: every histogram under
another name is left as it is, in particular every histogram of a Prompt or
NonPrompt row of the eleven name tables (all channels and summary), whatever
the origin tag is. On a store booked with the axes of `init` the Background
yield counters of channel `i` and of the summary gain one entry in the pT bin
of the candidate. -/
theorem background_three_prong_frame (cfg : Config) (reg reg' : Registry) (c : Cand3Prong)
    (i : Nat) (hi : i < n3Prong)
    (hbit : ∀ j, j < n3Prong → (TESTBIT c.hfflag j = true ↔ j = i))
    (hm : |c.flagMCMatchRec| ≠ 2 ^ i)
    (hrun : process cfg reg [] [c] = some reg') :
    (∀ name, name ∉ names3Prong Classification.Background.candOrig i →
      name ∉ names3Prong Classification.Background.candOrig n3Prong → reg' name = reg name)
    ∧ (∀ k o t, k < 11 → o < 2 → t < tableCols k →
      reg' (tableName k o t) = reg (tableName k o t))
    ∧ (reg.WellBooked cfg →
      reg'.count (nameAt histoNames3Prong 2 i) (cfg.ptAxis.findBin c.pt) 0
        = reg.count (nameAt histoNames3Prong 2 i) (cfg.ptAxis.findBin c.pt) 0 + 1
      ∧ reg'.count (nameAt histoNames3Prong 2 n3Prong) (cfg.ptAxis.findBin c.pt) 0
        = reg.count (nameAt histoNames3Prong 2 n3Prong) (cfg.ptAxis.findBin c.pt) 0 + 1) := by
  have hn3 : n3Prong = 4 := rfl
  have hm' : c.flagMCMatchRec.natAbs ≠ BIT i := fun h => hm ((natAbs_eq_BIT_iff _ _).mp h)
  have hmem : ∀ s, s ∈ candScans3Prong c ↔ s = (i, 2) ∨ s = (n3Prong, 2) :=
    mem_candScans_bkg n3Prong c.hfflag c.flagMCMatchRec c.originMCRec i hi hbit hm'
  have hframe : ∀ name, name ∉ names3Prong 2 i → name ∉ names3Prong 2 n3Prong →
      reg' name = reg name := by
    intro name h1 h2
    apply process_frame cfg reg reg' [] [c] hrun
    · intro c' hc'
      cases hc'
    · intro c' hc' s hs
      rw [List.mem_singleton] at hc'
      subst hc'
      rcases (hmem s).mp hs with rfl | rfl
      · exact h1
      · exact h2
  refine ⟨hframe, ?_, ?_⟩
  · intro k o t hk ho ht
    exact hframe _ (tableName_not_mem_names3Prong_bkg hk ho ht (by omega))
      (tableName_not_mem_names3Prong_bkg hk ho ht (by omega))
  · intro hwb
    have hrun' := hrun
    rw [process_eq] at hrun'
    have key : ∀ t, t < 5 → (t, 2) ∈ candScans3Prong c →
        reg'.count (tableName 6 2 t) (cfg.ptAxis.findBin c.pt) 0
          = reg.count (tableName 6 2 t) (cfg.ptAxis.findBin c.pt) 0 + 1 := by
      intro t ht hs
      rw [count_applyAll cfg reg reg' _ hrun' hwb 6 2 t _ 0 (by decide) (by decide)
        (by show t < 5; exact ht),
        stream_yield cfg 6 2 t _ [] [c] (Or.inr rfl) (by decide) (by show t < 5; exact ht)]
      simp [hs]
    exact ⟨key i (by omega) ((hmem _).mpr (Or.inl rfl)),
      key n3Prong (by omega) ((hmem _).mpr (Or.inr rfl))⟩

/-- The frame of a completed run on the 3-prong candidate with only bit 1 set
and true-match bitmask 0, on the store with every histogram booked. -/
theorem background_three_prong_frame_witness :
    ∃ reg', process defaultConfig (bookAll defaultConfig) [] [bkgCand3Prong] = some reg'
      ∧ (∀ k o t, k < 11 → o < 2 → t < tableCols k →
        reg' (tableName k o t) = bookAll defaultConfig (tableName k o t))
      ∧ reg'.count (nameAt histoNames3Prong 2 1)
          (defaultConfig.ptAxis.findBin bkgCand3Prong.pt) 0
        = (bookAll defaultConfig).count (nameAt histoNames3Prong 2 1)
          (defaultConfig.ptAxis.findBin bkgCand3Prong.pt) 0 + 1 := by
  obtain ⟨reg', hrun⟩ := process_succeeds defaultConfig (bookAll defaultConfig) []
    [bkgCand3Prong] (bookAll_complete _) defaultConfig_inBounds
  have h := background_three_prong_frame defaultConfig (bookAll defaultConfig) reg'
    bkgCand3Prong 1 (by decide)
    (by
      intro j hj
      have hj4 : j < 4 := hj
      interval_cases j <;> decide)
    (by decide) hrun
  exact ⟨reg', hrun, h.2.1, (h.2.2 (bookAll_wellBooked _)).1⟩

/-! ## The cells of threshold index 0 -/

/-- A threshold loop fills no cell of index 0 on the threshold axis. -/
theorem countP_hits_cutOps_zero (h : Histo) (name name' : String) (n : Nat) (cuts : List ℚ)
    (pass : ℚ → Bool) (pT : ℚ) (ix : Nat)
    (hax : name' = name → h.axis 1 = quantizedAxis cuts.length) :
    (cutOps n cuts pass name' pT).countP (Op.hits h name ix 0) = 0 := by
  unfold cutOps
  rw [List.countP_eq_zero]
  intro op hop
  simp only [List.mem_flatMap, List.mem_range] at hop
  obtain ⟨j, hjn, hj⟩ := hop
  unfold cutOps1 at hj
  cases hc : cuts.get? j with
  | none =>
    rw [hc] at hj
    rw [List.mem_singleton] at hj
    subst hj
    simp [Op.hits]
  | some cut =>
    have hlt : j < cuts.length := by
      by_contra hlt
      rw [List.get?_eq_none.mpr (Nat.le_of_not_lt hlt)] at hc
      cases hc
    rw [hc] at hj
    dsimp only at hj
    by_cases hp : pass cut = true
    · rw [if_pos hp, List.mem_singleton] at hj
      subst hj
      by_cases hn : name' = name
      · simp [Op.hits, hax hn, findBin_quantized cuts.length j hlt]
      · simp [Op.hits, hn]
    · rw [if_neg hp] at hj
      cases hj

theorem countP_hits_loops_zero (h : Histo) (name : String) (ix : Nat) (pT : ℚ)
    (loops : List CutLoop)
    (hq : ∀ l ∈ loops, l.name = name → h.axis 1 = quantizedAxis l.cuts.length) :
    (loops.flatMap (CutLoop.ops pT)).countP (Op.hits h name ix 0) = 0 := by
  rw [List.countP_eq_zero]
  intro op hop
  simp only [List.mem_flatMap] at hop
  obtain ⟨l, hl, hop⟩ := hop
  have h0 := countP_hits_cutOps_zero h name l.name l.n l.cuts l.pass pT ix (hq l hl)
  rw [List.countP_eq_zero] at h0
  exact h0 op hop

/-- The histogram a 2-prong threshold loop fills has, on its second axis, one
bin per iteration of the loop. -/
theorem loops2Prong_axis (cfg : Config) (k o t o' t' : Nat) (c : Cand2Prong) (tr : List Track)
    (h : Histo) (hk : k < 11) (ho : o < 3) (ht : t < tableCols k) (ho' : o' < 3) (ht' : t' < 3)
    (hax : h.axes = tableAxes cfg k) :
    ∀ l ∈ loops2Prong cfg t' o' c tr, l.name = tableName k o t →
      h.axis 1 = quantizedAxis l.cuts.length := by
  intro l hl hname
  simp only [loops2Prong, List.mem_cons, List.mem_singleton, List.not_mem_nil, or_false] at hl
  unfold Histo.axis
  rw [hax]
  rcases hl with rfl | rfl | rfl | rfl | rfl
  · obtain ⟨rfl, _, _⟩ :=
      (tableName_eq_iff2 hk (show 1 < 6 by decide) ho ho' ht ht').mp hname
    rfl
  · obtain ⟨rfl, _, _⟩ :=
      (tableName_eq_iff2 hk (show 2 < 6 by decide) ho ho' ht ht').mp hname
    rfl
  · obtain ⟨rfl, _, _⟩ :=
      (tableName_eq_iff2 hk (show 3 < 6 by decide) ho ho' ht ht').mp hname
    rfl
  · obtain ⟨rfl, _, _⟩ :=
      (tableName_eq_iff2 hk (show 4 < 6 by decide) ho ho' ht ht').mp hname
    rfl
  · obtain ⟨rfl, _, _⟩ :=
      (tableName_eq_iff2 hk (show 5 < 6 by decide) ho ho' ht ht').mp hname
    rfl

/-- The histogram a 3-prong threshold loop fills has, on its second axis, one
bin per iteration of the loop. -/
theorem loops3Prong_axis (cfg : Config) (k o t o' t' : Nat) (c : Cand3Prong) (tr : List Track)
    (h : Histo) (hk : k < 11) (ho : o < 3) (ht : t < tableCols k) (ho' : o' < 3) (ht' : t' < 5)
    (hax : h.axes = tableAxes cfg k) :
    ∀ l ∈ loops3Prong cfg t' o' c tr, l.name = tableName k o t →
      h.axis 1 = quantizedAxis l.cuts.length := by
  intro l hl hname
  simp only [loops3Prong, List.mem_cons, List.mem_singleton, List.not_mem_nil, or_false] at hl
  unfold Histo.axis
  rw [hax]
  rcases hl with rfl | rfl | rfl | rfl
  · obtain ⟨rfl, _, _⟩ := (tableName_eq_iff3 hk (show 6 ≤ 7 by decide)
      (show 7 < 11 by decide) ho ho' ht ht').mp hname
    rfl
  · obtain ⟨rfl, _, _⟩ := (tableName_eq_iff3 hk (show 6 ≤ 8 by decide)
      (show 8 < 11 by decide) ho ho' ht ht').mp hname
    rfl
  · obtain ⟨rfl, _, _⟩ := (tableName_eq_iff3 hk (show 6 ≤ 9 by decide)
      (show 9 < 11 by decide) ho ho' ht ht').mp hname
    rfl
  · obtain ⟨rfl, _, _⟩ := (tableName_eq_iff3 hk (show 6 ≤ 10 by decide)
      (show 10 < 11 by decide) ho ho' ht ht').mp hname
    rfl

/-- A 2-prong scan adds no entry to a cell of threshold index 0 of a 2D
histogram. -/
theorem scanZero2Prong (cfg : Config) (k o t o' t' ix : Nat) (c : Cand2Prong)
    (tr : List Track) (h : Histo) (hk : k < 11) (hk0 : k ≠ 0) (ho : o < 3)
    (ht : t < tableCols k) (ho' : o' < 3) (ht' : t' < 3) (hax : h.axes = tableAxes cfg k) :
    (scanOps2Prong cfg t' o' c tr).countP (Op.hits h (tableName k o t) ix 0) = 0 := by
  rw [scanOps2Prong_eq_loops, List.countP_cons,
    countP_hits_loops_zero h _ ix c.pt _ (loops2Prong_axis cfg k o t o' t' c tr h hk ho ht ho' ht'
      hax)]
  have hne : tableName 0 o' t' ≠ tableName k o t := fun e =>
    hk0 ((tableName_eq_iff2 hk (show 0 < 6 by decide) ho ho' ht ht').mp e).1.symm
  simp [Op.hits, hne]

/-- A 3-prong scan adds no entry to a cell of threshold index 0 of a 2D
histogram. -/
theorem scanZero3Prong (cfg : Config) (k o t o' t' ix : Nat) (c : Cand3Prong)
    (tr : List Track) (h : Histo) (hk : k < 11) (hk6 : k ≠ 6) (ho : o < 3)
    (ht : t < tableCols k) (ho' : o' < 3) (ht' : t' < 5) (hax : h.axes = tableAxes cfg k) :
    (scanOps3Prong cfg t' o' c tr).countP (Op.hits h (tableName k o t) ix 0) = 0 := by
  rw [scanOps3Prong_eq_loops, List.countP_cons,
    countP_hits_loops_zero h _ ix c.pt _ (loops3Prong_axis cfg k o t o' t' c tr h hk ho ht ho' ht'
      hax)]
  have hne : tableName 6 o' t' ≠ tableName k o t := fun e =>
    hk6 ((tableName_eq_iff3 hk (show 6 ≤ 6 by decide) (show 6 < 11 by decide) ho ho' ht
      ht').mp e).1.symm
  simp [Op.hits, hne]

/-- A run adds no entry to a cell of threshold index 0 of a 2D histogram. -/
theorem stream_zero (cfg : Config) (k o t ix : Nat) (c2s : List Cand2Prong)
    (c3s : List Cand3Prong) (hk : k < 11) (hk0 : k ≠ 0) (hk6 : k ≠ 6) (ho : o < 3)
    (ht : t < tableCols k) :
    (streamOps cfg c2s c3s).countP (Op.hits (refHisto cfg k) (tableName k o t) ix 0) = 0 := by
  rw [List.countP_eq_zero]
  intro op hop
  rcases mem_streamOps_iff.mp hop with ⟨c, _, s, hs, hmem⟩ | ⟨c, _, s, hs, hmem⟩
  · have h0 := scanZero2Prong cfg k o t s.2 s.1 ix c [c.index0, c.index1] (refHisto cfg k) hk hk0
      ho ht (candScans_bounds hs).2 (candScans_bounds hs).1 rfl
    rw [List.countP_eq_zero] at h0
    exact h0 op hmem
  · have h0 := scanZero3Prong cfg k o t s.2 s.1 ix c [c.index0, c.index1, c.index2]
      (refHisto cfg k) hk hk6 ho ht (candScans_bounds hs).2 (candScans_bounds hs).1 rfl
    rw [List.countP_eq_zero] at h0
    exact h0 op hmem

/-! ## The default-grid scenario -/

theorem scenario_findBin : defaultConfig.ptAxis.findBin scenarioCand2Prong.pt = 2 := by
  simp [defaultConfig, scenarioCand2Prong, AxisSpec.findBin, List.filter]
  norm_num

/-- The scenario candidate, of pointing cosine 0.96, passes the thresholds of
index 0 to 9 of `cospCuts` and no other. -/
theorem scenario_pass_cosp (tr : List Track) (i : Nat) :
    pass2Prong 1 scenarioCand2Prong tr i = decide (i < 10) := by
  by_cases hi : i < 15
  · interval_cases i <;> simp [pass2Prong, passAt, cospCuts, scenarioCand2Prong] <;> norm_num
  · have hnone : cospCuts.get? i = none :=
      List.get?_eq_none.mpr (by
        have : cospCuts.length = 15 := rfl
        omega)
    have h10 : ¬ i < 10 := by omega
    have hfalse : pass2Prong 1 scenarioCand2Prong tr i = false := by
      simp only [pass2Prong, passAt, hnone]
    rw [hfalse]
    simp [h10]

theorem scenario_candScans : candScans2Prong scenarioCand2Prong = [(0, 0), (2, 0)] := by
  decide

/-- The yield and cosine cells of key `(Prompt, t)` after a successful scan of
the scenario candidate under that key, on an empty store booked with the
default axes. -/
theorem scenario_scan_cells (reg reg' : Registry) (t : Nat) (ht : t < 3)
    (hwb : reg.WellBooked defaultConfig) (hz : reg.Zeroed)
    (hrun : testSelections2Prong defaultConfig t 0 scenarioCand2Prong
      [scenarioCand2Prong.index0, scenarioCand2Prong.index1] reg = some reg') :
    (∀ ix, reg'.count (nameAt histoNames2Prong 0 t) ix 0 = if ix = 2 then 1 else 0)
    ∧ (∀ ix iy, reg'.count (nameAt histoCospNames2Prong 0 t) ix iy
        = if ix = 2 ∧ 1 ≤ iy ∧ iy ≤ 10 then 1 else 0) := by
  have hrun' := hrun
  rw [testSelections2Prong_eq] at hrun'
  have hlen : tableLen defaultConfig 1 = 15 := rfl
  constructor
  · intro ix
    rw [show nameAt histoNames2Prong 0 t = tableName 0 0 t from rfl,
      count_applyAll defaultConfig reg reg' _ hrun' hwb 0 0 t ix 0 (by decide) (by decide)
        (by show t < 3; exact ht),
      count_of_zeroed hz,
      scanYield2Prong defaultConfig 0 0 t 0 t ix _ _ (refHisto defaultConfig 0) (Or.inl rfl)
        (by decide) (by show t < 3; exact ht) (by decide) ht rfl, scenario_findBin]
    by_cases hix : ix = 2
    · simp [hix]
    · have : ¬ 2 = ix := fun e => hix e.symm
      simp [hix, this]
  · intro ix iy
    rw [show nameAt histoCospNames2Prong 0 t = tableName 1 0 t from rfl,
      count_applyAll defaultConfig reg reg' _ hrun' hwb 1 0 t ix iy (by decide) (by decide)
        (by show t < 3; exact ht),
      count_of_zeroed hz]
    cases iy with
    | zero =>
      rw [scanZero2Prong defaultConfig 1 0 t 0 t ix _ _ (refHisto defaultConfig 1) (by decide)
        (by decide) (by decide) (by show t < 3; exact ht) (by decide) ht rfl]
      simp
    | succ i =>
      rw [scanHits2Prong defaultConfig 1 0 t 0 t ix i _ _ (refHisto defaultConfig 1) (by decide)
        (by decide) (by show t < 3; exact ht) (by decide) ht rfl, hlen, scenario_pass_cosp,
        scenario_findBin]
      by_cases hix : ix = 2
      · by_cases hi : i < 10
        · have h15 : i < 15 := by omega
          have h10 : i + 1 ≤ 10 := by omega
          simp [hix, hi, h15, h10]
        · have h10 : ¬ i + 1 ≤ 10 := by omega
          simp [hix, hi, h10]
      · have : ¬ 2 = ix := fun e => hix e.symm
        simp [hix, this]

/-- The yield and cosine cells of the Prompt channel-0 key after a successful
run on the scenario candidate, on an empty store booked with the default axes,
and the equality of the Prompt summary histograms with the Prompt channel-0
histograms, cell by cell. -/
theorem scenario_run_cells (reg reg' : Registry) (hwb : reg.WellBooked defaultConfig)
    (hz : reg.Zeroed)
    (hrun : process defaultConfig reg [scenarioCand2Prong] [] = some reg') :
    (∀ ix, reg'.count (nameAt histoNames2Prong 0 0) ix 0 = if ix = 2 then 1 else 0)
    ∧ (∀ ix iy, reg'.count (nameAt histoCospNames2Prong 0 0) ix iy
        = if ix = 2 ∧ 1 ≤ iy ∧ iy ≤ 10 then 1 else 0)
    ∧ (∀ k, k < 6 → ∀ ix iy,
        reg'.count (tableName k 0 2) ix iy = reg'.count (tableName k 0 0) ix iy) := by
  have hrun' := hrun
  rw [process_eq] at hrun'
  have hlen : tableLen defaultConfig 1 = 15 := rfl
  have hcols : ∀ k, k < 6 → tableCols k = 3 := fun k hk => by simp [tableCols, hk]
  refine ⟨?_, ?_, ?_⟩
  · intro ix
    rw [show nameAt histoNames2Prong 0 0 = tableName 0 0 0 from rfl,
      count_applyAll defaultConfig reg reg' _ hrun' hwb 0 0 0 ix 0 (by decide) (by decide)
        (by decide),
      count_of_zeroed hz,
      stream_yield defaultConfig 0 0 0 ix _ _ (Or.inl rfl) (by decide) (by decide)]
    by_cases hix : ix = 2
    · simp [scenario_candScans, scenario_findBin, hix]
    · have : ¬ 2 = ix := fun e => hix e.symm
      simp [scenario_candScans, scenario_findBin, this, hix]
  · intro ix iy
    rw [show nameAt histoCospNames2Prong 0 0 = tableName 1 0 0 from rfl,
      count_applyAll defaultConfig reg reg' _ hrun' hwb 1 0 0 ix iy (by decide) (by decide)
        (by decide),
      count_of_zeroed hz]
    cases iy with
    | zero =>
      rw [stream_zero defaultConfig 1 0 0 ix _ _ (by decide) (by decide) (by decide) (by decide)
        (by decide)]
      simp
    | succ i =>
      rw [stream_hits defaultConfig 1 0 0 ix i _ _ (by decide) (by decide) (by decide), hlen]
      by_cases hix : ix = 2
      · by_cases hi : i < 10
        · have h15 : i < 15 := by omega
          have h10 : i + 1 ≤ 10 := by omega
          simp [scenario_candScans, scenario_pass_cosp, scenario_findBin, hix, hi, h15, h10]
        · have h10 : ¬ i + 1 ≤ 10 := by omega
          simp [scenario_candScans, scenario_pass_cosp, scenario_findBin, hix, hi, h10]
      · have : ¬ 2 = ix := fun e => hix e.symm
        simp [scenario_candScans, scenario_pass_cosp, scenario_findBin, this, hix]
  · intro k hk ix iy
    have hk11 : k < 11 := by omega
    have ht2 : 2 < tableCols k := by rw [hcols k hk]; decide
    have ht0 : 0 < tableCols k := by rw [hcols k hk]; decide
    have m2 : ((2, 0) ∈ candScans2Prong scenarioCand2Prong) = True := by
      rw [scenario_candScans]; simp
    have m0 : ((0, 0) ∈ candScans2Prong scenarioCand2Prong) = True := by
      rw [scenario_candScans]; simp
    rw [count_applyAll defaultConfig reg reg' _ hrun' hwb k 0 2 ix iy hk11 (by decide) ht2,
      count_applyAll defaultConfig reg reg' _ hrun' hwb k 0 0 ix iy hk11 (by decide) ht0,
      count_of_zeroed hz, count_of_zeroed hz]
    cases iy with
    | zero =>
      by_cases hk0 : k = 0
      · rw [stream_yield defaultConfig k 0 2 ix _ _ (Or.inl hk0) (by decide) ht2,
          stream_yield defaultConfig k 0 0 ix _ _ (Or.inl hk0) (by decide) ht0]
        simp only [List.countP_cons, List.countP_nil, m2, m0]
      · rw [stream_zero defaultConfig k 0 2 ix _ _ hk11 hk0 (by omega) (by decide) ht2,
          stream_zero defaultConfig k 0 0 ix _ _ hk11 hk0 (by omega) (by decide) ht0]
    | succ i =>
      rw [stream_hits defaultConfig k 0 2 ix i _ _ hk11 (by decide) ht2,
        stream_hits defaultConfig k 0 0 ix i _ _ hk11 (by decide) ht0]
      simp only [List.countP_cons, List.countP_nil, m2, m0]

/-- C14 (evaluation at the failing input): the scenario candidate falls in pT
bin 2 of the default pT axis and its pointing cosine equals the threshold of
index 10. On the store after `init`, the run of `process` on the candidate
fails: the Prompt channel-0 scan succeeds, adds one entry to the channel-0
Prompt yield counter in pT bin 2 and none elsewhere, and one entry to the
channel-0 Prompt cosine counter at the threshold indices 1..10 of pT bin 2 and
at no other cell; but no histogram is booked under the Prompt summary name, and
the summary scan that follows fails on its first lookup, so no summary counter
is incremented. On the store in which the summary histograms are booked as
well, the run succeeds, the channel-0 Prompt yield and cosine counters are as
above, and each of the six Prompt summary histograms equals the channel-0
Prompt histogram of its dimension, cell by cell. -/
theorem default_scenario_summary_scan_fails :
    defaultConfig.ptAxis.findBin scenarioCand2Prong.pt = 2
    ∧ cospCuts.get? 10 = some scenarioCand2Prong.cpa
    ∧ process defaultConfig (init defaultConfig) [scenarioCand2Prong] [] = none
    ∧ (∃ reg1, testSelections2Prong defaultConfig 0 0 scenarioCand2Prong
          [scenarioCand2Prong.index0, scenarioCand2Prong.index1] (init defaultConfig)
          = some reg1
        ∧ (∀ ix, reg1.count (nameAt histoNames2Prong 0 0) ix 0 = if ix = 2 then 1 else 0)
        ∧ (∀ ix iy, reg1.count (nameAt histoCospNames2Prong 0 0) ix iy
            = if ix = 2 ∧ 1 ≤ iy ∧ iy ≤ 10 then 1 else 0)
        ∧ reg1 (nameAt histoNames2Prong 0 N2ProngDecays) = none
        ∧ testSelections2Prong defaultConfig N2ProngDecays 0 scenarioCand2Prong
          [scenarioCand2Prong.index0, scenarioCand2Prong.index1] reg1 = none)
    ∧ (∃ reg', process defaultConfig (bookAll defaultConfig) [scenarioCand2Prong] []
          = some reg'
        ∧ (∀ ix, reg'.count (nameAt histoNames2Prong 0 0) ix 0 = if ix = 2 then 1 else 0)
        ∧ (∀ ix iy, reg'.count (nameAt histoCospNames2Prong 0 0) ix iy
            = if ix = 2 ∧ 1 ≤ iy ∧ iy ≤ 10 then 1 else 0)
        ∧ (∀ k, k < 6 → ∀ ix iy,
            reg'.count (tableName k 0 2) ix iy = reg'.count (tableName k 0 0) ix iy)) := by
  refine ⟨scenario_findBin, ?_, ?_, ?_, ?_⟩
  · simp only [cospCuts, scenarioCand2Prong]
    norm_num
  · apply process_eq_none_of_invalid (Op.fill1 (tableName 0 0 2) scenarioCand2Prong.pt)
    · apply mem_streamOps2 (c := scenarioCand2Prong) (s := (2, 0)) (List.mem_singleton.mpr rfl)
      · decide
      · rw [scanOps2Prong_eq_loops]
        exact List.mem_cons_self _ _
    · have := init_apply_summary defaultConfig 0 0 (by decide) (by decide)
      simp only [Op.valid, Registry.get]
      rw [show tableName 0 0 2 = tableName 0 0 (tableCols 0 - 1) from rfl, this]
      rfl
  · obtain ⟨reg1, hrun⟩ := testSelections2Prong_succeeds
      (init_holds2 defaultConfig 0 (by decide)) defaultConfig_inBounds 0 scenarioCand2Prong
      [scenarioCand2Prong.index0, scenarioCand2Prong.index1] (by decide)
    have hcells := scenario_scan_cells (init defaultConfig) reg1 0 (by decide)
      (init_wellBooked defaultConfig) (init_zeroed defaultConfig) hrun
    have hnone : reg1 (tableName 0 0 2) = none := by
      rw [scan2_frame defaultConfig _ reg1 0 0 scenarioCand2Prong _ hrun (tableName 0 0 2)]
      · exact init_apply_summary defaultConfig 0 0 (by decide) (by decide)
      · intro hmem
        obtain ⟨k, hk, he⟩ := mem_names2Prong hmem
        have := (@tableName_eq_iff2 0 k 0 0 2 0
          (by decide) hk (by decide) (by decide) (by decide) (by decide)).mp he.symm
        omega
    refine ⟨reg1, hrun, hcells.1, hcells.2, hnone, ?_⟩
    rw [testSelections2Prong_eq, Registry.applyAll_eq, scanOps2Prong_eq_loops]
    have hinv : Op.valid reg1 (Op.fill1 (tableName 0 0 N2ProngDecays) scenarioCand2Prong.pt)
        = false := by
      simp only [Op.valid, Registry.get]
      rw [show tableName 0 0 N2ProngDecays = tableName 0 0 2 from rfl, hnone]
      rfl
    simp [hinv]
  · obtain ⟨reg', hrun⟩ := process_succeeds defaultConfig (bookAll defaultConfig)
      [scenarioCand2Prong] [] (bookAll_complete _) defaultConfig_inBounds
    have hcells := scenario_run_cells (bookAll defaultConfig) reg' (bookAll_wellBooked _)
      (bookAll_zeroed _) hrun
    exact ⟨reg', hrun, hcells.1, hcells.2.1, hcells.2.2⟩

/-! ## The default grids -/

/-- C15: the constant threshold arrays hold the literal reference values. The
pointing-cosine array has the 15 entries 0.70, 0.75, 0.80, 0.85, 0.88, 0.90,
0.92, 0.93, 0.94, 0.95, 0.96, 0.97, 0.98, 0.99, 0.995 (in thousandths: 700,
..., 995); the decay-length array the 11 entries 0, 0.005, 0.01, 0.015, 0.02,
0.025, 0.03, 0.04, 0.05, 0.075, 0.1; the impact-parameter-product array 11
entries, the entry of index `i` being `-0.00005 + i * 0.00001`, so that they
run from -0.00005 to 0.00005; the min-DCA array the 9 entries 0, 0.0005, 0.001,
0.0015, 0.002, 0.0025, 0.003, 0.004, 0.005; the min-pT array the 7 entries
0.30, 0.35, 0.40, 0.45, 0.50, 0.55, 0.60. The default of each configurable grid
is the whole constant array of its dimension. -/
theorem default_grids_literal_values :
    (cospCuts = [700, 750, 800, 850, 880, 900, 920, 930, 940, 950, 960, 970, 980, 990,
        995].map (fun n : ℚ => n / 1000)
      ∧ cospCuts.length = 15 ∧ nCospCutsToTest = 15)
    ∧ (decLenCuts = [0, 5, 10, 15, 20, 25, 30, 40, 50, 75, 100].map (fun n : ℚ => n / 1000)
      ∧ decLenCuts.length = 11 ∧ nDecLenCutsToTest = 11)
    ∧ (impParProdCuts = (List.range 11).map (fun i => -0.00005 + (i : ℚ) * 0.00001)
      ∧ impParProdCuts.length = 11 ∧ nImpParProdCutsToTest = 11
      ∧ impParProdCuts.head? = some (-0.00005) ∧ impParProdCuts.getLast? = some 0.00005)
    ∧ (minDCAxyCuts = [0, 5, 10, 15, 20, 25, 30, 40, 50].map (fun n : ℚ => n / 10000)
      ∧ minDCAxyCuts.length = 9 ∧ nMinDCAxyCutsToTest = 9)
    ∧ (minTrackPtCuts = [30, 35, 40, 45, 50, 55, 60].map (fun n : ℚ => n / 100)
      ∧ minTrackPtCuts.length = 7 ∧ nMinTrackPtCutsToTest = 7)
    ∧ defaultConfig.cospCutsToTest = cospCuts
    ∧ defaultConfig.decLenCutsToTest = decLenCuts
    ∧ defaultConfig.impParProdCutsToTest = impParProdCuts
    ∧ defaultConfig.minDCAxyCutsToTest = minDCAxyCuts
    ∧ defaultConfig.minTrackPtCutsToTest = minTrackPtCuts := by
  refine ⟨⟨?_, rfl, rfl⟩, ⟨?_, rfl, rfl⟩, ⟨?_, rfl, rfl, rfl, rfl⟩, ⟨?_, rfl, rfl⟩,
    ⟨?_, rfl, rfl⟩, rfl, rfl, rfl, rfl, rfl⟩
  · simp only [cospCuts, List.map_cons, List.map_nil]
    norm_num
  · simp only [decLenCuts, List.map_cons, List.map_nil]
    norm_num
  · simp only [impParProdCuts, List.range, List.range.loop, List.map_cons, List.map_nil]
    norm_num
  · simp only [minDCAxyCuts, List.map_cons, List.map_nil]
    norm_num
  · simp only [minTrackPtCuts, List.map_cons, List.map_nil]
    norm_num

/-! ## The naming scheme -/

set_option maxRecDepth 1000000 in
/-- The names of the eleven tables, listed table by table and row by row. -/
theorem histoTables_flatten :
    histoTables.flatten.flatten = allKeys.map (fun p => tableName p.1 p.2.1 p.2.2)
    ∧ histoTables.flatten.flatten.length = 129 := by
  constructor
  · decide
  · rfl

/-- C16: the naming scheme is injective. The eleven name tables (six for
2-prong candidates: yield, pointing cosine, decay length, impact-parameter
product, min track DCA, min track pT; five for 3-prong candidates) hold 129
names. Two different positions `(table, classification, channel-or-summary)`
of the tables hold different strings, and the list of all names of all tables
has no repetition. -/
theorem naming_scheme_injective :
    (∀ k k' o o' t t', k < 11 → k' < 11 → o < 3 → o' < 3 → t < tableCols k →
      t' < tableCols k' → (k, o, t) ≠ (k', o', t') →
      nameAt (histoTables.getD k []) o t ≠ nameAt (histoTables.getD k' []) o' t')
    ∧ histoTables.flatten.flatten.Nodup
    ∧ histoTables.flatten.flatten.length = 129
    ∧ (∀ k, k < 11 → (histoTables.getD k []).length = 3
        ∧ ∀ o, o < 3 → ((histoTables.getD k []).getD o []).length = tableCols k) := by
  refine ⟨?_, ?_, ?_, ?_⟩
  · intro k k' o o' t t' hk hk' ho ho' ht ht' hne he
    have := (tableName_inj hk hk' ho ho' ht ht').mp he
    exact hne (by rw [this.1, this.2.1, this.2.2])
  · rw [histoTables_flatten.1]
    exact allKeys_names_nodup
  · exact histoTables_flatten.2
  · intro k hk
    interval_cases k <;> refine ⟨rfl, fun o ho => ?_⟩ <;> interval_cases o <;> rfl

/-- Instance of C16: the Prompt channel-0 entries of the 2-prong and of the
3-prong pointing-cosine tables are different names. -/
theorem naming_scheme_injective_witness :
    nameAt (histoTables.getD 1 []) 0 0 ≠ nameAt (histoTables.getD 7 []) 0 0 :=
  naming_scheme_injective.1 1 7 0 0 0 0 (by decide) (by decide) (by decide) (by decide)
    (by decide) (by decide) (by decide)

/-! ## Empty grids -/

/-- The store `init` books depends on the configuration through the pT axis
only: the threshold axes are built at construction, from the default grids. -/
theorem init_eq_default (cfg : Config) :
    init cfg = init { defaultConfig with ptAxis := cfg.ptAxis } := rfl

/-- The operations of a threshold loop with bound `n` are reads past the end of
the array and fills whose second coordinate is `j + 1` for an index `j < n`. -/
theorem mem_cutOps_fill {n : Nat} {cuts : List ℚ} {pass : ℚ → Bool} {name : String} {pT : ℚ}
    {op : Op} (hop : op ∈ cutOps n cuts pass name pT) :
    op = Op.outOfBounds ∨ ∃ j, j < n ∧ op = Op.fill2 name pT ((j : ℚ) + 1) := by
  unfold cutOps at hop
  simp only [List.mem_flatMap, List.mem_range] at hop
  obtain ⟨j, hj, hop⟩ := hop
  unfold cutOps1 at hop
  split at hop
  · rw [List.mem_singleton] at hop; exact Or.inl hop
  · split at hop
    · rw [List.mem_singleton] at hop; exact Or.inr ⟨j, hj, hop⟩
    · simp at hop

/-- C18: for a grid of length `n >= 1` and a threshold index `i < n`, the value
`i + 1` falls in bin `i + 1` of the quantized axis of `n` bins on
[0.5, n + 0.5], the axis `init` books for a grid of `n` thresholds; this bin is
neither the underflow bin 0 nor the overflow bin `n + 1`, and another threshold
index `j < n` lands in another bin. The fills of a threshold loop of bound `n`
have such a value `j + 1`, `j < n`, as second coordinate. -/
theorem fill_value_lands_in_own_bin (n i : Nat) (_hn : 1 ≤ n) (hi : i < n) :
    (quantizedAxis n).nbins = n
    ∧ (quantizedAxis n).findBin ((i : ℚ) + 1) = i + 1
    ∧ (quantizedAxis n).findBin ((i : ℚ) + 1) ≠ 0
    ∧ (quantizedAxis n).findBin ((i : ℚ) + 1) ≠ (quantizedAxis n).nbins + 1
    ∧ (∀ j, j < n → j ≠ i →
        (quantizedAxis n).findBin ((j : ℚ) + 1) ≠ (quantizedAxis n).findBin ((i : ℚ) + 1))
    ∧ (∀ (cuts : List ℚ) (pass : ℚ → Bool) (name : String) (pT : ℚ) (op : Op),
        op ∈ cutOps n cuts pass name pT →
        op = Op.outOfBounds ∨ ∃ j, j < n ∧ op = Op.fill2 name pT ((j : ℚ) + 1)) := by
  have hnb : (quantizedAxis n).nbins = n := rfl
  have hbin := findBin_quantized n i hi
  refine ⟨hnb, hbin, ?_, ?_, ?_, fun _ _ _ _ _ hop => mem_cutOps_fill hop⟩
  · rw [hbin]; omega
  · rw [hbin, hnb]; omega
  · intro j hj hji
    rw [hbin, findBin_quantized n j hj]
    omega

/-- Instance of C18: on the axis of the default pointing-cosine grid, of 15
bins, the value 11 filled for the threshold index 10 falls in bin 11. -/
theorem fill_value_lands_in_own_bin_witness :
    (quantizedAxis 15).findBin (((10 : ℕ) : ℚ) + 1) = 10 + 1 :=
  (fill_value_lands_in_own_bin 15 10 (by decide) (by decide)).2.1

/-! ## Reads of the threshold arrays -/

/-- C19 (evaluation at the failing input): with a configured pointing-cosine
grid of 16 thresholds, the loop of a scan runs up to index 15, which is no
index of the constant array `cospCuts` of 15 entries that the comparison
reads: the scan of a candidate performs a read out of bounds and has no
defined result, also on a store that holds every histogram. -/
theorem long_grid_reads_out_of_bounds :
    longGridConfig.cospCutsToTest.length = 16
    ∧ cospCuts.length = 15
    ∧ cospCuts.get? 15 = none
    ∧ Op.outOfBounds ∈ scanOps2Prong longGridConfig D0ToPiK 0 scenarioCand2Prong
        [scenarioCand2Prong.index0, scenarioCand2Prong.index1]
    ∧ testSelections2Prong longGridConfig D0ToPiK 0 scenarioCand2Prong
        [scenarioCand2Prong.index0, scenarioCand2Prong.index1] (bookAll longGridConfig) = none
    ∧ Op.outOfBounds ∈ scanOps3Prong longGridConfig 0 0 sampleCand3Prong
        [sampleCand3Prong.index0, sampleCand3Prong.index1, sampleCand3Prong.index2]
    ∧ testSelections3Prong longGridConfig 0 0 sampleCand3Prong
        [sampleCand3Prong.index0, sampleCand3Prong.index1, sampleCand3Prong.index2]
        (bookAll longGridConfig) = none
    ∧ process longGridConfig (bookAll longGridConfig) [scenarioCand2Prong] [] = none := by
  have hlen : cospCuts.length < longGridConfig.cospCutsToTest.length := by decide
  have hmem2 : Op.outOfBounds ∈ scanOps2Prong longGridConfig D0ToPiK 0 scenarioCand2Prong
      [scenarioCand2Prong.index0, scenarioCand2Prong.index1] := by
    unfold scanOps2Prong
    simp only [List.mem_append]
    exact Or.inl (Or.inl (Or.inl (Or.inl (Or.inr (outOfBounds_mem_cutOps _ _ _ _ _ hlen)))))
  have hmem3 : Op.outOfBounds ∈ scanOps3Prong longGridConfig 0 0 sampleCand3Prong
      [sampleCand3Prong.index0, sampleCand3Prong.index1, sampleCand3Prong.index2] := by
    unfold scanOps3Prong
    simp only [List.mem_append]
    exact Or.inl (Or.inl (Or.inl (Or.inr (outOfBounds_mem_cutOps _ _ _ _ _ hlen))))
  have hnone : ∀ (reg : Registry) (ops : List Op), Op.outOfBounds ∈ ops →
      reg.applyAll ops = none := by
    intro reg ops hop
    rw [Registry.applyAll_eq]
    have : ¬ ops.all (fun op => op.valid reg) = true := by
      intro hall
      have := List.all_eq_true.mp hall _ hop
      simp [Op.valid] at this
    rw [if_neg this]
  refine ⟨rfl, rfl, rfl, hmem2, ?_, hmem3, ?_, ?_⟩
  · rw [testSelections2Prong_eq]
    exact hnone _ _ hmem2
  · rw [testSelections3Prong_eq]
    exact hnone _ _ hmem3
  · apply process_eq_none_of_invalid Op.outOfBounds
    · exact mem_streamOps2 (c := scenarioCand2Prong) (s := (0, 0)) (List.mem_singleton.mpr rfl)
        (by decide) hmem2
    · rfl

/-! ## Pass counts and yields -/

theorem pass3Prong_of_two_prong_table (k : Nat) (hk : k < 6) (c : Cand3Prong)
    (tr : List Track) (i : Nat) : pass3Prong k c tr i = false := by
  interval_cases k <;> rfl

theorem pass2Prong_of_three_prong_table (k : Nat) (hk : 6 ≤ k) (c : Cand2Prong)
    (tr : List Track) (i : Nat) : pass2Prong k c tr i = false := by
  unfold pass2Prong
  split <;> first | omega | rfl

/-- A run adds to a cell of a 2D histogram at most the entries it adds to the
cell of the same pT bin of the yield histogram of the same key. -/
theorem stream_hits_le_yield (cfg : Config) (k o t ix iy : Nat) (c2s : List Cand2Prong)
    (c3s : List Cand3Prong) (hk : k < 11) (hk0 : k ≠ 0) (hk6 : k ≠ 6) (ho : o < 3)
    (ht : t < tableCols k) :
    (streamOps cfg c2s c3s).countP (Op.hits (refHisto cfg k) (tableName k o t) ix iy)
      ≤ (streamOps cfg c2s c3s).countP
          (Op.hits (refHisto cfg (yieldTable k)) (tableName (yieldTable k) o t) ix 0) := by
  cases iy with
  | zero =>
    rw [stream_zero cfg k o t ix c2s c3s hk hk0 hk6 ho ht]
    exact Nat.zero_le _
  | succ i =>
    have hy : yieldTable k = 0 ∨ yieldTable k = 6 := by
      unfold yieldTable
      split
      · exact Or.inl rfl
      · exact Or.inr rfl
    have hty : t < tableCols (yieldTable k) := by
      unfold yieldTable tableCols at *
      split <;> simp_all
    rw [stream_hits cfg k o t ix i c2s c3s hk ho ht,
      stream_yield cfg (yieldTable k) o t ix c2s c3s hy ho hty]
    apply Nat.add_le_add
    · apply List.countP_mono_left
      intro c _ hc
      simp only [decide_eq_true_eq] at hc ⊢
      refine ⟨hc.1, ?_, hc.2.2.2⟩
      by_cases hk6' : k < 6
      · simp [yieldTable, hk6']
      · rw [pass2Prong_of_three_prong_table k (by omega)] at hc
        exact absurd hc.2.2.1 (by simp)
    · apply List.countP_mono_left
      intro c _ hc
      simp only [decide_eq_true_eq] at hc ⊢
      refine ⟨hc.1, ?_, hc.2.2.2⟩
      by_cases hk6' : k < 6
      · rw [pass3Prong_of_two_prong_table k hk6'] at hc
        exact absurd hc.2.2.1 (by simp)
      · simp [yieldTable, hk6']

/-- The bound of a pass count by the yield is kept by a run of `process`. -/
theorem pass_le_yield_step (cfg : Config) (reg reg' : Registry) (c2s : List Cand2Prong)
    (c3s : List Cand3Prong) (hwb : reg.WellBooked cfg)
    (hrun : process cfg reg c2s c3s = some reg') (k o t ix iy : Nat) (hk : k < 11)
    (hk0 : k ≠ 0) (hk6 : k ≠ 6) (ho : o < 3) (ht : t < tableCols k)
    (hle : reg.count (tableName k o t) ix iy ≤ reg.count (tableName (yieldTable k) o t) ix 0) :
    reg'.count (tableName k o t) ix iy ≤ reg'.count (tableName (yieldTable k) o t) ix 0 := by
  rw [process_eq] at hrun
  have hy : yieldTable k < 11 := by unfold yieldTable; split <;> decide
  have hty : t < tableCols (yieldTable k) := by
    unfold yieldTable tableCols at *
    split <;> simp_all
  rw [count_applyAll cfg reg reg' _ hrun hwb k o t ix iy hk ho ht,
    count_applyAll cfg reg reg' _ hrun hwb (yieldTable k) o t ix 0 hy ho hty]
  exact Nat.add_le_add hle (stream_hits_le_yield cfg k o t ix iy c2s c3s hk hk0 hk6 ho ht)

/-- The bound of a pass count by the yield is kept by successive runs. -/
theorem pass_le_yield_runs (cfg : Config)
    (batches : List (List Cand2Prong × List Cand3Prong)) (reg reg' : Registry)
    (hwb : reg.WellBooked cfg) (hrun : processRuns cfg reg batches = some reg')
    (k o t ix iy : Nat) (hk : k < 11) (hk0 : k ≠ 0) (hk6 : k ≠ 6) (ho : o < 3)
    (ht : t < tableCols k)
    (hle : reg.count (tableName k o t) ix iy ≤ reg.count (tableName (yieldTable k) o t) ix 0) :
    reg'.count (tableName k o t) ix iy ≤ reg'.count (tableName (yieldTable k) o t) ix 0 := by
  induction batches generalizing reg with
  | nil =>
    simp only [processRuns, List.foldlM_nil] at hrun
    cases hrun
    exact hle
  | cons b bs ih =>
    simp only [processRuns, List.foldlM_cons] at hrun
    cases hstep : process cfg reg b.1 b.2 with
    | none =>
      rw [hstep] at hrun
      cases hrun
    | some r1 =>
      rw [hstep] at hrun
      have hwb1 : r1.WellBooked cfg := by
        have h := hstep
        rw [process_eq] at h
        exact wellBooked_applyAll cfg reg r1 _ h hwb
      exact ih r1 hwb1 hrun
        (pass_le_yield_step cfg reg r1 b.1 b.2 hwb hstep k o t ix iy hk hk0 hk6 ho ht hle)

/-- A successful sequence of operations keeps every histogram booked, with its
type. -/
theorem complete_applyAll {reg reg' : Registry} {ops : List Op}
    (hrun : reg.applyAll ops = some reg') (hc : reg.Complete) : reg'.Complete := by
  obtain ⟨_, rfl⟩ := applyAll_eq_some hrun
  intro k o t hk ho ht
  obtain ⟨h, hh, hty⟩ := hc k o t hk ho ht
  exact ⟨h.addHits (tableName k o t) ops, by simp [Registry.addHits, hh], hty⟩

/-- Successive runs succeed on a store that holds every histogram, when the
configured grids are not longer than the constant arrays. -/
theorem processRuns_succeeds (cfg : Config)
    (batches : List (List Cand2Prong × List Cand3Prong)) (reg : Registry) (hc : reg.Complete)
    (hb : cfg.InBounds) : ∃ reg', processRuns cfg reg batches = some reg' := by
  induction batches generalizing reg with
  | nil => exact ⟨reg, rfl⟩
  | cons b bs ih =>
    obtain ⟨r1, h1⟩ := process_succeeds cfg reg b.1 b.2 hc hb
    have hc1 : r1.Complete := by
      have h := h1
      rw [process_eq] at h
      exact complete_applyAll h hc
    obtain ⟨reg', h'⟩ := ih r1 hc1
    refine ⟨reg', ?_⟩
    simp only [processRuns, List.foldlM_cons, h1]
    exact h'

/-- C20: the store after `init` is booked with the axes of the tables and all
its counters are 0; and in every store reached from such an initial store by
successive runs of `process`, for every key `(o, t)`, every cut dimension
(2-prong tables 1..5, 3-prong tables 7..10), every pT bin `ix` and every index
`iy` of the threshold axis, the content of the cell `(ix, iy)` of the 2D
histogram is at most the content of the pT bin `ix` of the yield histogram of
the same key. -/
theorem pass_count_le_yield (cfg : Config) (reg0 reg : Registry)
    (batches : List (List Cand2Prong × List Cand3Prong))
    (hwb : reg0.WellBooked cfg) (hz : reg0.Zeroed)
    (hrun : processRuns cfg reg0 batches = some reg) :
    ((init cfg).WellBooked cfg ∧ (init cfg).Zeroed)
    ∧ (∀ k o t ix iy, 1 ≤ k → k < 6 → o < 3 → t ≤ n2Prong →
        reg.count (nameAt (histoTables.getD k []) o t) ix iy
          ≤ reg.count (nameAt histoNames2Prong o t) ix 0)
    ∧ (∀ k o t ix iy, 7 ≤ k → k < 11 → o < 3 → t ≤ n3Prong →
        reg.count (nameAt (histoTables.getD k []) o t) ix iy
          ≤ reg.count (nameAt histoNames3Prong o t) ix 0) := by
  have hn2 : n2Prong = 2 := rfl
  have hn3 : n3Prong = 4 := rfl
  refine ⟨⟨init_wellBooked cfg, init_zeroed cfg⟩, ?_, ?_⟩
  · intro k o t ix iy hk1 hk6 ho ht
    have hcols : t < tableCols k := by simp only [tableCols, hk6, if_true]; omega
    have h := pass_le_yield_runs cfg batches reg0 reg hwb hrun k o t ix iy (by omega)
      (by omega) (by omega) ho hcols
      (by rw [count_of_zeroed hz, count_of_zeroed hz])
    have hy : yieldTable k = 0 := by simp [yieldTable, hk6]
    rw [hy] at h
    exact h
  · intro k o t ix iy hk7 hk11 ho ht
    have hnot : ¬ k < 6 := by omega
    have hcols : t < tableCols k := by simp only [tableCols, hnot, if_false]; omega
    have h := pass_le_yield_runs cfg batches reg0 reg hwb hrun k o t ix iy hk11
      (by omega) (by omega) ho hcols
      (by rw [count_of_zeroed hz, count_of_zeroed hz])
    have hy : yieldTable k = 6 := by simp [yieldTable, hnot]
    rw [hy] at h
    exact h

/-- Instance of C20: after two runs of `process` from the store with every
histogram booked, on the sample candidates and then on the scenario candidate,
the Prompt channel-0 cosine pass count of pT bin 2 and threshold index 5 is at
most the Prompt channel-0 yield of pT bin 2. -/
theorem pass_count_le_yield_witness :
    ∃ reg, processRuns defaultConfig (bookAll defaultConfig)
        [([sampleCand2Prong], [sampleCand3Prong]), ([scenarioCand2Prong], [])] = some reg
      ∧ reg.count (nameAt histoCospNames2Prong 0 0) 2 5
          ≤ reg.count (nameAt histoNames2Prong 0 0) 2 0 := by
  obtain ⟨reg, hrun⟩ := processRuns_succeeds defaultConfig
    [([sampleCand2Prong], [sampleCand3Prong]), ([scenarioCand2Prong], [])]
    (bookAll defaultConfig) (bookAll_complete _) defaultConfig_inBounds
  exact ⟨reg, hrun, (pass_count_le_yield defaultConfig (bookAll defaultConfig) reg _
    (bookAll_wellBooked _) (bookAll_zeroed _) hrun).2.1 1 0 0 2 5 (by decide) (by decide)
    (by decide) (by decide)⟩

/-! ## Signal scans -/

theorem BIT_injective {i j : Nat} (h : BIT i = BIT j) : i = j := by
  unfold BIT at h
  rw [Nat.one_shiftLeft, Nat.one_shiftLeft] at h
  exact Nat.pow_right_injective (Nat.le_refl 2) h

/-- A channel is scanned as Prompt when its bit is set, the absolute true-match
bitmask is the bit of the channel, and the origin is Prompt. -/
theorem channelOrig_eq_prompt_iff (hfflag : Nat) (m o : Int) (i : Nat) :
    channelOrig hfflag m o i = some 0
      ↔ TESTBIT hfflag i = true ∧ m.natAbs = BIT i ∧ o = OriginPrompt := by
  unfold channelOrig
  by_cases hb : TESTBIT hfflag i = true
  · by_cases hm : m.natAbs = BIT i
    · by_cases ho : o = OriginPrompt
      · simp [hb, hm, ho]
      · by_cases ho' : o = OriginNonPrompt <;> simp [hb, hm, ho, ho']
    · simp [hb, hm]
  · simp [hb]

/-- A channel is scanned as NonPrompt when its bit is set, the absolute
true-match bitmask is the bit of the channel, and the origin is NonPrompt. -/
theorem channelOrig_eq_nonPrompt_iff (hfflag : Nat) (m o : Int) (i : Nat) :
    channelOrig hfflag m o i = some 1
      ↔ TESTBIT hfflag i = true ∧ m.natAbs = BIT i ∧ o ≠ OriginPrompt
        ∧ o = OriginNonPrompt := by
  unfold channelOrig
  by_cases hb : TESTBIT hfflag i = true
  · by_cases hm : m.natAbs = BIT i
    · by_cases ho : o = OriginPrompt
      · simp [hb, hm, ho]
      · by_cases ho' : o = OriginNonPrompt <;> simp [hb, hm, ho, ho']
    · simp [hb, hm]
  · simp [hb]

/-- A signal scan of a channel needs the absolute true-match bitmask to be the
bit of the channel. -/
theorem natAbs_of_signal {hfflag : Nat} {m o : Int} {i : Nat}
    (h : channelOrig hfflag m o i = some 0 ∨ channelOrig hfflag m o i = some 1) :
    m.natAbs = BIT i := by
  rcases h with h | h
  · exact ((channelOrig_eq_prompt_iff hfflag m o i).mp h).2.1
  · exact ((channelOrig_eq_nonPrompt_iff hfflag m o i).mp h).2.1

/-- The flags `isPrompt` and `isNonPrompt` get set only with the origin tag of
their classification. -/
theorem foldl_mark_signal (hfflag : Nat) (m o : Int) (l : List Nat) (flags : Flags) :
    ((l.foldl (fun flags i => flags.mark (channelOrig hfflag m o i)) flags).isPrompt = true →
      flags.isPrompt = true ∨ o = OriginPrompt)
    ∧ ((l.foldl (fun flags i => flags.mark (channelOrig hfflag m o i)) flags).isNonPrompt = true →
      flags.isNonPrompt = true ∨ o ≠ OriginPrompt) := by
  induction l generalizing flags with
  | nil => exact ⟨Or.inl, Or.inl⟩
  | cons a l ih =>
    rw [List.foldl_cons]
    obtain ⟨ih1, ih2⟩ := ih (flags.mark (channelOrig hfflag m o a))
    have hmark : ∀ orig, channelOrig hfflag m o a = orig →
        ((flags.mark orig).isPrompt = true → flags.isPrompt = true ∨ o = OriginPrompt)
        ∧ ((flags.mark orig).isNonPrompt = true →
          flags.isNonPrompt = true ∨ o ≠ OriginPrompt) := by
      intro orig horig
      match orig, horig with
      | none, _ => exact ⟨Or.inl, Or.inl⟩
      | some 0, horig =>
        exact ⟨fun _ => Or.inr ((channelOrig_eq_prompt_iff hfflag m o a).mp horig).2.2, Or.inl⟩
      | some 1, horig =>
        exact ⟨Or.inl,
          fun _ => Or.inr ((channelOrig_eq_nonPrompt_iff hfflag m o a).mp horig).2.2.1⟩
      | some 2, _ => exact ⟨Or.inl, Or.inl⟩
      | some (n + 3), _ => exact ⟨Or.inl, Or.inl⟩
    obtain ⟨h1, h2⟩ := hmark _ rfl
    constructor
    · intro h
      rcases ih1 h with h' | h'
      · exact h1 h'
      · exact Or.inr h'
    · intro h
      rcases ih2 h with h' | h'
      · exact h2 h'
      · exact Or.inr h'

/-- The flags `isPrompt` and `isNonPrompt` are not both set after the channel
loop. -/
theorem flagsAfter_not_both (K hfflag : Nat) (m o : Int) :
    ¬ ((flagsAfter K hfflag m o).isPrompt = true
      ∧ (flagsAfter K hfflag m o).isNonPrompt = true) := by
  rintro ⟨hp, hn⟩
  obtain ⟨h1, h2⟩ := foldl_mark_signal hfflag m o (List.range K) ⟨false, false, false⟩
  rcases h1 hp with h | h
  · cases h
  · rcases h2 hn with h' | h'
    · cases h'
    · exact h' h

/-- C21: for every candidate at most one channel receives a signal scan. The
body of the channel loop runs, for channel `i`, the `switch` of the origin index
`channelOrig ... i` (0 Prompt, 1 NonPrompt, 2 Background) and sets the flag of
that index, or does nothing when there is none. Two channels that both get a
Prompt or a NonPrompt scan are the same channel, since the absolute true-match
bitmask equals the bit of one channel at most; when a channel gets a signal
scan, every other channel whose bit is set is scanned as Background; and the
flags `isPrompt` and `isNonPrompt` are not both set after the channel loop of a
2-prong or of a 3-prong candidate, the origin tag being one value. -/
theorem at_most_one_signal_channel :
    (∀ (hfflag : Nat) (m o : Int) (i j : Nat),
      (channelOrig hfflag m o i = some 0 ∨ channelOrig hfflag m o i = some 1) →
      (channelOrig hfflag m o j = some 0 ∨ channelOrig hfflag m o j = some 1) → i = j)
    ∧ (∀ (hfflag : Nat) (m o : Int) (i j : Nat),
      (channelOrig hfflag m o i = some 0 ∨ channelOrig hfflag m o i = some 1) →
      j ≠ i → TESTBIT hfflag j = true → channelOrig hfflag m o j = some 2)
    ∧ (∀ (cfg : Config) (c : Cand2Prong) (tracks : List Track) (state : Flags × Registry)
        (i : Nat),
      decayStep2Prong cfg c tracks state i
        = match channelOrig c.hfflag c.flagMCMatchRec c.originMCRec i with
          | some orig => (switch2Prong cfg i orig c tracks state.2).map
              (fun registry => (state.1.mark (some orig), registry))
          | none => some state)
    ∧ (∀ (cfg : Config) (c : Cand3Prong) (tracks : List Track) (state : Flags × Registry)
        (i : Nat),
      decayStep3Prong cfg c tracks state i
        = match channelOrig c.hfflag c.flagMCMatchRec c.originMCRec i with
          | some orig => (switch3Prong cfg i orig c tracks state.2).map
              (fun registry => (state.1.mark (some orig), registry))
          | none => some state)
    ∧ (∀ (cfg : Config) (c : Cand2Prong) (tracks : List Track) (reg reg' : Registry)
        (flags : Flags), decayLoop2Prong cfg c tracks reg = some (flags, reg') →
      ¬ (flags.isPrompt = true ∧ flags.isNonPrompt = true))
    ∧ (∀ (cfg : Config) (c : Cand3Prong) (tracks : List Track) (reg reg' : Registry)
        (flags : Flags), decayLoop3Prong cfg c tracks reg = some (flags, reg') →
      ¬ (flags.isPrompt = true ∧ flags.isNonPrompt = true)) := by
  refine ⟨?_, ?_, ?_, ?_, ?_, ?_⟩
  · intro hfflag m o i j hi hj
    exact BIT_injective ((natAbs_of_signal hi).symm.trans (natAbs_of_signal hj))
  · intro hfflag m o i j hi hji hbit
    apply channelOrig_of_unmatched hbit
    intro hm
    exact hji (BIT_injective ((natAbs_of_signal hi).symm.trans hm)).symm
  · intro cfg c tracks state i
    unfold decayStep2Prong channelOrig
    split_ifs <;> rfl
  · intro cfg c tracks state i
    unfold decayStep3Prong channelOrig
    split_ifs <;> rfl
  · intro cfg c tracks reg reg' flags hrun
    rw [decayLoop2Prong_eq] at hrun
    cases happ : reg.applyAll (channelOps n2Prong c.hfflag c.flagMCMatchRec c.originMCRec
        (fun i orig => scanOps2Prong cfg i orig c tracks)) with
    | none => rw [happ] at hrun; cases hrun
    | some r =>
      rw [happ] at hrun
      simp only [Option.map_some', Option.some.injEq, Prod.mk.injEq] at hrun
      rw [← hrun.1]
      exact flagsAfter_not_both _ _ _ _
  · intro cfg c tracks reg reg' flags hrun
    rw [decayLoop3Prong_eq] at hrun
    cases happ : reg.applyAll (channelOps n3Prong c.hfflag c.flagMCMatchRec c.originMCRec
        (fun i orig => scanOps3Prong cfg i orig c tracks)) with
    | none => rw [happ] at hrun; cases hrun
    | some r =>
      rw [happ] at hrun
      simp only [Option.map_some', Option.some.injEq, Prod.mk.injEq] at hrun
      rw [← hrun.1]
      exact flagsAfter_not_both _ _ _ _

/-- Instance of C21: the sample 2-prong candidate, selected for both channels
and matched to channel 0 with prompt origin, gets a Prompt scan for channel 0
and a Background scan for channel 1. -/
theorem at_most_one_signal_channel_witness :
    channelOrig sampleCand2Prong.hfflag sampleCand2Prong.flagMCMatchRec
        sampleCand2Prong.originMCRec 0 = some 0
    ∧ TESTBIT sampleCand2Prong.hfflag 1 = true
    ∧ channelOrig sampleCand2Prong.hfflag sampleCand2Prong.flagMCMatchRec
        sampleCand2Prong.originMCRec 1 = some 2 :=
  ⟨by decide, by decide,
    at_most_one_signal_channel.2.1 sampleCand2Prong.hfflag sampleCand2Prong.flagMCMatchRec
      sampleCand2Prong.originMCRec 0 1 (Or.inl (by decide)) (by decide) (by decide)⟩

/-! ## What `process` consumes of a candidate -/

theorem channelOrig_congr {hfflag : Nat} {m m' o : Int} (h : m'.natAbs = m.natAbs) (i : Nat) :
    channelOrig hfflag m' o i = channelOrig hfflag m o i := by
  unfold channelOrig
  rw [h]

/-- The scans of a candidate depend on the true-match bitmask through its
absolute value only. -/
theorem candScans_congr (K hfflag : Nat) {m m' : Int} (o : Int) (h : m'.natAbs = m.natAbs) :
    candScans K hfflag m' o = candScans K hfflag m o := by
  have hfun : channelOrig hfflag m' o = channelOrig hfflag m o :=
    funext (fun i => channelOrig_congr h i)
  unfold candScans flagsAfter
  simp only [hfun]

theorem natAbs_eq_of_abs_eq {m m' : Int} (h : |m'| = |m|) : m'.natAbs = m.natAbs := by
  rw [Int.abs_eq_natAbs, Int.abs_eq_natAbs] at h
  exact_mod_cast h

/-- The operations of a 2-prong scan depend on the candidate and its tracks
through the candidate columns and the first entries of the two sorted arrays
only. -/
theorem scanOps2Prong_congr (cfg : Config) (t o : Nat) (c c' : Cand2Prong)
    (h : c.SameConsumed c') :
    scanOps2Prong cfg t o c' [c'.index0, c'.index1]
      = scanOps2Prong cfg t o c [c.index0, c.index1] := by
  obtain ⟨hpt, hcpa, hdl, hipp, _, _, _, hdca, hmin⟩ := h
  have h1 : (sortedAbsDCA [c'.index0.dcaPrim0, c'.index1.dcaPrim0]).getD 0 0
      = (sortedAbsDCA [c.index0.dcaPrim0, c.index1.dcaPrim0]).getD 0 0 := by
    rw [sortedAbsDCA_two, sortedAbsDCA_two, hdca]
  have h2 : (sortedPt [c'.index0.pt, c'.index1.pt]).getD 0 0
      = (sortedPt [c.index0.pt, c.index1.pt]).getD 0 0 := by
    rw [sortedPt_two, sortedPt_two, hmin]
  unfold scanOps2Prong
  simp only [List.getD_cons_zero, List.getD_cons_succ, hpt, hcpa, hdl, hipp, h1, h2]

/-- The operations of a 3-prong scan depend on the candidate and its tracks
through the candidate columns and the first entries of the two sorted arrays
only. -/
theorem scanOps3Prong_congr (cfg : Config) (t o : Nat) (c c' : Cand3Prong)
    (h : c.SameConsumed c') :
    scanOps3Prong cfg t o c' [c'.index0, c'.index1, c'.index2]
      = scanOps3Prong cfg t o c [c.index0, c.index1, c.index2] := by
  obtain ⟨hpt, hcpa, hdl, _, _, _, hdca, hmin⟩ := h
  have h1 : (sortedAbsDCA [c'.index0.dcaPrim0, c'.index1.dcaPrim0,
      c'.index2.dcaPrim0]).getD 0 0
      = (sortedAbsDCA [c.index0.dcaPrim0, c.index1.dcaPrim0, c.index2.dcaPrim0]).getD 0 0 := by
    rw [sortedAbsDCA_three, sortedAbsDCA_three, hdca]
  have h2 : (sortedPt [c'.index0.pt, c'.index1.pt, c'.index2.pt]).getD 0 0
      = (sortedPt [c.index0.pt, c.index1.pt, c.index2.pt]).getD 0 0 := by
    rw [sortedPt_three, sortedPt_three, hmin]
  unfold scanOps3Prong
  simp only [List.getD_cons_zero, List.getD_cons_succ, hpt, hcpa, hdl, h1, h2]

theorem candOps2Prong_congr (cfg : Config) (c c' : Cand2Prong) (h : c.SameConsumed c') :
    candOps2Prong cfg c' = candOps2Prong cfg c := by
  have hs : candScans2Prong c' = candScans2Prong c := by
    unfold candScans2Prong
    rw [h.2.2.2.2.1, h.2.2.2.2.2.1]
    exact candScans_congr _ _ _ (natAbs_eq_of_abs_eq h.2.2.2.2.2.2.1)
  unfold candOps2Prong
  rw [hs]
  exact List.flatMap_congr (fun s _ => scanOps2Prong_congr cfg s.1 s.2 c c' h)

theorem candOps3Prong_congr (cfg : Config) (c c' : Cand3Prong) (h : c.SameConsumed c') :
    candOps3Prong cfg c' = candOps3Prong cfg c := by
  have hs : candScans3Prong c' = candScans3Prong c := by
    unfold candScans3Prong
    rw [h.2.2.2.1, h.2.2.2.2.1]
    exact candScans_congr _ _ _ (natAbs_eq_of_abs_eq h.2.2.2.2.2.1)
  unfold candOps3Prong
  rw [hs]
  exact List.flatMap_congr (fun s _ => scanOps3Prong_congr cfg s.1 s.2 c c' h)

theorem flatMap_map_congr {α β : Type} (f : α → α) (g : α → List β)
    (h : ∀ a, g (f a) = g a) (l : List α) : (l.map f).flatMap g = l.flatMap g := by
  induction l with
  | nil => rfl
  | cons a l ih => simp only [List.map_cons, List.flatMap_cons, h a, ih]

/-- The smallest of three values does not depend on their order. -/
theorem min_three_perm {a b c a' b' c' : ℚ} (h : [a', b', c'].Perm [a, b, c]) :
    min a' (min b' c') = min a (min b c) := by
  rw [← sortedPt_three, ← sortedPt_three]
  have hs : sortedPt [a', b', c'] = sortedPt [a, b, c] := by
    unfold sortedPt
    apply List.eq_of_perm_of_sorted (r := (· ≤ ·))
    · exact (List.perm_insertionSort _ _).trans (h.trans (List.perm_insertionSort _ _).symm)
    · exact List.sorted_insertionSort _ _
    · exact List.sorted_insertionSort _ _
  rw [hs]

/-- C22: the effect of processing a candidate on the store depends on the
candidate only through its columns, its decay-channel bitmask, its origin tag,
the absolute value of its true-match bitmask, and the smallest absolute DCA and
the smallest pT of its tracks: two candidates that agree on these give the same
result of the loop body of `process`, on every store (the same store, or
failure in both), and so do two runs of `process` on streams of such
candidates. In particular the result is unchanged by exchanging the two tracks
of a 2-prong candidate, by any reordering of the three tracks of a 3-prong
candidate, by negating the DCA of any one track, and by negating the
true-match bitmask. -/
theorem process_reads_minima_and_abs (cfg : Config) (reg : Registry) :
    (∀ c c' : Cand2Prong, c.SameConsumed c' →
      processCand2Prong cfg reg c' = processCand2Prong cfg reg c)
    ∧ (∀ c c' : Cand3Prong, c.SameConsumed c' →
      processCand3Prong cfg reg c' = processCand3Prong cfg reg c)
    ∧ (∀ (c2s : List Cand2Prong) (c3s : List Cand3Prong) (f : Cand2Prong → Cand2Prong)
        (g : Cand3Prong → Cand3Prong),
      (∀ c : Cand2Prong, c.SameConsumed (f c)) → (∀ c : Cand3Prong, c.SameConsumed (g c)) →
      process cfg reg (c2s.map f) (c3s.map g) = process cfg reg c2s c3s)
    ∧ (∀ c : Cand2Prong,
      processCand2Prong cfg reg { c with index0 := c.index1, index1 := c.index0 }
        = processCand2Prong cfg reg c)
    ∧ (∀ (c : Cand3Prong) (t0 t1 t2 : Track),
      [t0, t1, t2].Perm [c.index0, c.index1, c.index2] →
      processCand3Prong cfg reg { c with index0 := t0, index1 := t1, index2 := t2 }
        = processCand3Prong cfg reg c)
    ∧ (∀ c : Cand2Prong,
      processCand2Prong cfg reg { c with index0 := c.index0.negDCA }
        = processCand2Prong cfg reg c
      ∧ processCand2Prong cfg reg { c with index1 := c.index1.negDCA }
        = processCand2Prong cfg reg c)
    ∧ (∀ c : Cand3Prong,
      processCand3Prong cfg reg { c with index0 := c.index0.negDCA }
        = processCand3Prong cfg reg c
      ∧ processCand3Prong cfg reg { c with index1 := c.index1.negDCA }
        = processCand3Prong cfg reg c
      ∧ processCand3Prong cfg reg { c with index2 := c.index2.negDCA }
        = processCand3Prong cfg reg c)
    ∧ (∀ c : Cand2Prong,
      processCand2Prong cfg reg { c with flagMCMatchRec := -c.flagMCMatchRec }
        = processCand2Prong cfg reg c)
    ∧ (∀ c : Cand3Prong,
      processCand3Prong cfg reg { c with flagMCMatchRec := -c.flagMCMatchRec }
        = processCand3Prong cfg reg c) := by
  have g2 : ∀ c c' : Cand2Prong, c.SameConsumed c' →
      processCand2Prong cfg reg c' = processCand2Prong cfg reg c := by
    intro c c' h
    rw [processCand2Prong_eq, processCand2Prong_eq, candOps2Prong_congr cfg c c' h]
  have g3 : ∀ c c' : Cand3Prong, c.SameConsumed c' →
      processCand3Prong cfg reg c' = processCand3Prong cfg reg c := by
    intro c c' h
    rw [processCand3Prong_eq, processCand3Prong_eq, candOps3Prong_congr cfg c c' h]
  refine ⟨g2, g3, ?_, ?_, ?_, ?_, ?_, ?_, ?_⟩
  · intro c2s c3s f g hf hg
    rw [process_eq, process_eq]
    unfold streamOps
    rw [flatMap_map_congr f (candOps2Prong cfg) (fun c => candOps2Prong_congr cfg c (f c) (hf c)),
      flatMap_map_congr g (candOps3Prong cfg) (fun c => candOps3Prong_congr cfg c (g c) (hg c))]
  · intro c
    exact g2 c _ ⟨rfl, rfl, rfl, rfl, rfl, rfl, rfl, min_comm _ _, min_comm _ _⟩
  · intro c t0 t1 t2 hperm
    refine g3 c _ ⟨rfl, rfl, rfl, rfl, rfl, rfl, ?_, ?_⟩
    · exact min_three_perm (by simpa using hperm.map (fun t : Track => |t.dcaPrim0|))
    · exact min_three_perm (by simpa using hperm.map (fun t : Track => t.pt))
  · intro c
    exact ⟨g2 c _ ⟨rfl, rfl, rfl, rfl, rfl, rfl, rfl, by simp [Track.negDCA], rfl⟩,
      g2 c _ ⟨rfl, rfl, rfl, rfl, rfl, rfl, rfl, by simp [Track.negDCA], rfl⟩⟩
  · intro c
    exact ⟨g3 c _ ⟨rfl, rfl, rfl, rfl, rfl, rfl, by simp [Track.negDCA], rfl⟩,
      g3 c _ ⟨rfl, rfl, rfl, rfl, rfl, rfl, by simp [Track.negDCA], rfl⟩,
      g3 c _ ⟨rfl, rfl, rfl, rfl, rfl, rfl, by simp [Track.negDCA], rfl⟩⟩
  · intro c
    exact g2 c _ ⟨rfl, rfl, rfl, rfl, rfl, rfl, abs_neg _, rfl, rfl⟩
  · intro c
    exact g3 c _ ⟨rfl, rfl, rfl, rfl, rfl, abs_neg _, rfl, rfl⟩

/-- Instance of C22: the sample 3-prong candidate with its tracks rotated, and
the sample 2-prong candidate with its tracks exchanged, the DCA of both tracks
and the true-match bitmask negated, are processed as the sample candidates
are. -/
theorem process_reads_minima_and_abs_witness :
    processCand3Prong defaultConfig (bookAll defaultConfig) rotatedCand3Prong
      = processCand3Prong defaultConfig (bookAll defaultConfig) sampleCand3Prong
    ∧ processCand2Prong defaultConfig (bookAll defaultConfig) mirroredCand2Prong
      = processCand2Prong defaultConfig (bookAll defaultConfig) sampleCand2Prong :=
  ⟨(process_reads_minima_and_abs defaultConfig (bookAll defaultConfig)).2.2.2.2.1
      sampleCand3Prong _ _ _
      (@List.perm_append_comm _ [sampleCand3Prong.index2]
        [sampleCand3Prong.index0, sampleCand3Prong.index1]),
    (process_reads_minima_and_abs defaultConfig (bookAll defaultConfig)).1 sampleCand2Prong _
      ⟨rfl, rfl, rfl, rfl, rfl, rfl, by decide,
        by simp only [sampleCand2Prong, mirroredCand2Prong]; norm_num [abs_of_pos, abs_of_neg],
        by simp only [sampleCand2Prong, mirroredCand2Prong]; norm_num⟩⟩

/-! ## Candidates on a threshold -/

theorem applyAll_eq_none {reg : Registry} {ops : List Op} (op : Op) (hop : op ∈ ops)
    (hv : op.valid reg = false) : reg.applyAll ops = none := by
  rw [Registry.applyAll_eq]
  have : ¬ ops.all (fun op => op.valid reg) = true := by
    intro hall
    have := List.all_eq_true.mp hall op hop
    rw [hv] at this
    cases this
  rw [if_neg this]

/-- A candidate that is scanned for a channel gets a summary scan. -/
theorem summaryOrig_of_channel {K hfflag : Nat} {m o : Int} {i orig : Nat} (hi : i < K)
    (h : channelOrig hfflag m o i = some orig) :
    ∃ orig', summaryOrig (flagsAfter K hfflag m o) = some orig' := by
  rw [summaryOrig_flagsAfter]
  rw [channelOrig_eq_spec] at h
  cases hcl : specChannelScan hfflag m o i with
  | none => rw [hcl] at h; cases h
  | some cl =>
    have hmem : cl ∈ specClasses K hfflag m o := by
      unfold specClasses
      exact List.mem_filterMap.mpr ⟨i, List.mem_range.mpr hi, hcl⟩
    unfold specSummary
    split_ifs with h1 h2 h3
    · exact ⟨_, rfl⟩
    · exact ⟨_, rfl⟩
    · exact ⟨_, rfl⟩
    · cases cl
      · exact absurd hmem h1
      · exact absurd hmem h2
      · exact absurd hmem h3

/-- On the store `init` books, the loop body of `process` fails for a 2-prong
candidate that is scanned for a channel: its summary scan finds no histogram. -/
theorem processCand2Prong_init_eq_none (cfg : Config) (c : Cand2Prong) (i orig : Nat)
    (hi : i < n2Prong)
    (h : channelOrig c.hfflag c.flagMCMatchRec c.originMCRec i = some orig) :
    ∃ op, op ∈ candOps2Prong cfg c ∧ op.valid (init cfg) = false := by
  obtain ⟨o', ho'⟩ := summaryOrig_of_channel hi h
  have ho3 := summaryOrig_lt _ _ ho'
  refine ⟨Op.fill1 (tableName 0 o' 2) c.pt, ?_, ?_⟩
  · unfold candOps2Prong
    refine List.mem_flatMap.mpr ⟨(2, o'), mem_candScans.mpr (Or.inr ⟨rfl, ho'⟩), ?_⟩
    rw [scanOps2Prong_eq_loops]
    exact List.mem_cons_self _ _
  · have := init_apply_summary cfg 0 o' (by decide) ho3
    simp only [Op.valid, Registry.get]
    rw [show tableName 0 o' 2 = tableName 0 o' (tableCols 0 - 1) from rfl, this]
    rfl

/-- On the store `init` books, the loop body of `process` fails for a 3-prong
candidate that is scanned for a channel: its summary scan finds no histogram. -/
theorem processCand3Prong_init_eq_none (cfg : Config) (c : Cand3Prong) (i orig : Nat)
    (hi : i < n3Prong)
    (h : channelOrig c.hfflag c.flagMCMatchRec c.originMCRec i = some orig) :
    ∃ op, op ∈ candOps3Prong cfg c ∧ op.valid (init cfg) = false := by
  obtain ⟨o', ho'⟩ := summaryOrig_of_channel hi h
  have ho3 := summaryOrig_lt _ _ ho'
  refine ⟨Op.fill1 (tableName 6 o' 4) c.pt, ?_, ?_⟩
  · unfold candOps3Prong
    refine List.mem_flatMap.mpr ⟨(4, o'), mem_candScans.mpr (Or.inr ⟨rfl, ho'⟩), ?_⟩
    rw [scanOps3Prong_eq_loops]
    exact List.mem_cons_self _ _
  · have := init_apply_summary cfg 6 o' (by decide) ho3
    simp only [Op.valid, Registry.get]
    rw [show tableName 6 o' 4 = tableName 6 o' (tableCols 6 - 1) from rfl, this]
    rfl

/-- On the store `init` books, a run of `process` fails as soon as one candidate
of the streams is scanned for a channel. -/
theorem process_init_eq_none (cfg : Config) (c2s : List Cand2Prong) (c3s : List Cand3Prong)
    (h : (∃ c ∈ c2s, ∃ i, i < n2Prong
          ∧ (channelOrig c.hfflag c.flagMCMatchRec c.originMCRec i).isSome = true)
      ∨ (∃ c ∈ c3s, ∃ i, i < n3Prong
          ∧ (channelOrig c.hfflag c.flagMCMatchRec c.originMCRec i).isSome = true)) :
    process cfg (init cfg) c2s c3s = none := by
  rcases h with ⟨c, hc, i, hi, hs⟩ | ⟨c, hc, i, hi, hs⟩
  · obtain ⟨orig, horig⟩ := Option.isSome_iff_exists.mp hs
    obtain ⟨op, hop, hv⟩ := processCand2Prong_init_eq_none cfg c i orig hi horig
    apply process_eq_none_of_invalid op _ hv
    unfold streamOps
    exact List.mem_append.mpr (Or.inl (List.mem_flatMap.mpr ⟨c, hc, hop⟩))
  · obtain ⟨orig, horig⟩ := Option.isSome_iff_exists.mp hs
    obtain ⟨op, hop, hv⟩ := processCand3Prong_init_eq_none cfg c i orig hi horig
    apply process_eq_none_of_invalid op _ hv
    unfold streamOps
    exact List.mem_append.mpr (Or.inr (List.mem_flatMap.mpr ⟨c, hc, hop⟩))

/-- The Prompt channel-0 scan of the scenario candidate on the store `init`
books with the default configuration: it completes and counts the candidate in
pT bin 2 of the yield histogram; the Prompt summary scan that follows fails,
no histogram being booked under the Prompt summary name. -/
theorem scenario_channel_scan_on_init :
    ∃ reg1, testSelections2Prong defaultConfig D0ToPiK 0 scenarioCand2Prong
        [scenarioCand2Prong.index0, scenarioCand2Prong.index1] (init defaultConfig) = some reg1
      ∧ reg1.count (nameAt histoNames2Prong 0 D0ToPiK) 2 0 = 1
      ∧ reg1 (nameAt histoNames2Prong 0 N2ProngDecays) = none
      ∧ testSelections2Prong defaultConfig N2ProngDecays 0 scenarioCand2Prong
        [scenarioCand2Prong.index0, scenarioCand2Prong.index1] reg1 = none := by
  obtain ⟨reg1, hrun⟩ := testSelections2Prong_succeeds
    (init_holds2 defaultConfig 0 (by decide)) defaultConfig_inBounds 0 scenarioCand2Prong
    [scenarioCand2Prong.index0, scenarioCand2Prong.index1] (by decide)
  have hcells := scenario_scan_cells (init defaultConfig) reg1 0 (by decide)
    (init_wellBooked defaultConfig) (init_zeroed defaultConfig) hrun
  have hnone : reg1 (tableName 0 0 2) = none := by
    rw [scan2_frame defaultConfig _ reg1 0 0 scenarioCand2Prong _ hrun (tableName 0 0 2)]
    · exact init_apply_summary defaultConfig 0 0 (by decide) (by decide)
    · intro hmem
      obtain ⟨k, hk, he⟩ := mem_names2Prong hmem
      have := (@tableName_eq_iff2 0 k 0 0 2 0
        (by decide) hk (by decide) (by decide) (by decide) (by decide)).mp he.symm
      omega
  refine ⟨reg1, hrun, ?_, hnone, ?_⟩
  · have := hcells.1 2
    simpa using this
  · rw [testSelections2Prong_eq]
    apply applyAll_eq_none (Op.fill1 (tableName 0 0 2) scenarioCand2Prong.pt)
    · rw [scanOps2Prong_eq_loops]
      exact List.mem_cons_self _ _
    · simp only [Op.valid, Registry.get]
      rw [hnone]
      rfl

/-- C5 (evaluation at the failing input): the classifier assigns both candidates
of the stream made of the scenario candidate twice to the pair (Prompt,
channel 0), so the claim expects a total of 2 in the Prompt channel-0 yield
counter after `process`. On the store `init` books the run fails: the Prompt
channel-0 scan of the first candidate counts it, the Prompt summary scan that
follows finds no histogram, the loop body fails and the second candidate is
never scanned. The same happens for every configuration and every stream in
which one candidate is scanned for a channel. On the store in which the
summary histograms are booked as well the run completes and the Prompt
channel-0 and the Prompt summary yields both total 2. -/
theorem yield_counter_run_fails :
    [scenarioCand2Prong, scenarioCand2Prong].countP (fun c =>
        decide (specChannelScan c.hfflag c.flagMCMatchRec c.originMCRec D0ToPiK
          = some Classification.Prompt)) = 2
    ∧ process defaultConfig (init defaultConfig) [scenarioCand2Prong, scenarioCand2Prong] []
        = none
    ∧ processCand2Prong defaultConfig (init defaultConfig) scenarioCand2Prong = none
    ∧ (∃ reg1, testSelections2Prong defaultConfig D0ToPiK 0 scenarioCand2Prong
          [scenarioCand2Prong.index0, scenarioCand2Prong.index1] (init defaultConfig)
          = some reg1
        ∧ reg1.count (nameAt histoNames2Prong 0 D0ToPiK) 2 0 = 1
        ∧ reg1 (nameAt histoNames2Prong 0 N2ProngDecays) = none
        ∧ testSelections2Prong defaultConfig N2ProngDecays 0 scenarioCand2Prong
          [scenarioCand2Prong.index0, scenarioCand2Prong.index1] reg1 = none)
    ∧ (∀ (cfg : Config) (c2s : List Cand2Prong) (c3s : List Cand3Prong),
        ((∃ c ∈ c2s, ∃ i, i < n2Prong
            ∧ (channelOrig c.hfflag c.flagMCMatchRec c.originMCRec i).isSome = true)
          ∨ (∃ c ∈ c3s, ∃ i, i < n3Prong
            ∧ (channelOrig c.hfflag c.flagMCMatchRec c.originMCRec i).isSome = true)) →
        process cfg (init cfg) c2s c3s = none)
    ∧ (∃ reg', process defaultConfig (bookAll defaultConfig)
          [scenarioCand2Prong, scenarioCand2Prong] [] = some reg'
        ∧ reg'.sumOverPt (nameAt histoNames2Prong 0 D0ToPiK) 0 = 2
        ∧ reg'.sumOverPt (nameAt histoNames2Prong 0 N2ProngDecays) 0 = 2) := by
  have hscan : ∃ i, i < n2Prong ∧ (channelOrig scenarioCand2Prong.hfflag
      scenarioCand2Prong.flagMCMatchRec scenarioCand2Prong.originMCRec i).isSome = true :=
    ⟨0, by decide, by decide⟩
  refine ⟨by decide, ?_, ?_, scenario_channel_scan_on_init,
    fun cfg c2s c3s h => process_init_eq_none cfg c2s c3s h, ?_⟩
  · exact process_init_eq_none _ _ _
      (Or.inl ⟨scenarioCand2Prong, List.mem_cons_self _ _, hscan⟩)
  · obtain ⟨i, hi, hs⟩ := hscan
    obtain ⟨orig, horig⟩ := Option.isSome_iff_exists.mp hs
    obtain ⟨op, hop, hv⟩ :=
      processCand2Prong_init_eq_none defaultConfig scenarioCand2Prong i orig hi horig
    rw [processCand2Prong_eq]
    exact applyAll_eq_none op hop hv
  · obtain ⟨reg', hrun⟩ := process_succeeds defaultConfig (bookAll defaultConfig)
      [scenarioCand2Prong, scenarioCand2Prong] [] (bookAll_complete _) defaultConfig_inBounds
    have h0 := yield_counter_counts_classified defaultConfig _ reg' _ _ hrun
      (bookAll_wellBooked _) 0 (by decide)
    refine ⟨reg', hrun, ?_, ?_⟩
    · show reg'.sumOverPt (nameAt histoNames2Prong 0 0) 0 = 2
      rw [h0.1 0 (by decide), sumOverPt_of_zeroed (bookAll_zeroed _)]
      decide
    · show reg'.sumOverPt (nameAt histoNames2Prong 0 n2Prong) 0 = 2
      rw [h0.2.1, sumOverPt_of_zeroed (bookAll_zeroed _)]
      decide

/-- C7 (evaluation at the failing input): the pointing-cosine grid of 16
thresholds made of the 15 values of `cospCuts` followed by 0.999 is strictly
increasing, so the claim covers it. With that grid every scan, of any
candidate under any key and on any store, reads `cospCuts[15]`, past the end
of the array, and has no defined result: no pass count of threshold index 16
is determined by the grid, and no run on a classified candidate completes. The
default grids are strictly increasing as well, and on the store `init` books a
run on a classified candidate fails at the summary scan. On the store in which
the summary histograms are booked as well, the run on the sample candidates
completes with the default grids and the pointing-cosine pass counts, summed
over pT, do not increase with the threshold index, while those of the
impact-parameter product do not decrease. -/
theorem monotone_long_grid_scan_undefined :
    longGridConfig.cospCutsToTest.Chain' (· < ·)
    ∧ longGridConfig.cospCutsToTest.length = 16
    ∧ cospCuts.length = 15
    ∧ cospCuts.get? 15 = none
    ∧ (∀ (t o : Nat) (c : Cand2Prong) (tr : List Track) (reg : Registry),
        testSelections2Prong longGridConfig t o c tr reg = none)
    ∧ (∀ (t o : Nat) (c : Cand3Prong) (tr : List Track) (reg : Registry),
        testSelections3Prong longGridConfig t o c tr reg = none)
    ∧ process longGridConfig (init longGridConfig) [scenarioCand2Prong] [] = none
    ∧ defaultConfig.cospCutsToTest.Chain' (· < ·)
    ∧ defaultConfig.impParProdCutsToTest.Chain' (· < ·)
    ∧ process defaultConfig (init defaultConfig) [sampleCand2Prong] [sampleCand3Prong] = none
    ∧ (∃ reg', process defaultConfig (bookAll defaultConfig) [sampleCand2Prong]
          [sampleCand3Prong] = some reg'
        ∧ (∀ i, reg'.sumOverPt (nameAt histoCospNames2Prong 0 D0ToPiK) (i + 2)
            ≤ reg'.sumOverPt (nameAt histoCospNames2Prong 0 D0ToPiK) (i + 1))
        ∧ (∀ i, i + 1 < defaultConfig.impParProdCutsToTest.length →
            reg'.sumOverPt (nameAt histoImpParProdNames2Prong 0 D0ToPiK) (i + 1)
              ≤ reg'.sumOverPt (nameAt histoImpParProdNames2Prong 0 D0ToPiK) (i + 2))) := by
  have hlen : cospCuts.length < longGridConfig.cospCutsToTest.length := by decide
  have h2 : ∀ (t o : Nat) (c : Cand2Prong) (tr : List Track) (reg : Registry),
      testSelections2Prong longGridConfig t o c tr reg = none := by
    intro t o c tr reg
    rw [testSelections2Prong_eq]
    apply applyAll_eq_none Op.outOfBounds _ rfl
    unfold scanOps2Prong
    simp only [List.mem_append]
    exact Or.inl (Or.inl (Or.inl (Or.inl (Or.inr (outOfBounds_mem_cutOps _ _ _ _ _ hlen)))))
  have h3 : ∀ (t o : Nat) (c : Cand3Prong) (tr : List Track) (reg : Registry),
      testSelections3Prong longGridConfig t o c tr reg = none := by
    intro t o c tr reg
    rw [testSelections3Prong_eq]
    apply applyAll_eq_none Op.outOfBounds _ rfl
    unfold scanOps3Prong
    simp only [List.mem_append]
    exact Or.inl (Or.inl (Or.inl (Or.inr (outOfBounds_mem_cutOps _ _ _ _ _ hlen))))
  refine ⟨?_, rfl, rfl, rfl, h2, h3, ?_, ?_, ?_, ?_, ?_⟩
  · simp only [longGridConfig, cospCuts, List.cons_append, List.nil_append, List.chain'_cons,
      List.chain'_singleton, and_true]
    norm_num
  · apply process_eq_none_of_invalid Op.outOfBounds _ rfl
    apply mem_streamOps2 (c := scenarioCand2Prong) (s := (0, 0)) (List.mem_singleton.mpr rfl)
      (by decide)
    unfold scanOps2Prong
    simp only [List.mem_append]
    exact Or.inl (Or.inl (Or.inl (Or.inl (Or.inr (outOfBounds_mem_cutOps _ _ _ _ _ hlen)))))
  · simp only [defaultConfig, cospCutsVec, cospCuts, nCospCutsToTest, List.take,
      List.chain'_cons, List.chain'_singleton, and_true]
    norm_num
  · simp only [defaultConfig, impParProdCutsVec, impParProdCuts, nImpParProdCutsToTest,
      List.take, List.chain'_cons, List.chain'_singleton, and_true]
    norm_num
  · exact process_init_eq_none _ _ _
      (Or.inl ⟨sampleCand2Prong, List.mem_singleton.mpr rfl, 0, by decide, by decide⟩)
  · obtain ⟨reg', hrun⟩ := process_succeeds defaultConfig (bookAll defaultConfig)
      [sampleCand2Prong] [sampleCand3Prong] (bookAll_complete _) defaultConfig_inBounds
    refine ⟨reg', hrun, fun i => ?_, fun i hi => ?_⟩
    · exact ((pass_count_monotone defaultConfig _ reg' _ _ hrun (bookAll_wellBooked _)
        (bookAll_zeroed _) 0 0 i (by decide)).1 (by decide)).1
    · exact ((pass_count_monotone defaultConfig _ reg' _ _ hrun (bookAll_wellBooked _)
        (bookAll_zeroed _) 0 0 i (by decide)).1 (by decide)).2.2.1 hi

end HfSelOptimisation
